import Mathlib

/-!
# Containers: the unique set, the ordered map, the sorted list and the array set

A shallow embedding of `C/set.c`, `C/ordered_map.c`, `C++/sorted_list.h` and `C++/set.h`,
and of the parts of `C/list.c` and `C/stack.c` that the properties below are about.

Modelling conventions, shared by the three parts.

* A singly linked chain of nodes is the Lean list of the payloads of the nodes
  reachable from `head`, in chain order; `head == NULL` is the empty list.
* A handle (`Set`, `Map`) is a pointer to the structure and may be `NULL`: it is
  an `Option` of the structure. A function that mutates the structure in place
  returns the structure after the call next to its C return value.
* An `Element` (`void*`) argument may be `NULL`: it is an `Option`.
* The `count` field is kept as its own field (`size`); it is never derived from
  the chain.
* A callback is a function pointer: an address (compared by `==` in the C code)
  and a behaviour. A duplication callback returns `none` for `NULL`.
* The outcome of each `malloc` of a node or of a handle is an explicit
  argument. Where the code writes every field of the block before it reads
  one, the argument is a Boolean (`true`: the allocation succeeds), and a bulk
  operation takes a stream `mem : Nat → Bool`, one entry for the handle and one
  for every call of the insertion primitive it makes.
* `createNodeElement` of `set.c` never writes the `next` field of the node it
  returns, and `setAdd` links that node as the last one of the chain. `malloc`
  does not clear storage, so the outcome of that `malloc` is an `Option Link`:
  `none` when the allocation fails, otherwise what the bytes of the block read
  as where `next` is stored, `Link.null` or `Link.wild`. The functions that
  make nodes (`setAdd` and the functions that call it) therefore take and
  return, next to the structure, the link that ends its chain. The other
  functions of `set.c` are modelled on chains that end in `NULL`.
* Dereferencing `NULL`, or following a link that reads as a pointer the program
  never stored, has no defined result: the function returns `none`.
* The `int` count is a mathematical integer; a chain of `2^31` nodes is out of
  reach.
* The array of the C++ `Set<T>` is the list of its allocated slots; an index outside
  the array has no defined result (`none`).
-/

/-- A C function pointer: the address, which is what `==` compares, and what a call does. -/
structure FnPtr (α β : Type) where
  addr : Nat
  call : α → β

namespace CSet

/-- Result codes of the set. `set.c` returns `SET_ITEM_ALREADY_EXISTS` and
`SET_ITEM_DOES_NOT_EXIST`; the enumeration in `set.h` lists only the first three. -/
inductive SetResult where
  | SET_SUCCESS
  | SET_OUT_OF_MEMORY
  | SET_NULL_ARG
  | SET_ITEM_ALREADY_EXISTS
  | SET_ITEM_DOES_NOT_EXIST
  deriving DecidableEq, Repr

/-- The structure `struct set_t`. `head` is the chain of `data` payloads; `iterator` is the
position in the chain of the node the internal iterator points at (`none` for `NULL`). -/
structure set_t (E : Type) where
  head : List E
  iterator : Option Nat
  size : Int
  copyElement : FnPtr E (Option E)
  freeElement : FnPtr E Unit
  equalElements : FnPtr E (E → Bool)

/-- The handle type `Set`, a possibly null pointer to a `set_t`. -/
abbrev Set (E : Type) := Option (set_t E)

/-- What a `next` field, or `head`, reads as when it does not point at a node of the
chain: `NULL`, or a pointer that is not `NULL` and that no statement of the program stored
there (the bytes `malloc` left in the block). Following a `wild` link has no defined
result. -/
inductive Link where
  | null
  | wild
  deriving DecidableEq, Repr

/-- The structure `struct Node` as `createNodeElement` returns it: the duplicated payload,
and what its `next` field reads as. -/
structure Node (E : Type) where
  data : E
  next : Link

variable {E : Type}

/-- Function `setCreate`: `NULL` when a callback is missing or the allocation fails. -/
def setCreate (copyElement : Option (FnPtr E (Option E)))
    (freeElement : Option (FnPtr E Unit))
    (equalElements : Option (FnPtr E (E → Bool))) (mallocOk : Bool) : Set E :=
  match copyElement, freeElement, equalElements with
  | some c, some f, some q =>
    if mallocOk then
      some { head := [], iterator := none, size := 0,
             copyElement := c, freeElement := f, equalElements := q }
    else none
  | _, _, _ => none

/-- Function `setIsEmpty`: `set && !set->size`. -/
def setIsEmpty (set : Set E) : Bool :=
  match set with
  | none => false
  | some s => s.size == 0

/-- Function `setGetSize`. -/
def setGetSize (set : Set E) : Int :=
  match set with
  | none => 0
  | some s => s.size

/-- Static function `createNodeElement`: the structure after the call (the count is
incremented only on success) and the new node, `none` for a `NULL` node. The function
assigns `data` and nothing else: `next` of the node it returns is what `block`, the
storage `malloc` returned, held at that place. -/
def createNodeElement (set : set_t E) (element : E) (block : Option Link) :
    set_t E × Option (Node E) :=
  match block with
  | none => (set, none)
  | some next =>
    match set.copyElement.call element with
    | none => (set, none)
    | some data => ({ set with size := set.size + 1 }, some { data := data, next := next })

/-- Static function `removeNodeElement`: releases the payload and decrements the count. -/
def removeNodeElement (set : set_t E) (_node : E) : set_t E :=
  { set with size := set.size - 1 }

/-- The loop `while (set->head != NULL)` of `setClear`, one node per iteration. -/
def setClear_loop : set_t E → List E → set_t E
  | set, [] => { set with head := [] }
  | set, ptr :: rest => setClear_loop (removeNodeElement { set with head := rest } ptr) rest

/-- Function `setClear`. -/
def setClear (set : Set E) : Set E × SetResult :=
  match set with
  | none => (none, SetResult.SET_NULL_ARG)
  | some s => (some (setClear_loop s s.head), SetResult.SET_SUCCESS)

/-- The loop `while (next != NULL)` of `setAdd`, with `ptr` the current node, the list
the chain from `next` on, and `last` the link that ends the chain: `some true` when the
body returns `SET_ITEM_ALREADY_EXISTS`, `some false` when the loop runs out with `ptr` the
last node. When `ptr` is the last node, `next` is `last`: if it reads as `NULL` the loop
ends without comparing `ptr`; if it is wild the body compares `ptr` and, when it is not
equal, moves `ptr` to the wild pointer and reads through it (`none`). -/
def setAdd_loop (equalElements : E → E → Bool) (element : E) (last : Link) :
    E → List E → Option Bool
  | ptr, [] =>
    match last with
    | Link.null => some false
    | Link.wild => if equalElements ptr element then some true else none
  | ptr, next :: rest =>
    if equalElements ptr element then some true
    else setAdd_loop equalElements element last next rest

/-- Function `setAdd` on a structure whose chain ends in the link `last`; `block` is the
outcome of the `malloc` of `createNodeElement`. The result is the structure after the
call, the value returned and the link that ends the chain after the call: the node linked
on success keeps the `next` its block held. The outer `none` is a read through `NULL` or
through a wild pointer. -/
def setAdd (set : Set E) (last : Link) (element : Option E) (block : Option Link) :
    Option (Set E × SetResult × Link) :=
  match set, element with
  | none, _ => some (none, SetResult.SET_NULL_ARG, last)
  | some s, none => some (some s, SetResult.SET_NULL_ARG, last)
  | some s, some e =>
    if setIsEmpty (some s) then
      match createNodeElement s e block with
      | (s1, none) =>
        some (some { s1 with head := [] }, SetResult.SET_OUT_OF_MEMORY, Link.null)
      | (s1, some node) =>
        some (some { s1 with head := [node.data] }, SetResult.SET_SUCCESS, node.next)
    else
      match s.head with
      | [] => none
      | ptr :: next =>
        match setAdd_loop s.equalElements.call e last ptr next with
        | none => none
        | some true => some (some s, SetResult.SET_ITEM_ALREADY_EXISTS, last)
        | some false =>
          match createNodeElement s e block with
          | (s1, none) => some (some s1, SetResult.SET_OUT_OF_MEMORY, Link.null)
          | (s1, some node) =>
            some (some { s1 with head := s.head ++ [node.data] }, SetResult.SET_SUCCESS,
              node.next)

/-- The loop `while (ptr->next != NULL)` of `setRemove` over the chain after `ptr`:
the first node equal to `element` and the chain with that node unlinked, `none` when the
loop runs out. -/
def setRemove_loop (equalElements : E → E → Bool) (element : E) :
    List E → Option (E × List E)
  | [] => none
  | next :: rest =>
    if equalElements next element then some (next, rest)
    else (setRemove_loop equalElements element rest).map (fun r => (r.1, next :: r.2))

/-- Function `setRemove`. -/
def setRemove (set : Set E) (element : Option E) : Set E × SetResult :=
  match set, element with
  | none, _ => (none, SetResult.SET_NULL_ARG)
  | some s, none => (some s, SetResult.SET_NULL_ARG)
  | some s, some e =>
    match s.head with
    | [] => (some s, SetResult.SET_ITEM_DOES_NOT_EXIST)
    | ptr :: rest =>
      if s.equalElements.call ptr e then
        (some (removeNodeElement { s with head := rest } ptr), SetResult.SET_SUCCESS)
      else
        match setRemove_loop s.equalElements.call e rest with
        | some (next, rest1) =>
          (some (removeNodeElement { s with head := ptr :: rest1 } next), SetResult.SET_SUCCESS)
        | none => (some s, SetResult.SET_ITEM_DOES_NOT_EXIST)

/-- The loop `while (ptr != NULL)` of `setContains`. -/
def setContains_loop (equalElements : E → E → Bool) (element : E) : List E → Bool
  | [] => false
  | ptr :: rest =>
    if equalElements ptr element then true
    else setContains_loop equalElements element rest

/-- Function `setContains`. -/
def setContains (set : Set E) (element : Option E) : Bool :=
  match set, element with
  | some s, some e => setContains_loop s.equalElements.call e s.head
  | _, _ => false

/-- Function `setDestroy` on a structure whose chain ends in the link `last`: the handle
is gone after the call and nothing is returned. `setClear` inside it follows every link of
the chain, the last one included, so the call has a defined result only on `NULL` and on
a chain that ends in `NULL`. -/
def setDestroy (set : Set E) (last : Link) : Option Unit :=
  match set, last with
  | none, _ => some ()
  | some _, Link.null => some ()
  | some _, Link.wild => none

/-- A loop `while (ptr != NULL) { setAdd(set, ptr->data); ptr = ptr->next; }`, as in
`setUnion`: the result of `setAdd` is dropped. The counter indexes the allocation stream;
`last` is the link that ends the chain of `set`. -/
def setAddAll_loop (mem : Nat → Option Link) :
    Nat → Set E → Link → List E → Option (Nat × Set E × Link)
  | i, set, last, [] => some (i, set, last)
  | i, set, last, ptr :: rest =>
    match setAdd set last (some ptr) (mem i) with
    | none => none
    | some (set1, _, last1) => setAddAll_loop mem (i + 1) set1 last1 rest

/-- The loop of `setCopy`: stops at the first `setAdd` that does not return `SET_SUCCESS`
(the inner `none`), after which the new set is destroyed. -/
def setCopy_loop (mem : Nat → Option Link) :
    Nat → Set E → Link → List E → Option (Option (Set E × Link))
  | _, set, last, [] => some (some (set, last))
  | i, set, last, ptr :: rest =>
    match setAdd set last (some ptr) (mem i) with
    | none => none
    | some (set1, r, last1) =>
      if r ≠ SetResult.SET_SUCCESS then (setDestroy set1 last1).map (fun _ => none)
      else setCopy_loop mem (i + 1) set1 last1 rest

/-- Function `setCopy`; `mem 0` is the allocation of the handle. The result is the handle
returned and the link that ends its chain (`Link.null` next to a `NULL` handle). -/
def setCopy (set : Set E) (mem : Nat → Option Link) : Option (Set E × Link) :=
  match set with
  | none => some (none, Link.null)
  | some s =>
    match setCreate (some s.copyElement) (some s.freeElement) (some s.equalElements)
        (mem 0).isSome with
    | none => some (none, Link.null)
    | some n =>
      match setCopy_loop mem 1 (some { n with size := 0 }) Link.null s.head with
      | none => none
      | some none => some (none, Link.null)
      | some (some (none, _)) => none
      | some (some (some n1, last)) =>
        some (some { n1 with iterator := none, copyElement := s.copyElement,
                             freeElement := s.freeElement, equalElements := s.equalElements },
              last)

/-- Function `setUnion`; `mem 0` is the allocation of the handle. The result is the handle
returned and the link that ends its chain. -/
def setUnion (set1 set2 : Set E) (mem : Nat → Option Link) : Option (Set E × Link) :=
  match set1, set2 with
  | none, none => some (none, Link.null)
  | none, some s2 => setCopy (some s2) mem
  | some s1, none => setCopy (some s1) mem
  | some s1, some s2 =>
    if s1.copyElement.addr ≠ s2.copyElement.addr ∨
       s1.freeElement.addr ≠ s2.freeElement.addr ∨
       s1.equalElements.addr ≠ s2.equalElements.addr then some (none, Link.null)
    else
      let set := setCreate (some s1.copyElement) (some s1.freeElement)
        (some s1.equalElements) (mem 0).isSome
      match setAddAll_loop mem 1 set Link.null s1.head with
      | none => none
      | some (i, seta, lasta) =>
        match setAddAll_loop mem i seta lasta s2.head with
        | none => none
        | some (_, setb, lastb) => some (setb, lastb)

/-- A loop `while (ptr != NULL) { if (setContains(other, ptr->data)) setAdd(set, ptr->data);
ptr = ptr->next; }` of `setIntersection`; `last` is the link that ends the chain of
`set`. -/
def setIntersection_loop (mem : Nat → Option Link) (other : Set E) :
    Nat → Set E → Link → List E → Option (Nat × Set E × Link)
  | i, set, last, [] => some (i, set, last)
  | i, set, last, ptr :: rest =>
    if setContains other (some ptr) then
      match setAdd set last (some ptr) (mem i) with
      | none => none
      | some (set1, _, last1) => setIntersection_loop mem other (i + 1) set1 last1 rest
    else setIntersection_loop mem other i set last rest

/-- Function `setIntersection`; `mem 0` is the allocation of the handle. The result is the
handle returned and the link that ends its chain. -/
def setIntersection (set1 set2 : Set E) (mem : Nat → Option Link) : Option (Set E × Link) :=
  match set1, set2 with
  | none, none => some (none, Link.null)
  | none, some s2 =>
    some (setCreate (some s2.copyElement) (some s2.freeElement) (some s2.equalElements)
      (mem 0).isSome, Link.null)
  | some s1, none =>
    some (setCreate (some s1.copyElement) (some s1.freeElement) (some s1.equalElements)
      (mem 0).isSome, Link.null)
  | some s1, some s2 =>
    if s1.copyElement.addr ≠ s2.copyElement.addr ∨
       s1.freeElement.addr ≠ s2.freeElement.addr ∨
       s1.equalElements.addr ≠ s2.equalElements.addr then some (none, Link.null)
    else
      let set := setCreate (some s1.copyElement) (some s1.freeElement)
        (some s1.equalElements) (mem 0).isSome
      match setIntersection_loop mem (some s2) 1 set Link.null s1.head with
      | none => none
      | some (i, seta, lasta) =>
        match setIntersection_loop mem (some s1) i seta lasta s2.head with
        | none => none
        | some (_, setb, lastb) => some (setb, lastb)

/-- The enumeration of a set: the chain behind the handle, empty for `NULL`. -/
def elements (set : Set E) : List E :=
  match set with
  | none => []
  | some s => s.head

/-- Callbacks for sets of natural numbers: a copy that always succeeds. -/
def natCopy : FnPtr Nat (Option Nat) := ⟨1, fun n => some n⟩

/-- Callbacks for sets of natural numbers: a release. -/
def natFree : FnPtr Nat Unit := ⟨2, fun _ => ()⟩

/-- Callbacks for sets of natural numbers: equality of numbers. -/
def natEqual : FnPtr Nat (Nat → Bool) := ⟨3, fun a b => a == b⟩

/-- An allocation stream in which every `malloc` succeeds and returns storage that reads
as zero. -/
def allOk : Nat → Option Link := fun _ => some Link.null

/-- An allocation stream in which every `malloc` succeeds, the block of call `k` holds a
wild pointer where `next` is stored, and every other block reads as zero. -/
def wildAt (k : Nat) : Nat → Option Link :=
  fun i => if i = k then some Link.wild else some Link.null

/-- The set of natural numbers whose chain holds the given numbers, with the count equal
to the number of nodes and the three callbacks above. -/
def natSet (xs : List Nat) : Set Nat :=
  some { head := xs, iterator := none, size := xs.length,
         copyElement := natCopy, freeElement := natFree, equalElements := natEqual }

/-- No two elements of the chain are equal under the equality predicate. -/
def NoTwoEqual (equalElements : E → E → Bool) (l : List E) : Prop :=
  l.Pairwise (fun a b => equalElements a b = false)

/-- One public mutating call on a set, with the outcome of its allocation. -/
inductive SetOp (E : Type) where
  | add (element : Option E) (block : Option Link)
  | remove (element : Option E)
  | clear

/-- The structure and the link that ends its chain after one call; `none` when the call
has no defined result. `setRemove` follows the links up to the node it unlinks, and that
node hands its own link to what pointed at it: on a chain that ends in a wild link the
call has a defined result when it returns at once on a `NULL` argument or finds the
element, and the chain then still ends in the wild link. `setClear` follows every link. -/
def applyOp (set : Set E) (last : Link) : SetOp E → Option (Set E × Link)
  | SetOp.add e block => (setAdd set last e block).map (fun r => (r.1, r.2.2))
  | SetOp.remove e =>
    match last with
    | Link.null => some ((setRemove set e).1, Link.null)
    | Link.wild =>
      if set.isNone || e.isNone || setContains set e then
        some ((setRemove set e).1, Link.wild)
      else none
  | SetOp.clear =>
    match set, last with
    | some _, Link.wild => none
    | _, _ => some ((setClear set).1, last)

/-- The structure and the link that ends its chain after a sequence of calls, applied
from the left. -/
def applyOps : Set E → Link → List (SetOp E) → Option (Set E × Link)
  | set, last, [] => some (set, last)
  | set, last, op :: ops =>
    match applyOp set last op with
    | none => none
    | some (set1, last1) => applyOps set1 last1 ops

end CSet

namespace CMap

/-- Result codes of the map, the enumeration `MapResult` of `ordered_map.h`. -/
inductive MapResult where
  | MAP_SUCCESS
  | MAP_OUT_OF_MEMORY
  | MAP_NULL_ARGUMENT
  | MAP_ITEM_ALREADY_EXISTS
  | MAP_ITEM_DOES_NOT_EXIST
  deriving DecidableEq, Repr

/-- The payload of a `struct node_t`: the `data` pointer, which the update path can leave
`NULL`, and the `key`. The `next` link is the position in the chain. -/
structure Node (K V : Type) where
  data : Option V
  key : K
  deriving DecidableEq, Repr

/-- The structure `struct ordered_map_t`. -/
structure ordered_map_t (K V : Type) where
  head : List (Node K V)
  iterator : Option Nat
  size : Int
  copyDataElement : FnPtr V (Option V)
  copyKeyElement : FnPtr K (Option K)
  freeDataElement : FnPtr (Option V) Unit
  freeKeyElement : FnPtr K Unit
  compareKeyElements : FnPtr K (K → Int)

/-- The handle type `Map`, a possibly null pointer to an `ordered_map_t`. -/
abbrev Map (K V : Type) := Option (ordered_map_t K V)

variable {K V : Type}

/-- Function `mapCreate`: `NULL` when a callback is missing or the allocation fails. -/
def mapCreate (copyDataElement : Option (FnPtr V (Option V)))
    (copyKeyElement : Option (FnPtr K (Option K)))
    (freeDataElement : Option (FnPtr (Option V) Unit))
    (freeKeyElement : Option (FnPtr K Unit))
    (compareKeyElements : Option (FnPtr K (K → Int))) (mallocOk : Bool) : Map K V :=
  match copyDataElement, copyKeyElement, freeDataElement, freeKeyElement,
        compareKeyElements with
  | some cd, some ck, some fd, some fk, some cmp =>
    if mallocOk then
      some { head := [], iterator := none, size := 0,
             copyDataElement := cd, copyKeyElement := ck,
             freeDataElement := fd, freeKeyElement := fk, compareKeyElements := cmp }
    else none
  | _, _, _, _, _ => none

/-- Function `mapGetSize`; `NULL_MAP_SIZE` is `-1`. -/
def mapGetSize (map : Map K V) : Int :=
  match map with
  | none => -1
  | some m => m.size

/-- The loop `while (ptr != NULL)` of `mapContains`. -/
def mapContains_loop (compareKeyElements : K → K → Int) (element : K) :
    List (Node K V) → Bool
  | [] => false
  | ptr :: rest =>
    if compareKeyElements ptr.key element = 0 then true
    else mapContains_loop compareKeyElements element rest

/-- Function `mapContains`. -/
def mapContains (map : Map K V) (element : Option K) : Bool :=
  match map, element with
  | some m, some e => mapContains_loop m.compareKeyElements.call e m.head
  | _, _ => false

/-- The loop `while (next != NULL && compare(keyElement, next->key) > 0)` of
`addNewElement`: the first argument is the position of `ptr`, the second the chain from
`next` on; the result is the position of `ptr` when the loop ends. -/
def addNewElement_loop (compareKeyElements : K → K → Int) (keyElement : K) :
    Nat → List (Node K V) → Nat
  | i, [] => i
  | i, next :: rest =>
    if compareKeyElements keyElement next.key > 0 then
      addNewElement_loop compareKeyElements keyElement (i + 1) rest
    else i

/-- Static function `addNewElement`: the structure after the call and the Boolean result. -/
def addNewElement (map : ordered_map_t K V) (keyElement : K) (dataElement : V)
    (mallocOk : Bool) : ordered_map_t K V × Bool :=
  if mallocOk then
    match map.copyKeyElement.call keyElement with
    | none => (map, false)
    | some key =>
      match map.copyDataElement.call dataElement with
      | none => (map, false)
      | some data =>
        let new_node : Node K V := { data := some data, key := key }
        match map.head with
        | [] => ({ map with head := [new_node], size := map.size + 1 }, true)
        | first :: rest =>
          let p := addNewElement_loop map.compareKeyElements.call keyElement 0 rest
          if p = 0 ∧ map.compareKeyElements.call keyElement first.key < 0 then
            ({ map with head := new_node :: first :: rest, size := map.size + 1 }, true)
          else
            ({ map with
                head := (first :: rest).take (p + 1) ++ new_node :: (first :: rest).drop (p + 1),
                size := map.size + 1 }, true)
  else (map, false)

/-- The loop `while (compare(keyElement, ptr->key)) ptr = ptr->next;` of
`updateExistingElement` followed by the replacement of `ptr->data`: the chain after the
call and the Boolean result; `none` when `ptr` runs off the end of the chain. -/
def updateExistingElement_loop (compareKeyElements : K → K → Int)
    (copyDataElement : V → Option V) (keyElement : K) (dataElement : V) :
    List (Node K V) → Option (List (Node K V) × Bool)
  | [] => none
  | ptr :: rest =>
    if compareKeyElements keyElement ptr.key ≠ 0 then
      (updateExistingElement_loop compareKeyElements copyDataElement keyElement dataElement
        rest).map (fun r => (ptr :: r.1, r.2))
    else
      some ({ ptr with data := copyDataElement dataElement } :: rest,
            (copyDataElement dataElement).isSome)

/-- Static function `updateExistingElement`: the old `data` is released after the new
one is stored in the node, and before the new one is tested. -/
def updateExistingElement (map : ordered_map_t K V) (keyElement : K) (dataElement : V) :
    Option (ordered_map_t K V × Bool) :=
  (updateExistingElement_loop map.compareKeyElements.call map.copyDataElement.call
    keyElement dataElement map.head).map (fun r => ({ map with head := r.1 }, r.2))

/-- Function `mapPut`. The outer `none` is the scan of `updateExistingElement` running off
the end of the chain. -/
def mapPut (map : Map K V) (keyElement : Option K) (dataElement : Option V)
    (mallocOk : Bool) : Option (Map K V × MapResult) :=
  match map, keyElement, dataElement with
  | some m, some k, some d =>
    if ¬ mapContains (some m) (some k) then
      match addNewElement m k d mallocOk with
      | (m1, false) => some (some m1, MapResult.MAP_OUT_OF_MEMORY)
      | (m1, true) => some (some m1, MapResult.MAP_SUCCESS)
    else
      match updateExistingElement m k d with
      | none => none
      | some (m1, false) => some (some m1, MapResult.MAP_OUT_OF_MEMORY)
      | some (m1, true) => some (some m1, MapResult.MAP_SUCCESS)
  | map, _, _ => some (map, MapResult.MAP_NULL_ARGUMENT)

/-- The loop `while (ptr != NULL)` of `mapGet`. -/
def mapGet_loop (compareKeyElements : K → K → Int) (keyElement : K) :
    List (Node K V) → Option V
  | [] => none
  | ptr :: rest =>
    if compareKeyElements ptr.key keyElement = 0 then ptr.data
    else mapGet_loop compareKeyElements keyElement rest

/-- Function `mapGet`: the `data` pointer held by the node, not a copy. -/
def mapGet (map : Map K V) (keyElement : Option K) : Option V :=
  match map, keyElement with
  | some m, some k => mapGet_loop m.compareKeyElements.call k m.head
  | _, _ => none

/-- Static function `removeNodeElement` of the map. -/
def removeNodeElement (map : ordered_map_t K V) (_node : Node K V) : ordered_map_t K V :=
  { map with size := map.size - 1 }

/-- The loop `while (map->head != NULL)` of `mapClear`, one node per iteration. -/
def mapClear_loop : ordered_map_t K V → List (Node K V) → ordered_map_t K V
  | map, [] => { map with head := [] }
  | map, ptr :: rest => mapClear_loop (removeNodeElement { map with head := rest } ptr) rest

/-- Function `mapClear`. -/
def mapClear (map : Map K V) : Map K V × MapResult :=
  match map with
  | none => (none, MapResult.MAP_NULL_ARGUMENT)
  | some m => (some (mapClear_loop m m.head), MapResult.MAP_SUCCESS)

/-- The loop `while (ptr->next != NULL)` of `mapRemove` over the chain after `ptr`: the
first node whose key compares equal and the chain with that node unlinked, `none` when
the loop runs out. -/
def mapRemove_loop (compareKeyElements : K → K → Int) (keyElement : K) :
    List (Node K V) → Option (Node K V × List (Node K V))
  | [] => none
  | next :: rest =>
    if compareKeyElements next.key keyElement = 0 then some (next, rest)
    else (mapRemove_loop compareKeyElements keyElement rest).map
      (fun r => (r.1, next :: r.2))

/-- Function `mapRemove`. -/
def mapRemove (map : Map K V) (keyElement : Option K) : Map K V × MapResult :=
  match map, keyElement with
  | none, _ => (none, MapResult.MAP_NULL_ARGUMENT)
  | some m, none => (some m, MapResult.MAP_NULL_ARGUMENT)
  | some m, some k =>
    match m.head with
    | [] => (some m, MapResult.MAP_ITEM_DOES_NOT_EXIST)
    | ptr :: rest =>
      if m.compareKeyElements.call ptr.key k = 0 then
        (some (removeNodeElement { m with head := rest } ptr), MapResult.MAP_SUCCESS)
      else
        match mapRemove_loop m.compareKeyElements.call k rest with
        | some (next, rest1) =>
          (some (removeNodeElement { m with head := ptr :: rest1 } next),
            MapResult.MAP_SUCCESS)
        | none => (some m, MapResult.MAP_ITEM_DOES_NOT_EXIST)

/-- The chain of nodes behind a handle, empty for `NULL`. -/
def nodes (map : Map K V) : List (Node K V) :=
  match map with
  | none => []
  | some m => m.head

/-- The keys of the chain behind a handle, in chain order. -/
def keys (map : Map K V) : List K :=
  (nodes map).map (fun n => n.key)

/-- A comparator is a consistent three-way total order: swapping the arguments swaps the
sign, and `compare(a,b) <= 0` is transitive. -/
structure IsTotalOrder (cmp : K → K → Int) : Prop where
  swap : ∀ a b, cmp a b < 0 ↔ 0 < cmp b a
  le_trans : ∀ a b c, cmp a b ≤ 0 → cmp b c ≤ 0 → cmp a c ≤ 0

/-- The key duplication returns a key that compares equal to its argument. -/
def CopyKeepsKey (cmp : K → K → Int) (copy : K → Option K) : Prop :=
  ∀ k k1, copy k = some k1 → cmp k k1 = 0

/-- The keys of a chain are strictly ascending: every key compares less than every later one. -/
def Ascending (cmp : K → K → Int) (l : List (Node K V)) : Prop :=
  l.Pairwise (fun a b => cmp a.key b.key < 0)

/-- One public mutating call on a map, with the outcome of its allocation. -/
inductive MapOp (K V : Type) where
  | put (keyElement : Option K) (dataElement : Option V) (mallocOk : Bool)
  | remove (keyElement : Option K)
  | clear

/-- The map after one call; `none` when the call has no defined result. -/
def applyOp (map : Map K V) : MapOp K V → Option (Map K V)
  | MapOp.put k d ok => (mapPut map k d ok).map Prod.fst
  | MapOp.remove k => some (mapRemove map k).1
  | MapOp.clear => some (mapClear map).1

/-- The map after a sequence of calls, applied from the left. -/
def applyOps : Map K V → List (MapOp K V) → Option (Map K V)
  | map, [] => some map
  | map, op :: ops =>
    match applyOp map op with
    | none => none
    | some map1 => applyOps map1 ops

/-- Key comparator on natural numbers: the difference, as `strcmp` would give. -/
def natCompare : FnPtr Nat (Nat → Int) := ⟨5, fun a b => (a : Int) - (b : Int)⟩

/-- Duplication of a natural number that always succeeds. -/
def natCopy : FnPtr Nat (Option Nat) := ⟨1, fun n => some n⟩

/-- Duplication of a natural number that fails on `2` and succeeds on every other number. -/
def natCopyFailsOn2 : FnPtr Nat (Option Nat) := ⟨6, fun n => if n = 2 then none else some n⟩

/-- Release of a data element. -/
def natFreeData : FnPtr (Option Nat) Unit := ⟨2, fun _ => ()⟩

/-- Release of a key element. -/
def natFreeKey : FnPtr Nat Unit := ⟨3, fun _ => ()⟩

/-- The map of natural numbers with the given chain, the count equal to the number of
nodes, and the data duplication given. -/
def natMap (copyData : FnPtr Nat (Option Nat)) (l : List (Node Nat Nat)) : Map Nat Nat :=
  some { head := l, iterator := none, size := l.length,
         copyDataElement := copyData, copyKeyElement := natCopy,
         freeDataElement := natFreeData, freeKeyElement := natFreeKey,
         compareKeyElements := natCompare }

end CMap

namespace containers

/-- The class `SortedList<T>`: the chain of `data` payloads and the count. `addr` is the
address of the object, which is what a cursor records as its owner. -/
structure SortedList (T : Type) where
  addr : Nat
  head : List T
  size : Int

/-- The class `SortedList<T>::const_iterator`: the address of the owning list and the
position in its chain of `current_node` (`none` for `NULL_ELEMENT`). -/
structure const_iterator where
  list : Nat
  current_node : Option Nat
  deriving DecidableEq, Repr

variable {T : Type}

/-- The default constructor `SortedList()` for an object at address `addr`. -/
def SortedList.empty (addr : Nat) : SortedList T :=
  { addr := addr, head := [], size := 0 }

/-- The loop `while (next != NULL_ELEMENT && next->data < element)` of `insert`: the first
argument is the position of `ptr`, the second the chain from `next` on; the result is the
position of `ptr` when the loop ends. -/
def SortedList.insert_loop (lt : T → T → Bool) (element : T) : Nat → List T → Nat
  | i, [] => i
  | i, next :: rest =>
    if lt next element then SortedList.insert_loop lt element (i + 1) rest else i

/-- Method `insert`; `lt` is `operator<` of `T`. -/
def SortedList.insert (lt : T → T → Bool) (l : SortedList T) (element : T) : SortedList T :=
  match l.head with
  | [] => { l with head := [element], size := l.size + 1 }
  | first :: rest =>
    if lt element first then
      { l with head := element :: first :: rest, size := l.size + 1 }
    else
      let p := SortedList.insert_loop lt element 0 rest
      { l with
          head := (first :: rest).take (p + 1) ++ element :: (first :: rest).drop (p + 1),
          size := l.size + 1 }

/-- The loop `for (; ptr->next != iterator.current_node; ptr = ptr->next);` of `remove`
followed by the unlinking of `ptr->next`: `pos` is the position of `ptr`, `target` the
position of the node to remove; `none` when `ptr` runs off the end of the chain. -/
def SortedList.remove_loop (target : Nat) : Nat → T → List T → Option (List T)
  | _, _, [] => none
  | pos, ptr, next :: rest =>
    if pos + 1 = target then some (ptr :: rest)
    else (SortedList.remove_loop target (pos + 1) next rest).map (fun r => ptr :: r)

/-- Method `remove`. The result is `none` when the cursor names this list and a node that
is not in its chain, where the predecessor scan dereferences `NULL_ELEMENT`. -/
def SortedList.remove (l : SortedList T) (iterator : const_iterator) :
    Option (SortedList T) :=
  match iterator.current_node with
  | none => some l
  | some target =>
    if iterator.list ≠ l.addr then some l
    else
      match l.head with
      | [] => none
      | first :: rest =>
        if target = 0 then some { l with head := rest, size := l.size - 1 }
        else
          (SortedList.remove_loop target 0 first rest).map
            (fun r => { l with head := r, size := l.size - 1 })

/-- Method `length`. -/
def SortedList.length (l : SortedList T) : Int := l.size

/-- The order `operator<` is a strict weak order: irreflexive, transitive, and with a
transitive "not less than". -/
structure IsStrictWeakOrder (lt : T → T → Bool) : Prop where
  irrefl : ∀ a, lt a a = false
  trans : ∀ a b c, lt a b = true → lt b c = true → lt a c = true
  neg_trans : ∀ a b c, lt a b = false → lt b c = false → lt a c = false

/-- A chain is in non-decreasing order: no element is less than an earlier one. -/
def NonDecreasing (lt : T → T → Bool) (l : List T) : Prop :=
  l.Pairwise (fun a b => lt b a = false)

/-- One public mutating call on a sorted list: `insert(element)` or `remove(iterator)`. -/
inductive ListOp (T : Type) where
  | insert (element : T)
  | remove (iterator : const_iterator)

/-- The list after one call; `none` when the call has no defined result. -/
def applyListOp (lt : T → T → Bool) (l : SortedList T) : ListOp T → Option (SortedList T)
  | ListOp.insert e => some (SortedList.insert lt l e)
  | ListOp.remove it => SortedList.remove l it

/-- A cursor is valid for a list: if it is bound to this list and points at a node, the
node is one of the chain (its position is less than the number of nodes). A cursor of
another list and the `end()` cursor are valid. -/
def cursorValid (l : SortedList T) (it : const_iterator) : Prop :=
  it.list = l.addr → ∀ i, it.current_node = some i → i < l.head.length

/-- Every `remove` of the sequence is given a cursor that is valid for the list as it is
when that call is made. -/
def cursorsValid (lt : T → T → Bool) : SortedList T → List (ListOp T) → Prop
  | _, [] => True
  | l, ListOp.insert e :: ops => cursorsValid lt (SortedList.insert lt l e) ops
  | l, ListOp.remove it :: ops =>
    cursorValid l it ∧
      match SortedList.remove l it with
      | none => True
      | some l1 => cursorsValid lt l1 ops

/-- The list after a sequence of calls, applied from the left. -/
def applyListOps (lt : T → T → Bool) : SortedList T → List (ListOp T) → Option (SortedList T)
  | l, [] => some l
  | l, op :: ops =>
    match applyListOp lt l op with
    | none => none
    | some l1 => applyListOps lt l1 ops

/-- The list made by inserting the elements of `xs` one by one, from the left. -/
def insertAll (lt : T → T → Bool) (l : SortedList T) (xs : List T) : SortedList T :=
  xs.foldl (SortedList.insert lt) l

/-- The loop `while (!(begin() == end())) remove(begin());` of the private method `clear`,
one node per iteration: `remove(begin())` decrements the count and unlinks the head. -/
def SortedList.clear_loop : SortedList T → List T → SortedList T
  | l, [] => { l with head := [] }
  | l, _ :: rest => SortedList.clear_loop { l with head := rest, size := l.size - 1 } rest

/-- Private method `clear`. -/
def SortedList.clear (l : SortedList T) : SortedList T :=
  SortedList.clear_loop l l.head

/-- The loop of the private method `copy` over the chain of `other` after its head: the
nodes linked after `ptr`, and `true` when a `new Node` failed and threw `std::bad_alloc`,
which leaves the loop with the nodes linked so far. `mem i` is the outcome of the `i`-th
`new Node` of the call. -/
def SortedList.copy_loop (mem : Nat → Bool) : Nat → List T → List T × Bool
  | _, [] => ([], false)
  | i, other_ptr :: rest =>
    if mem i then
      ((other_ptr :: (SortedList.copy_loop mem (i + 1) rest).1),
        (SortedList.copy_loop mem (i + 1) rest).2)
    else ([], true)

/-- Private method `copy`: the list after the call, and `true` when the call was left by
`std::bad_alloc`. `size` is assigned in the condition `(size = other.size) == 0`, before
any node is allocated. The result is `none` when `other.head` is `NULL_ELEMENT` although
the count of `other` is not `0`. -/
def SortedList.copy (l other : SortedList T) (mem : Nat → Bool) :
    Option (SortedList T × Bool) :=
  if other.size = 0 then some ({ l with size := other.size }, false)
  else
    match other.head with
    | [] => none
    | first :: rest =>
      if mem 0 then
        some ({ l with size := other.size,
                       head := first :: (SortedList.copy_loop mem 1 rest).1 },
              (SortedList.copy_loop mem 1 rest).2)
      else some ({ l with size := other.size }, true)

/-- The operator `operator=`: the list after the call, and `true` when the call was left
by `std::bad_alloc`. -/
def SortedList.assign (l other : SortedList T) (mem : Nat → Bool) :
    Option (SortedList T × Bool) :=
  if l.addr = other.addr then some (l, false)
  else SortedList.copy (SortedList.clear l) other mem

/-- The order of natural numbers as `operator<`. -/
def natLt : Nat → Nat → Bool := fun a b => decide (a < b)

end containers

namespace CSet

variable {E : Type}

/-- The duplication keeps equality: a copy is equal to exactly the elements its original
is equal to. -/
def CopyKeepsEqual (equalElements : E → E → Bool) (copy : E → Option E) : Prop :=
  ∀ a c, copy a = some c → ∀ x, equalElements c x = equalElements a x

end CSet

namespace containers

/-- The class `Set<T>` of `C++/set.h`: `data` is the allocated array, one entry per slot
given by `new T[n]`; `size` and `maxSize` are the two `int` fields, which the code never
makes negative (`--size` follows a successful `find`). -/
structure Set (T : Type) where
  data : List T
  size : Nat
  maxSize : Nat

variable {T : Type}

/-- Constant `EXPAND_RATE`. -/
def Set.EXPAND_RATE : Nat := 2

/-- Constant `INITIAL_SIZE`. -/
def Set.INITIAL_SIZE : Nat := 10

/-- Constant `ELEMENT_NOT_FOUND`. -/
def Set.ELEMENT_NOT_FOUND : Int := -1

/-- The default constructor `Set()`; `dflt` is the value `T()` that `new T[n]` fills the
array with. -/
def Set.empty (dflt : T) : Set T :=
  { data := List.replicate Set.INITIAL_SIZE dflt, size := 0, maxSize := Set.INITIAL_SIZE }

/-- A loop `for (i = 0; i < n; ++i) dst[i] = src[i];`: the first argument counts the
iterations left, the second is `i`. The result is `none` when an index falls outside one
of the two arrays. -/
def Set.copy_loop : Nat → Nat → List T → List T → Option (List T)
  | 0, _, dst, _ => some dst
  | n + 1, i, dst, src =>
    match src[i]? with
    | none => none
    | some x =>
      if i < dst.length then Set.copy_loop n (i + 1) (dst.set i x) src else none

/-- The copy constructor `Set(const Set&)`: an array of exactly `set.getSize()` slots. -/
def Set.copy (dflt : T) (set : Set T) : Option (Set T) :=
  (Set.copy_loop set.size 0 (List.replicate set.size dflt) set.data).map
    (fun d => { data := d, size := set.size, maxSize := set.size })

/-- The loop of `find`: the first argument counts the iterations left, the second is `i`. -/
def Set.find_loop (eq : T → T → Bool) (elem : T) (data : List T) : Nat → Nat → Option Int
  | 0, _ => some Set.ELEMENT_NOT_FOUND
  | n + 1, i =>
    match data[i]? with
    | none => none
    | some x => if eq x elem then some (i : Int) else Set.find_loop eq elem data n (i + 1)

/-- Method `find`; `eq` is `operator==` of `T`. -/
def Set.find (eq : T → T → Bool) (s : Set T) (elem : T) : Option Int :=
  Set.find_loop eq elem s.data s.size 0

/-- Method `contains`. -/
def Set.contains (eq : T → T → Bool) (s : Set T) (elem : T) : Option Bool :=
  (Set.find eq s elem).map (fun r => r != Set.ELEMENT_NOT_FOUND)

/-- Method `getSize`. -/
def Set.getSize (s : Set T) : Nat := s.size

/-- Method `expand`. -/
def Set.expand (dflt : T) (s : Set T) : Option (Set T) :=
  (Set.copy_loop s.size 0 (List.replicate (s.maxSize * Set.EXPAND_RATE) dflt) s.data).map
    (fun d => { data := d, size := s.size, maxSize := s.maxSize * Set.EXPAND_RATE })

/-- Method `add`: the result is `none` when `data[size++] = elem` writes outside the array. -/
def Set.add (eq : T → T → Bool) (dflt : T) (s : Set T) (elem : T) : Option (Set T × Bool) :=
  match Set.contains eq s elem with
  | none => none
  | some true => some (s, false)
  | some false =>
    match (if s.size ≥ s.maxSize then Set.expand dflt s else some s) with
    | none => none
    | some s1 =>
      if s1.size < s1.data.length then
        some ({ s1 with data := s1.data.set s1.size elem, size := s1.size + 1 }, true)
      else none

/-- Method `remove`: `data[index] = data[--size]`. -/
def Set.remove (eq : T → T → Bool) (s : Set T) (elem : T) : Option (Set T × Bool) :=
  match Set.find eq s elem with
  | none => none
  | some index =>
    if index = Set.ELEMENT_NOT_FOUND then some (s, false)
    else
      match s.data[s.size - 1]? with
      | none => none
      | some last =>
        if index.toNat < s.data.length then
          some ({ s with data := s.data.set index.toNat last, size := s.size - 1 }, true)
        else none

/-- The loop of `uniteWith`: the first argument counts the iterations left (the size of
`other` does not change), the second is `i`. -/
def Set.uniteWith_loop (eq : T → T → Bool) (dflt : T) (other : Set T) :
    Nat → Nat → Set T → Option (Set T)
  | 0, _, this => some this
  | n + 1, i, this =>
    match other.data[i]? with
    | none => none
    | some x =>
      match Set.add eq dflt this x with
      | none => none
      | some (this1, _) => Set.uniteWith_loop eq dflt other n (i + 1) this1

/-- Method `uniteWith`. -/
def Set.uniteWith (eq : T → T → Bool) (dflt : T) (this other : Set T) : Option (Set T) :=
  Set.uniteWith_loop eq dflt other other.getSize 0 this

/-- The loop `for (int i = 0; i < this->getSize(); ++i)` of `intersectWith`. The first
argument bounds the iterations left: `i` grows and the size never does, so the size at
entry is enough; the result is `none` if the bound runs out before the loop ends. -/
def Set.intersectWith_loop (eq : T → T → Bool) (other : Set T) :
    Nat → Nat → Set T → Option (Set T)
  | 0, i, this => if i < this.getSize then none else some this
  | fuel + 1, i, this =>
    if i < this.getSize then
      match this.data[i]? with
      | none => none
      | some x =>
        match Set.contains eq other x with
        | none => none
        | some true => Set.intersectWith_loop eq other fuel (i + 1) this
        | some false =>
          match Set.remove eq this x with
          | none => none
          | some (this1, _) => Set.intersectWith_loop eq other fuel (i + 1) this1
    else some this

/-- Method `intersectWith`. -/
def Set.intersectWith (eq : T → T → Bool) (this other : Set T) : Option (Set T) :=
  Set.intersectWith_loop eq other this.getSize 0 this

/-- Function `setUnion` of `C++/set.h`: a copy of `set1`, united with `set2`, returned by
value. -/
def setUnion (eq : T → T → Bool) (dflt : T) (set1 set2 : Set T) : Option (Set T) :=
  match Set.copy dflt set1 with
  | none => none
  | some result =>
    match Set.uniteWith eq dflt result set2 with
    | none => none
    | some r => Set.copy dflt r

/-- Function `setIntersection` of `C++/set.h`: a copy of `set1`, intersected with `set2`,
returned by value. -/
def setIntersection (eq : T → T → Bool) (dflt : T) (set1 set2 : Set T) : Option (Set T) :=
  match Set.copy dflt set1 with
  | none => none
  | some result =>
    match Set.intersectWith eq result set2 with
    | none => none
    | some r => Set.copy dflt r

/-- The enumeration of a `Set<T>`: the first `size` slots of the array. -/
def Set.elements (s : Set T) : List T := s.data.take s.size

/-- Equality of natural numbers as `operator==`. -/
def natEq : Nat → Nat → Bool := fun a b => a == b

/-- The `Set<int>` reached from `s` by `add` of each number of the list in turn. -/
def natSetFrom : Set Nat → List Nat → Option (Set Nat)
  | s, [] => some s
  | s, x :: xs =>
    match Set.add natEq 0 s x with
    | none => none
    | some (s1, _) => natSetFrom s1 xs

/-- The `Set<int>` made by the default constructor followed by `add` of each number of the
list in turn. -/
def natSetOf (xs : List Nat) : Option (Set Nat) := natSetFrom (Set.empty 0) xs

end containers

namespace containers

variable {T : Type}

/-- Method `begin`: a cursor of this list at its head node. -/
def SortedList.begin (l : SortedList T) : const_iterator :=
  { list := l.addr,
    current_node := match l.head with
      | [] => none
      | _ :: _ => some 0 }

/-- Method `end` (a reserved word, hence the underscore): a cursor of this list at
`NULL_ELEMENT`. -/
def SortedList.end_ (l : SortedList T) : const_iterator :=
  { list := l.addr, current_node := none }

/-- The outcome of `operator++` on a cursor: the cursor moved, the exception
`std::out_of_range`, or no defined result (the node is not in the chain). -/
inductive Advance where
  | moved (it : const_iterator)
  | out_of_range
  | undefined
  deriving DecidableEq, Repr

/-- The prefix `operator++` of `const_iterator`; `chain` is the chain that holds the node
the cursor points at, from which `current_node->next` is read. -/
def const_iterator.increment (chain : List T) (it : const_iterator) : Advance :=
  match it.current_node with
  | none => Advance.out_of_range
  | some i =>
    if i < chain.length then
      Advance.moved
        { it with current_node := if i + 1 < chain.length then some (i + 1) else none }
    else Advance.undefined

/-- The `operator==` of `const_iterator`: same owning list and same node. -/
def const_iterator.equals (it other : const_iterator) : Bool :=
  it.list == other.list && it.current_node == other.current_node

/-- The `operator*` of `const_iterator`: the `data` of the node, `none` when the cursor
points at no node of the chain. -/
def const_iterator.deref (chain : List T) (it : const_iterator) : Option T :=
  match it.current_node with
  | none => none
  | some i => chain[i]?

/-- The outcome of `n` successive `operator++` calls; a call that does not move the cursor
ends the run with its outcome. -/
def const_iterator.incrementN (chain : List T) : Nat → const_iterator → Advance
  | 0, it => Advance.moved it
  | n + 1, it =>
    match const_iterator.increment chain it with
    | Advance.moved it1 => const_iterator.incrementN chain n it1
    | r => r

/-- The loop `for (iterator = begin(); !(iterator == end()); ++iterator)` of `filter`,
from the cursor `iterator` on, with `list` the new list. The first argument bounds the
iterations left (one per node of the chain); the result is `none` when the bound runs
out or a cursor operation fails. -/
def SortedList.filter_loop (lt : T → T → Bool) (predicate : T → Bool) (this : SortedList T) :
    Nat → const_iterator → SortedList T → Option (SortedList T)
  | 0, iterator, list =>
    if const_iterator.equals iterator (SortedList.end_ this) then some list else none
  | fuel + 1, iterator, list =>
    if const_iterator.equals iterator (SortedList.end_ this) then some list
    else
      match const_iterator.deref this.head iterator with
      | none => none
      | some x =>
        match const_iterator.increment this.head iterator with
        | Advance.moved iterator1 =>
          SortedList.filter_loop lt predicate this fuel iterator1
            (if predicate x then SortedList.insert lt list x else list)
        | _ => none

/-- Method `filter`; `addr` is the address of the new list. -/
def SortedList.filter (lt : T → T → Bool) (this : SortedList T) (predicate : T → Bool)
    (addr : Nat) : Option (SortedList T) :=
  SortedList.filter_loop lt predicate this this.head.length (SortedList.begin this)
    (SortedList.empty addr)

/-- The loop of `apply`, as the loop of `filter`. -/
def SortedList.apply_loop (lt : T → T → Bool) (function : T → T) (this : SortedList T) :
    Nat → const_iterator → SortedList T → Option (SortedList T)
  | 0, iterator, list =>
    if const_iterator.equals iterator (SortedList.end_ this) then some list else none
  | fuel + 1, iterator, list =>
    if const_iterator.equals iterator (SortedList.end_ this) then some list
    else
      match const_iterator.deref this.head iterator with
      | none => none
      | some x =>
        match const_iterator.increment this.head iterator with
        | Advance.moved iterator1 =>
          SortedList.apply_loop lt function this fuel iterator1
            (SortedList.insert lt list (function x))
        | _ => none

/-- Method `apply`; `addr` is the address of the new list. -/
def SortedList.apply (lt : T → T → Bool) (this : SortedList T) (function : T → T)
    (addr : Nat) : Option (SortedList T) :=
  SortedList.apply_loop lt function this this.head.length (SortedList.begin this)
    (SortedList.empty addr)

end containers

namespace CSet

variable {E : Type}

/-- The loop of `setFilter`; the counter indexes the allocation stream, one entry per call
of `setAdd`, and `last` is the link that ends the chain of `set`. -/
def setFilter_loop {P : Type} (mem : Nat → Option Link) (condition : E → P → Bool)
    (param : P) : Nat → Set E → Link → List E → Option (Nat × Set E × Link)
  | i, set, last, [] => some (i, set, last)
  | i, set, last, ptr :: rest =>
    if condition ptr param then
      match setAdd set last (some ptr) (mem i) with
      | none => none
      | some (set1, _, last1) => setFilter_loop mem condition param (i + 1) set1 last1 rest
    else setFilter_loop mem condition param i set last rest

/-- Function `setFilter`; `mem 0` is the allocation of the handle. The result is the handle
returned and the link that ends its chain. -/
def setFilter {P : Type} (set : Set E) (condition : Option (E → P → Bool)) (param : P)
    (mem : Nat → Option Link) : Option (Set E × Link) :=
  match set, condition with
  | some s, some c =>
    (setFilter_loop mem c param 1
      (setCreate (some s.copyElement) (some s.freeElement) (some s.equalElements)
        (mem 0).isSome)
      Link.null s.head).map Prod.snd
  | _, _ => some (none, Link.null)

end CSet

namespace CMap

variable {K V : Type}

/-- Function `mapDestroy`: the handle is gone after the call, nothing is returned. -/
def mapDestroy (_map : Map K V) : Unit := ()

/-- The loop of `mapCopy`: stops at the first `mapPut` that does not return `MAP_SUCCESS`
(the inner `none`), after which the new map is destroyed. -/
def mapCopy_loop (mem : Nat → Bool) : Nat → Map K V → List (Node K V) →
    Option (Option (Map K V))
  | _, map, [] => some (some map)
  | i, map, ptr :: rest =>
    match mapPut map (some ptr.key) ptr.data (mem i) with
    | none => none
    | some (map1, r) =>
      if r ≠ MapResult.MAP_SUCCESS then some none
      else mapCopy_loop mem (i + 1) map1 rest

/-- Function `mapCopy`; `mem 0` is the allocation of the handle. -/
def mapCopy (map : Map K V) (mem : Nat → Bool) : Option (Map K V) :=
  match map with
  | none => some none
  | some m =>
    match mapCreate (some m.copyDataElement) (some m.copyKeyElement) (some m.freeDataElement)
        (some m.freeKeyElement) (some m.compareKeyElements) (mem 0) with
    | none => some none
    | some n =>
      match mapCopy_loop mem 1 (some { n with size := 0 }) m.head with
      | none => none
      | some none => some none
      | some (some none) => none
      | some (some (some n1)) =>
        some (some { n1 with iterator := none, copyDataElement := m.copyDataElement,
                             copyKeyElement := m.copyKeyElement,
                             freeDataElement := m.freeDataElement,
                             freeKeyElement := m.freeKeyElement,
                             compareKeyElements := m.compareKeyElements })

/-- Function `mapGetNext`: the structure after the call and the returned key. The outer
`none` is an iterator that points at no node of the chain. -/
def mapGetNext (map : Map K V) : Option (Map K V × Option K) :=
  match map with
  | none => some (none, none)
  | some m =>
    match m.iterator with
    | none => some (some m, none)
    | some i =>
      if i < m.head.length then
        match m.head[i + 1]? with
        | none => some (some m, none)
        | some x => some (some { m with iterator := some (i + 1) }, m.copyKeyElement.call x.key)
      else none

/-- The structure after `n` successive calls of `mapGetNext` and the keys they returned,
in call order. -/
def mapGetNextN : Nat → Map K V → Option (Map K V × List (Option K))
  | 0, map => some (map, [])
  | n + 1, map =>
    match mapGetNext map with
    | none => none
    | some (map1, r) =>
      match mapGetNextN n map1 with
      | none => none
      | some (map2, rs) => some (map2, r :: rs)

end CMap

namespace CSet

/-- Duplication of a natural number that fails on `2` and succeeds on every other number. -/
def natCopyFailsOn2 : FnPtr Nat (Option Nat) := ⟨6, fun n => if n = 2 then none else some n⟩

end CSet

namespace CMap

variable {K V : Type}

/-- The call `mapContains(map, element)` as a state transformer: the body of the function
assigns only to its local `ptr`, so the structure after the call is the structure before
it; the second component is the value returned. -/
def mapContains_call (map : Map K V) (element : Option K) : Map K V × Bool :=
  (map, mapContains map element)

/-- An enumeration interleaved with `mapContains` calls: before each call of `mapGetNext`,
`mapContains` is called with the next key of the list. The result is the structure after
the calls and the keys that `mapGetNext` returned. -/
def mapGetNextN_probing : List (Option K) → Map K V → Option (Map K V × List (Option K))
  | [], map => some (map, [])
  | probe :: probes, map =>
    match mapGetNext (mapContains_call map probe).1 with
    | none => none
    | some (map1, r) =>
      match mapGetNextN_probing probes map1 with
      | none => none
      | some (map2, rs) => some (map2, r :: rs)

end CMap

namespace containers

variable {T : Type}

/-- The position the specification gives to an inserted element: immediately before the
first element, from the head, that is not less than it. -/
def specInsertPosition (lt : T → T → Bool) (l : List T) (element : T) : List T :=
  l.takeWhile (fun x => lt x element) ++ element :: l.dropWhile (fun x => lt x element)

/-- An `operator<` on pairs that compares the first components only: pairs with the same
first component are equivalent without being equal. -/
def pairLt : Nat × Nat → Nat × Nat → Bool := fun a b => decide (a.1 < b.1)

end containers

namespace CList

/-- Result codes of the plain list, the enumeration `ListResult` of `list.h`. -/
inductive ListResult where
  | LIST_SUCCESS
  | LIST_OUT_OF_MEMORY
  | LIST_NULL_ARG
  | LIST_INVALID_CURRENT
  deriving DecidableEq, Repr

/-- Where the `Node*` held in `iterator` points: `NULL`, the node in position `i` of the
chain from `head`, or a node that is not reachable from `head`, with its `data` and
whether its `next` is the node itself (`true`) or `NULL` (`false`). -/
inductive NodePtr (E : Type) where
  | null
  | inChain (i : Nat)
  | loose (data : E) (selfLinked : Bool)
  deriving DecidableEq, Repr

/-- The structure `struct list_t` of `list.c`. -/
structure list_t (E : Type) where
  head : List E
  iterator : NodePtr E
  size : Int
  copyElement : FnPtr E (Option E)
  freeElement : FnPtr E Unit

/-- The handle type `List` of `list.h`, a possibly null pointer to a `list_t`. -/
abbrev ListHandle (E : Type) := Option (list_t E)

variable {E : Type}

/-- Function `listCreate`. -/
def listCreate (copyElement : Option (FnPtr E (Option E)))
    (freeElement : Option (FnPtr E Unit)) (mallocOk : Bool) : ListHandle E :=
  match copyElement, freeElement with
  | some c, some f =>
    if mallocOk then
      some { head := [], iterator := NodePtr.null, size := 0, copyElement := c,
             freeElement := f }
    else none
  | _, _ => none

/-- Function `listGetSize`. -/
def listGetSize (list : ListHandle E) : Int :=
  match list with
  | none => 0
  | some l => l.size

/-- Static function `createNode` of `list.c`: on success the count is incremented and
`list->iterator` is set to the new node, which is not linked yet and whose `next` is
`NULL`. -/
def createNode (list : list_t E) (element : E) (mallocOk : Bool) : list_t E × Option E :=
  if mallocOk then
    match list.copyElement.call element with
    | none => (list, none)
    | some data =>
      ({ list with iterator := NodePtr.loose data false, size := list.size + 1 }, some data)
  else (list, none)

/-- Static function `removeNodeElement` of `list.c`. -/
def removeNodeElement (list : list_t E) (_node : E) : list_t E :=
  { list with size := list.size - 1 }

/-- Function `listInsertFirst`: the new node, which `createNode` made the iterator, becomes
the head, so the iterator is then the node in position `0`. -/
def listInsertFirst (list : ListHandle E) (element : Option E) (mallocOk : Bool) :
    ListHandle E × ListResult :=
  match list, element with
  | some l, some e =>
    match createNode l e mallocOk with
    | (l1, none) => (some l1, ListResult.LIST_OUT_OF_MEMORY)
    | (l1, some node) =>
      (some { l1 with head := node :: l1.head, iterator := NodePtr.inChain 0 },
        ListResult.LIST_SUCCESS)
  | list, _ => (list, ListResult.LIST_NULL_ARG)

/-- Function `listInsertLast`: the outer `none` is the dereference of a `NULL` head in a
structure whose count is not zero. -/
def listInsertLast (list : ListHandle E) (element : Option E) (mallocOk : Bool) :
    Option (ListHandle E × ListResult) :=
  match list, element with
  | some l, some e =>
    if l.size = 0 then some (listInsertFirst (some l) (some e) mallocOk)
    else
      match createNode l e mallocOk with
      | (l1, none) => some (some l1, ListResult.LIST_OUT_OF_MEMORY)
      | (l1, some node) =>
        match l1.head with
        | [] => none
        | first :: rest =>
          some (some { l1 with head := first :: rest ++ [node],
                               iterator := NodePtr.inChain (first :: rest).length },
            ListResult.LIST_SUCCESS)
  | list, _ => some (list, ListResult.LIST_NULL_ARG)

/-- Function `listInsertAfterCurrent`. After `createNode` the iterator is the new node, so
`node->next = list->iterator->next` copies the new node's own `NULL` link and
`list->iterator->next = node` links the new node to itself: the chain from `head` is not
touched. -/
def listInsertAfterCurrent (list : ListHandle E) (element : Option E) (mallocOk : Bool) :
    ListHandle E × ListResult :=
  match list, element with
  | some l, some e =>
    match l.iterator with
    | NodePtr.null => (some l, ListResult.LIST_INVALID_CURRENT)
    | _ =>
      match createNode l e mallocOk with
      | (l1, none) => (some l1, ListResult.LIST_OUT_OF_MEMORY)
      | (l1, some node) =>
        (some { l1 with iterator := NodePtr.loose node true }, ListResult.LIST_SUCCESS)
  | list, _ => (list, ListResult.LIST_NULL_ARG)

/-- Function `listGetFirst`: the structure after the call and the element returned (the
`data` pointer itself). -/
def listGetFirst (list : ListHandle E) : ListHandle E × Option E :=
  match list with
  | none => (none, none)
  | some l =>
    match l.head with
    | [] => (some l, none)
    | first :: _ => (some { l with iterator := NodePtr.inChain 0 }, some first)

/-- Function `listGetNext`. The outer `none` is an iterator said to be in the chain at a
position the chain does not have. -/
def listGetNext (list : ListHandle E) : Option (ListHandle E × Option E) :=
  match list with
  | none => some (none, none)
  | some l =>
    match l.iterator with
    | NodePtr.null => some (some l, none)
    | NodePtr.loose _ false => some (some l, none)
    | NodePtr.loose data true => some (some l, some data)
    | NodePtr.inChain i =>
      if i < l.head.length then
        match l.head[i + 1]? with
        | none => some (some l, none)
        | some x => some (some { l with iterator := NodePtr.inChain (i + 1) }, some x)
      else none

/-- Function `listRemoveCurrent`. The condition `if(list->iterator = list->head)` is an
assignment: the iterator becomes the head, and the branch is taken when the head is not
`NULL`. The outer `none` is the `else` branch, entered with `ptr == NULL`. -/
def listRemoveCurrent (list : ListHandle E) : Option (ListHandle E × ListResult) :=
  match list with
  | none => some (none, ListResult.LIST_NULL_ARG)
  | some l =>
    match l.iterator with
    | NodePtr.null => some (some l, ListResult.LIST_INVALID_CURRENT)
    | _ =>
      match l.head with
      | [] => none
      | ptr :: rest =>
        some (some (removeNodeElement
                { l with head := rest,
                         iterator := match rest with
                           | [] => NodePtr.null
                           | _ :: _ => NodePtr.inChain 0 } ptr),
          ListResult.LIST_SUCCESS)

/-- The enumeration of a plain list: the chain behind the handle, empty for `NULL`. -/
def elements (list : ListHandle E) : List E :=
  match list with
  | none => []
  | some l => l.head

/-- Duplication of a natural number that always succeeds. -/
def natCopy : FnPtr Nat (Option Nat) := ⟨1, fun n => some n⟩

/-- Release of a natural number. -/
def natFree : FnPtr Nat Unit := ⟨2, fun _ => ()⟩

/-- The plain list of natural numbers with the given chain and iterator, the count equal
to the number of nodes. -/
def natList (xs : List Nat) (iterator : NodePtr Nat) : ListHandle Nat :=
  some { head := xs, iterator := iterator, size := xs.length, copyElement := natCopy,
         freeElement := natFree }

end CList

namespace CStack

/-- Result codes of the stack, the enumeration `StackResult` of `stack.h`. -/
inductive StackResult where
  | STACK_SUCCESS
  | STACK_OUT_OF_MEMORY
  | STACK_NULL_ARG
  | STACK_IS_EMPTY
  deriving DecidableEq, Repr

/-- The structure `struct stack_t`: `head` is the chain from the top. -/
structure stack_t (E : Type) where
  head : List E
  size : Int
  copyElement : FnPtr E (Option E)
  freeElement : FnPtr E Unit

/-- The handle type `Stack`, a possibly null pointer to a `stack_t`. -/
abbrev Stack (E : Type) := Option (stack_t E)

variable {E : Type}

/-- Function `stackCreate`. -/
def stackCreate (copyElement : Option (FnPtr E (Option E)))
    (freeElement : Option (FnPtr E Unit)) (mallocOk : Bool) : Stack E :=
  match copyElement, freeElement with
  | some c, some f =>
    if mallocOk then some { head := [], size := 0, copyElement := c, freeElement := f }
    else none
  | _, _ => none

/-- Function `stackGetSize`. -/
def stackGetSize (stack : Stack E) : Int :=
  match stack with
  | none => 0
  | some s => s.size

/-- Function `stackIsEmpty`. -/
def stackIsEmpty (stack : Stack E) : Bool :=
  match stack with
  | none => false
  | some s => s.size == 0

/-- Static function `createNode` of `stack.c`: the count of the stack that is passed is
incremented on success. -/
def createNode (stack : stack_t E) (element : E) (mallocOk : Bool) : stack_t E × Option E :=
  if mallocOk then
    match stack.copyElement.call element with
    | none => (stack, none)
    | some data => ({ stack with size := stack.size + 1 }, some data)
  else (stack, none)

/-- Function `stackPush`. -/
def stackPush (stack : Stack E) (element : Option E) (mallocOk : Bool) :
    Stack E × StackResult :=
  match stack, element with
  | some s, some e =>
    match createNode s e mallocOk with
    | (s1, none) => (some s1, StackResult.STACK_OUT_OF_MEMORY)
    | (s1, some node) => (some { s1 with head := node :: s1.head }, StackResult.STACK_SUCCESS)
  | stack, _ => (stack, StackResult.STACK_NULL_ARG)

/-- The loop of `stackCopy` over the old chain, `ptr :: rest` being the nodes still to
visit. Every call is `createNode(stack, ptr->data)` on the source `stack`; the first new
node is stored in `stack->head`, the later ones are linked after `new_ptr`, the last node
of the chain that now hangs from `stack->head`. The Boolean argument is `new_ptr != NULL`;
the Boolean result is false when a `createNode` fails. -/
def stackCopy_loop (mem : Nat → Bool) : Nat → stack_t E → Bool → List E → stack_t E × Bool
  | _, stack, _, [] => (stack, true)
  | i, stack, linked, ptr :: rest =>
    match createNode stack ptr (mem i) with
    | (stack1, none) => (stack1, false)
    | (stack1, some node) =>
      if linked then
        stackCopy_loop mem (i + 1) { stack1 with head := stack1.head ++ [node] } true rest
      else stackCopy_loop mem (i + 1) { stack1 with head := [node] } true rest

/-- Function `stackCopy`: the source structure after the call and the handle returned;
`mem 0` is the allocation of the new handle. -/
def stackCopy (stack : Stack E) (mem : Nat → Bool) : Stack E × Stack E :=
  match stack with
  | none => (none, none)
  | some s =>
    match stackCreate (some s.copyElement) (some s.freeElement) (mem 0) with
    | none => (some s, none)
    | some n =>
      match stackCopy_loop mem 1 s false s.head with
      | (s1, false) => (some s1, none)
      | (s1, true) =>
        (some s1, some { n with size := 0, copyElement := s1.copyElement,
                                freeElement := s1.freeElement })

/-- The elements of a stack from the top down, empty for `NULL`. -/
def elements (stack : Stack E) : List E :=
  match stack with
  | none => []
  | some s => s.head

/-- Duplication of a natural number that always succeeds. -/
def natCopy : FnPtr Nat (Option Nat) := ⟨1, fun n => some n⟩

/-- Release of a natural number. -/
def natFree : FnPtr Nat Unit := ⟨2, fun _ => ()⟩

/-- The stack of natural numbers with the given chain from the top, the count equal to the
number of nodes. -/
def natStack (xs : List Nat) : Stack Nat :=
  some { head := xs, size := xs.length, copyElement := natCopy, freeElement := natFree }

end CStack

/-! ## The unique set: `setAdd` does not compare the last node -/

namespace CSet

/-- C1: on the set whose only element is `3`, `setContains` finds `3`, and yet
`setAdd(set, 3)` returns `SET_SUCCESS`, links a second `3` and raises the count to `2`:
the loop of `setAdd` stops before it compares the last node. The storage of the new node
reads as zero, so the chain still ends in `NULL`. -/
theorem setAdd_equal_to_last_node_is_added :
    setContains (natSet [3]) (some 3) = true ∧
    (setAdd (natSet [3]) Link.null (some 3) (some Link.null)).map
      (fun r => (r.2.1, elements r.1, setGetSize r.1, r.2.2))
      = some (SetResult.SET_SUCCESS, [3, 3], 2, Link.null) := by
  decide

/-- C2: from `setCreate`, two calls `setAdd(set, 3)` both succeed and leave the chain
`3, 3`, in which two elements are equal under the bound predicate. The storage of both
nodes reads as zero, so the chain ends in `NULL`. -/
theorem setAdd_twice_breaks_uniqueness :
    (applyOps (setCreate (some natCopy) (some natFree) (some natEqual) true) Link.null
        [SetOp.add (some 3) (some Link.null), SetOp.add (some 3) (some Link.null)]).map
      (fun r => (elements r.1, setGetSize r.1, r.2)) = some ([3, 3], 2, Link.null) ∧
    ¬ NoTwoEqual natEqual.call [3, 3] := by
  refine ⟨by decide, ?_⟩
  unfold NoTwoEqual
  decide

/-- C3: the union of the sets `1, 2` and `2, 3` is the chain `1, 2, 2, 3` with count `4`:
the second `2` is linked because `setAdd` does not compare the last node. -/
theorem setUnion_keeps_shared_element_twice :
    (setUnion (natSet [1, 2]) (natSet [2, 3]) allOk).map
      (fun r => (elements r.1, setGetSize r.1, r.2)) = some ([1, 2, 2, 3], 4, Link.null) ∧
    ¬ NoTwoEqual natEqual.call [1, 2, 2, 3] := by
  refine ⟨by decide, ?_⟩
  unfold NoTwoEqual
  decide

/-- C4: the intersection of the set `1` with the set `1` is the chain `1, 1` with count
`2`: the second pass adds `1` again because `setAdd` does not compare the last node. -/
theorem setIntersection_of_singletons_has_two_nodes :
    (setIntersection (natSet [1]) (natSet [1]) allOk).map
      (fun r => (elements r.1, setGetSize r.1, r.2)) = some ([1, 1], 2, Link.null) ∧
    ¬ NoTwoEqual natEqual.call [1, 1] := by
  refine ⟨by decide, ?_⟩
  unfold NoTwoEqual
  decide

end CSet

/-! ## The ordered map -/

namespace CMap

section Order

variable {K V : Type} {cmp : K → K → Int}

theorem IsTotalOrder.zero_symm (h : IsTotalOrder cmp) {a b : K} (hab : cmp a b = 0) :
    cmp b a = 0 := by
  have h1 := h.swap a b
  have h2 := h.swap b a
  omega

theorem IsTotalOrder.lt_of_lt_of_le (h : IsTotalOrder cmp) {a b c : K}
    (hab : cmp a b < 0) (hbc : cmp b c ≤ 0) : cmp a c < 0 := by
  have hac := h.le_trans a b c (by omega) hbc
  by_contra hne
  have h0 : cmp a c = 0 := by omega
  have hca : cmp c a ≤ 0 := by have := h.zero_symm h0; omega
  have hba := h.le_trans b c a hbc hca
  have := (h.swap a b).1 hab
  omega

theorem IsTotalOrder.lt_of_le_of_lt (h : IsTotalOrder cmp) {a b c : K}
    (hab : cmp a b ≤ 0) (hbc : cmp b c < 0) : cmp a c < 0 := by
  have hac := h.le_trans a b c hab (by omega)
  by_contra hne
  have h0 : cmp a c = 0 := by omega
  have hca : cmp c a ≤ 0 := by have := h.zero_symm h0; omega
  have hcb := h.le_trans c a b hca hab
  have := (h.swap b c).1 hbc
  omega

theorem IsTotalOrder.lt_trans (h : IsTotalOrder cmp) {a b c : K}
    (hab : cmp a b < 0) (hbc : cmp b c < 0) : cmp a c < 0 :=
  h.lt_of_lt_of_le hab (by omega)

variable (cmp)

theorem mapContains_loop_false_iff (element : K) (l : List (Node K V)) :
    mapContains_loop cmp element l = false ↔ ∀ n ∈ l, cmp n.key element ≠ 0 := by
  induction l with
  | nil => simp [mapContains_loop]
  | cons n rest ih =>
    simp only [mapContains_loop, List.mem_cons, forall_eq_or_imp]
    by_cases hn : cmp n.key element = 0
    · simp [hn]
    · simp [hn, ih]

theorem addNewElement_loop_shift (keyElement : K) (l : List (Node K V)) (i : Nat) :
    addNewElement_loop cmp keyElement i l = i + addNewElement_loop cmp keyElement 0 l := by
  induction l generalizing i with
  | nil => simp [addNewElement_loop]
  | cons n rest ih =>
    simp only [addNewElement_loop]
    split
    · rw [ih (i + 1), ih (0 + 1)]; omega
    · simp

theorem addNewElement_loop_take (keyElement : K) (l : List (Node K V)) :
    ∀ x ∈ l.take (addNewElement_loop cmp keyElement 0 l), 0 < cmp keyElement x.key := by
  induction l with
  | nil => simp [addNewElement_loop]
  | cons n rest ih =>
    simp only [addNewElement_loop]
    split
    · rename_i hn
      rw [addNewElement_loop_shift, Nat.add_comm, List.take_succ_cons]
      intro x hx
      rcases List.mem_cons.1 hx with rfl | hx
      · exact hn
      · exact ih x hx
    · simp

theorem addNewElement_loop_drop (keyElement : K) (l : List (Node K V)) :
    ∀ y ∈ (l.drop (addNewElement_loop cmp keyElement 0 l)).head?,
      ¬ 0 < cmp keyElement y.key := by
  induction l with
  | nil => simp [addNewElement_loop]
  | cons n rest ih =>
    simp only [addNewElement_loop]
    split
    · rw [addNewElement_loop_shift, Nat.add_comm, List.drop_succ_cons]
      exact ih
    · rename_i hn
      intro y hy
      simp at hy
      subst hy
      exact hn

end Order

section Put

variable {K V : Type}

theorem addNewElement_splice (m : ordered_map_t K V) (k : K) (d : V) (ok : Bool)
    (hcmp : IsTotalOrder m.compareKeyElements.call)
    (hasc : Ascending m.compareKeyElements.call m.head)
    (hnot : mapContains_loop m.compareKeyElements.call k m.head = false) :
    addNewElement m k d ok = (m, false) ∨
    ∃ key data l1 l2, ok = true ∧ m.copyKeyElement.call k = some key ∧
      m.copyDataElement.call d = some data ∧
      addNewElement m k d ok
        = ({ m with head := l1 ++ ⟨some data, key⟩ :: l2, size := m.size + 1 }, true) ∧
      m.head = l1 ++ l2 ∧
      (∀ a ∈ l1, m.compareKeyElements.call a.key k < 0) ∧
      (∀ b ∈ l2, m.compareKeyElements.call k b.key < 0) := by
  rw [mapContains_loop_false_iff] at hnot
  unfold addNewElement
  cases ok with
  | false => left; simp
  | true =>
    cases hk : m.copyKeyElement.call k with
    | none => left; simp
    | some key =>
      cases hd : m.copyDataElement.call d with
      | none => left; simp
      | some data =>
        right
        cases hm : m.head with
        | nil =>
          exact ⟨key, data, [], [], rfl, rfl, rfl, by simp, by simp, by simp, by simp⟩
        | cons first rest =>
          rw [hm] at hnot hasc
          have hfirst : m.compareKeyElements.call first.key k ≠ 0 :=
            hnot first (List.mem_cons_self _ _)
          have hasc1 := List.pairwise_cons.1 hasc
          by_cases hp : addNewElement_loop m.compareKeyElements.call k 0 rest = 0 ∧
              m.compareKeyElements.call k first.key < 0
          · refine ⟨key, data, [], first :: rest, rfl, rfl, rfl, ?_, by simp, by simp, ?_⟩
            · simp [hp]
            · intro b hb
              rcases List.mem_cons.1 hb with rfl | hb
              · exact hp.2
              · exact hcmp.lt_trans hp.2 (hasc1.1 b hb)
          · refine ⟨key, data,
              first :: rest.take (addNewElement_loop m.compareKeyElements.call k 0 rest),
              rest.drop (addNewElement_loop m.compareKeyElements.call k 0 rest),
              rfl, rfl, rfl, ?_, by simp, ?_, ?_⟩
            · simp [hp]
            · have htake := addNewElement_loop_take m.compareKeyElements.call k rest
              have hrest : ∀ a ∈ rest.take
                  (addNewElement_loop m.compareKeyElements.call k 0 rest),
                  m.compareKeyElements.call a.key k < 0 := fun a ha =>
                (hcmp.swap a.key k).2 (htake a ha)
              intro a ha
              rcases List.mem_cons.1 ha with rfl | ha
              · by_cases h0 : addNewElement_loop m.compareKeyElements.call k 0 rest = 0
                · have h1 := hcmp.swap a.key k
                  have h2 := hcmp.swap k a.key
                  have h3 : ¬ m.compareKeyElements.call k a.key < 0 := fun h => hp ⟨h0, h⟩
                  omega
                · cases hr : rest with
                  | nil => simp [hr, addNewElement_loop] at h0
                  | cons r0 rest1 =>
                    have hr0 : r0 ∈ rest.take
                        (addNewElement_loop m.compareKeyElements.call k 0 rest) := by
                      obtain ⟨j, hj⟩ := Nat.exists_eq_succ_of_ne_zero h0
                      rw [hj, hr, List.take_succ_cons]
                      exact List.mem_cons_self _ _
                    exact hcmp.lt_trans (hasc1.1 r0 (by rw [hr]; exact List.mem_cons_self _ _))
                      (hrest r0 hr0)
              · exact hrest a ha
            · have hdrop := addNewElement_loop_drop m.compareKeyElements.call k rest
              cases hl2 : rest.drop (addNewElement_loop m.compareKeyElements.call k 0 rest) with
              | nil => simp
              | cons y l2 =>
                have hy : y ∈ rest := List.mem_of_mem_drop (by rw [hl2]; exact List.mem_cons_self _ _)
                have hy1 : ¬ 0 < m.compareKeyElements.call k y.key :=
                  hdrop y (by rw [hl2]; rfl)
                have hy2 : m.compareKeyElements.call y.key k ≠ 0 :=
                  hnot y (List.mem_cons_of_mem _ hy)
                have hy3 : m.compareKeyElements.call k y.key < 0 := by
                  have h1 := hcmp.swap y.key k
                  have h2 := hcmp.swap k y.key
                  omega
                have hsub : (y :: l2).Pairwise
                    (fun a b => m.compareKeyElements.call a.key b.key < 0) := by
                  rw [← hl2]
                  exact hasc1.2.sublist (List.drop_sublist _ _)
                intro b hb
                rcases List.mem_cons.1 hb with rfl | hb
                · exact hy3
                · exact hcmp.lt_trans hy3 ((List.pairwise_cons.1 hsub).1 b hb)

end Put

section Invariant

variable {K V : Type}

theorem mapContains_loop_true_iff (cmp : K → K → Int) (element : K) (l : List (Node K V)) :
    mapContains_loop cmp element l = true ↔ ∃ n ∈ l, cmp n.key element = 0 := by
  have h := mapContains_loop_false_iff cmp element l
  constructor
  · intro ht
    by_contra hne
    push_neg at hne
    rw [h.2 hne] at ht
    exact Bool.noConfusion ht
  · rintro ⟨n, hn, h0⟩
    by_contra hf
    exact (h.1 (by simpa using hf)) n hn h0

theorem updateExistingElement_loop_splice (cmp : K → K → Int) (copy : V → Option V)
    (k : K) (d : V) (l : List (Node K V))
    (hsym : ∀ a b, cmp a b = 0 → cmp b a = 0)
    (hc : mapContains_loop cmp k l = true) :
    ∃ l1 n l2, l = l1 ++ n :: l2 ∧ (∀ a ∈ l1, cmp a.key k ≠ 0) ∧ cmp n.key k = 0 ∧
      updateExistingElement_loop cmp copy k d l
        = some (l1 ++ { n with data := copy d } :: l2, (copy d).isSome) := by
  induction l with
  | nil => simp [mapContains_loop] at hc
  | cons x rest ih =>
    by_cases hx : cmp x.key k = 0
    · refine ⟨[], x, rest, rfl, by simp, hx, ?_⟩
      simp [updateExistingElement_loop, hsym _ _ hx]
    · have hx1 : cmp k x.key ≠ 0 := fun h => hx (hsym _ _ h)
      have hc1 : mapContains_loop cmp k rest = true := by
        simpa [mapContains_loop, hx] using hc
      obtain ⟨l1, n, l2, hl, h1, hn, hu⟩ := ih hc1
      refine ⟨x :: l1, n, l2, by simp [hl], ?_, hn, ?_⟩
      · intro a ha
        rcases List.mem_cons.1 ha with rfl | ha
        · exact hx
        · exact h1 a ha
      · simp [updateExistingElement_loop, hx1, hu]

theorem mapRemove_loop_sublist (cmp : K → K → Int) (k : K) (l : List (Node K V))
    (n : Node K V) (l1 : List (Node K V)) (h : mapRemove_loop cmp k l = some (n, l1)) :
    l1.Sublist l := by
  induction l generalizing l1 with
  | nil => simp [mapRemove_loop] at h
  | cons x rest ih =>
    simp only [mapRemove_loop] at h
    split at h
    · simp only [Option.some.injEq, Prod.mk.injEq] at h
      rw [← h.2]
      exact List.sublist_cons_self _ _
    · cases hr : mapRemove_loop cmp k rest with
      | none => simp [hr] at h
      | some r =>
        simp only [hr, Option.map_some', Option.some.injEq, Prod.mk.injEq] at h
        rw [← h.2]
        exact (ih r.2 (by rw [hr, ← h.1])).cons₂ x

theorem mapClear_loop_eq (m : ordered_map_t K V) (l : List (Node K V)) :
    mapClear_loop m l = { m with head := [], size := m.size - l.length } := by
  induction l generalizing m with
  | nil => simp [mapClear_loop]
  | cons x rest ih =>
    simp only [mapClear_loop, removeNodeElement, ih, List.length_cons, Nat.cast_add,
      Nat.cast_one]
    congr 1
    omega

theorem ascending_splice {cmp : K → K → Int} (l1 l2 : List (Node K V)) (x : Node K V)
    (h : Ascending cmp (l1 ++ l2))
    (h1 : ∀ a ∈ l1, cmp a.key x.key < 0) (h2 : ∀ b ∈ l2, cmp x.key b.key < 0) :
    Ascending cmp (l1 ++ x :: l2) := by
  unfold Ascending at *
  rw [List.pairwise_append] at h ⊢
  refine ⟨h.1, List.pairwise_cons.2 ⟨h2, h.2.1⟩, ?_⟩
  intro a ha b hb
  rcases List.mem_cons.1 hb with rfl | hb
  · exact h1 a ha
  · exact h.2.2 a ha b hb

theorem ascending_of_keys_eq {cmp : K → K → Int} (l l1 : List (Node K V))
    (hk : l1.map (fun n => n.key) = l.map (fun n => n.key)) (h : Ascending cmp l) :
    Ascending cmp l1 := by
  unfold Ascending at *
  have h1 : (l.map (fun n => n.key)).Pairwise (fun a b => cmp a b < 0) :=
    List.pairwise_map.2 h
  rw [← hk] at h1
  exact List.pairwise_map.1 h1

theorem mapRemove_cases (m : ordered_map_t K V) (k : K) :
    mapRemove (some m) (some k) = (some m, MapResult.MAP_ITEM_DOES_NOT_EXIST) ∨
    ∃ l1, l1.Sublist m.head ∧
      mapRemove (some m) (some k)
        = (some { m with head := l1, size := m.size - 1 }, MapResult.MAP_SUCCESS) := by
  simp only [mapRemove]
  cases hm : m.head with
  | nil => left; rfl
  | cons ptr rest =>
    by_cases h0 : m.compareKeyElements.call ptr.key k = 0
    · right
      exact ⟨rest, List.sublist_cons_self _ _, by simp [h0, removeNodeElement]⟩
    · cases hr : mapRemove_loop m.compareKeyElements.call k rest with
      | none => left; simp [h0, hr]
      | some r =>
        right
        have hsub := mapRemove_loop_sublist _ k rest r.1 r.2 (by rw [hr])
        exact ⟨ptr :: r.2, hsub.cons₂ ptr, by simp [h0, hr, removeNodeElement]⟩

theorem mapPut_existing (m : ordered_map_t K V) (k : K) (d : V) (ok : Bool)
    (hsym : ∀ a b, m.compareKeyElements.call a b = 0 → m.compareKeyElements.call b a = 0)
    (hc : mapContains (some m) (some k) = true) :
    ∃ l1 n l2, m.head = l1 ++ n :: l2 ∧
      (∀ a ∈ l1, m.compareKeyElements.call a.key k ≠ 0) ∧
      m.compareKeyElements.call n.key k = 0 ∧
      mapPut (some m) (some k) (some d) ok
        = some (some { m with head := l1 ++ { n with data := m.copyDataElement.call d } :: l2 },
            if (m.copyDataElement.call d).isSome then MapResult.MAP_SUCCESS
            else MapResult.MAP_OUT_OF_MEMORY) := by
  obtain ⟨l1, n, l2, hl, h1, hn, hu⟩ :=
    updateExistingElement_loop_splice m.compareKeyElements.call
      m.copyDataElement.call k d m.head hsym hc
  refine ⟨l1, n, l2, hl, h1, hn, ?_⟩
  simp only [mapPut, hc, not_true_eq_false, if_false, updateExistingElement, hu,
    Option.map_some']
  cases hcd : (m.copyDataElement.call d).isSome <;> simp

theorem mapPut_new (m : ordered_map_t K V) (k : K) (d : V) (ok : Bool)
    (hc : mapContains (some m) (some k) = false) :
    mapPut (some m) (some k) (some d) ok
      = some (some (addNewElement m k d ok).1,
          if (addNewElement m k d ok).2 then MapResult.MAP_SUCCESS
          else MapResult.MAP_OUT_OF_MEMORY) := by
  simp only [mapPut, hc]
  rcases h : addNewElement m k d ok with ⟨m1, b⟩
  cases b <;> simp

theorem applyOp_keeps_ascending (m : ordered_map_t K V) (op : MapOp K V)
    (hcmp : IsTotalOrder m.compareKeyElements.call)
    (hcopy : CopyKeepsKey m.compareKeyElements.call m.copyKeyElement.call)
    (hasc : Ascending m.compareKeyElements.call m.head) :
    ∃ m1, applyOp (some m) op = some (some m1) ∧
      m1.compareKeyElements = m.compareKeyElements ∧
      m1.copyKeyElement = m.copyKeyElement ∧
      Ascending m1.compareKeyElements.call m1.head := by
  cases op with
  | clear =>
    refine ⟨mapClear_loop m m.head, rfl, ?_, ?_, ?_⟩ <;> simp [mapClear_loop_eq, Ascending]
  | remove k =>
    cases k with
    | none => exact ⟨m, rfl, rfl, rfl, hasc⟩
    | some k =>
      rcases mapRemove_cases m k with h | ⟨l1, hsub, h⟩
      · exact ⟨m, by simp [applyOp, h], rfl, rfl, hasc⟩
      · exact ⟨{ m with head := l1, size := m.size - 1 }, by simp [applyOp, h], rfl, rfl,
          List.Pairwise.sublist hsub hasc⟩
  | put k d ok =>
    cases k with
    | none => exact ⟨m, by simp [applyOp, mapPut], rfl, rfl, hasc⟩
    | some k =>
      cases d with
      | none => exact ⟨m, by simp [applyOp, mapPut], rfl, rfl, hasc⟩
      | some d =>
        cases hc : mapContains (some m) (some k) with
        | false =>
          have hput := mapPut_new m k d ok hc
          rcases addNewElement_splice m k d ok hcmp hasc hc with hf | h
          · exact ⟨m, by simp [applyOp, hput, hf], rfl, rfl, hasc⟩
          · obtain ⟨key, data, l1, l2, _, hk, _, hadd, hhead, h1, h2⟩ := h
            refine ⟨{ m with head := l1 ++ ⟨some data, key⟩ :: l2, size := m.size + 1 },
              by simp [applyOp, hput, hadd], rfl, rfl, ?_⟩
            have hkk := hcopy k key hk
            have hkk1 := hcmp.zero_symm hkk
            apply ascending_splice
            · rw [← hhead]; exact hasc
            · intro a ha
              exact hcmp.lt_of_lt_of_le (h1 a ha) (by simp only; omega)
            · intro b hb
              exact hcmp.lt_of_le_of_lt (by simp only; omega) (h2 b hb)
        | true =>
          obtain ⟨l1, n, l2, hl, _, _, hu⟩ :=
            mapPut_existing m k d ok (fun _ _ h => hcmp.zero_symm h) hc
          refine ⟨{ m with head := l1 ++ { n with data := m.copyDataElement.call d } :: l2 },
              by simp [applyOp, hu], rfl, rfl, ?_⟩
          exact ascending_of_keys_eq m.head _ (by simp [hl]) hasc

theorem applyOps_keeps_ascending (ops : List (MapOp K V)) (m : ordered_map_t K V)
    (hcmp : IsTotalOrder m.compareKeyElements.call)
    (hcopy : CopyKeepsKey m.compareKeyElements.call m.copyKeyElement.call)
    (hasc : Ascending m.compareKeyElements.call m.head) :
    ∃ m1, applyOps (some m) ops = some (some m1) ∧
      m1.compareKeyElements = m.compareKeyElements ∧
      Ascending m1.compareKeyElements.call m1.head := by
  induction ops generalizing m with
  | nil => exact ⟨m, rfl, rfl, hasc⟩
  | cons op ops ih =>
    obtain ⟨m1, h1, hc1, hk1, ha1⟩ := applyOp_keeps_ascending m op hcmp hcopy hasc
    obtain ⟨m2, h2, hc2, ha2⟩ := ih m1 (by rw [hc1]; exact hcmp)
      (by rw [hc1, hk1]; exact hcopy) ha1
    exact ⟨m2, by simp [applyOps, h1, h2], by rw [hc2, hc1], ha2⟩

theorem applyOps_null (ops : List (MapOp K V)) :
    applyOps (none : Map K V) ops = some none := by
  induction ops with
  | nil => rfl
  | cons op ops ih => cases op <;> simp [applyOps, applyOp, mapPut, mapRemove, mapClear, ih]

end Invariant

/-- C5: on the map holding key `7` with value `1`, `mapPut(map, 7, 2)` with a value
duplication that fails on `2` returns `MAP_OUT_OF_MEMORY`, keeps the key and the count,
and leaves the node with a `NULL` value: `mapGet(map, 7)` no longer returns `1`. -/
theorem mapPut_failed_update_loses_old_value :
    mapGet (natMap natCopyFailsOn2 [⟨some 1, 7⟩]) (some 7) = some 1 ∧
    (mapPut (natMap natCopyFailsOn2 [⟨some 1, 7⟩]) (some 7) (some 2) true).map
      (fun r => (r.2, keys r.1, mapGetSize r.1, mapGet r.1 (some 7)))
      = some (MapResult.MAP_OUT_OF_MEMORY, [7], 1, none) := by
  decide

section Get

variable {K V : Type}

theorem mapGet_loop_found (cmp : K → K → Int) (k : K) (l1 l2 : List (Node K V))
    (n : Node K V) (h1 : ∀ a ∈ l1, cmp a.key k ≠ 0) (hn : cmp n.key k = 0) :
    mapGet_loop cmp k (l1 ++ n :: l2) = n.data := by
  induction l1 with
  | nil => simp [mapGet_loop, hn]
  | cons x rest ih =>
    have hx : cmp x.key k ≠ 0 := h1 x (List.mem_cons_self _ _)
    simp only [List.cons_append, mapGet_loop, hx, if_false]
    exact ih (fun a ha => h1 a (List.mem_cons_of_mem _ ha))

theorem mapGet_loop_skip (cmp : K → K → Int) (k : K) (l1 l2 : List (Node K V))
    (n : Node K V) (hn : cmp n.key k ≠ 0) :
    mapGet_loop cmp k (l1 ++ n :: l2) = mapGet_loop cmp k (l1 ++ l2) := by
  induction l1 with
  | nil => simp [mapGet_loop, hn]
  | cons x rest ih => simp [mapGet_loop, ih]

theorem addNewElement_snd (m : ordered_map_t K V) (k : K) (d : V) (ok : Bool) :
    (addNewElement m k d ok).2 = true ↔
      (ok = true ∧ (m.copyKeyElement.call k).isSome = true ∧
        (m.copyDataElement.call d).isSome = true) := by
  unfold addNewElement
  cases ok with
  | false => simp
  | true =>
    cases hk : m.copyKeyElement.call k with
    | none => simp
    | some key =>
      cases hd : m.copyDataElement.call d with
      | none => simp
      | some data =>
        cases hm : m.head with
        | nil => simp
        | cons first rest =>
          simp only [if_true, Option.isSome_some, and_self, iff_true]
          split <;> rfl

theorem natCompare_isTotalOrder : IsTotalOrder natCompare.call :=
  ⟨fun a b => by simp only [natCompare]; omega,
   fun a b c => by simp only [natCompare]; omega⟩

theorem natCopy_keepsKey : CopyKeepsKey natCompare.call natCopy.call := by
  intro k k1 h
  simp only [natCopy, Option.some.injEq] at h
  simp [natCompare, h]

end Get

/-- C6: after any finite sequence of `mapPut`, `mapRemove` and `mapClear` calls on a map
made by `mapCreate`, with a comparator that is a consistent total order and a key
duplication that returns an equal key, every call has a defined result, no two keys of the
chain compare equal, and every key compares strictly less than its successor. -/
theorem map_keys_stay_unique_and_ascending {K V : Type}
    (cd : FnPtr V (Option V)) (ck : FnPtr K (Option K)) (fd : FnPtr (Option V) Unit)
    (fk : FnPtr K Unit) (cmp : FnPtr K (K → Int)) (mallocOk : Bool)
    (ops : List (MapOp K V))
    (hcmp : IsTotalOrder cmp.call) (hcopy : CopyKeepsKey cmp.call ck.call) :
    ∃ m, applyOps (mapCreate (some cd) (some ck) (some fd) (some fk) (some cmp) mallocOk) ops
        = some m ∧
      (keys m).Pairwise (fun a b => cmp.call a b ≠ 0 ∧ cmp.call b a ≠ 0) ∧
      (keys m).Chain' (fun a b => cmp.call a b < 0) := by
  cases mallocOk with
  | false =>
    refine ⟨none, ?_, ?_, ?_⟩
    · simp [mapCreate, applyOps_null]
    · simp [keys, nodes]
    · simp [keys, nodes]
  | true =>
    obtain ⟨m1, h1, hc1, ha1⟩ := applyOps_keeps_ascending ops
      ({ head := [], iterator := none, size := 0, copyDataElement := cd, copyKeyElement := ck,
         freeDataElement := fd, freeKeyElement := fk, compareKeyElements := cmp } :
        ordered_map_t K V) hcmp hcopy (by simp [Ascending])
    have hkeys : (keys (some m1)).Pairwise (fun a b => cmp.call a b < 0) := by
      simp only [keys, nodes]
      rw [hc1] at ha1
      exact List.pairwise_map.2 ha1
    refine ⟨some m1, by simpa [mapCreate] using h1, ?_, hkeys.chain'⟩
    refine hkeys.imp ?_
    intro a b hab
    have := (hcmp.swap a b).1 hab
    constructor <;> omega

/-- C6 at a concrete run: six calls on a map of natural numbers. -/
theorem map_keys_stay_unique_and_ascending_witness :
    ∃ m, applyOps (mapCreate (some natCopy) (some natCopy) (some natFreeData)
          (some natFreeKey) (some natCompare) true)
        [MapOp.put (some 2) (some 10) true, MapOp.put (some 1) (some 11) true,
         MapOp.put (some 2) (some 12) true, MapOp.remove (some 1), MapOp.clear,
         MapOp.put (some 3) (some 1) true] = some m ∧
      (keys m).Pairwise (fun a b => natCompare.call a b ≠ 0 ∧ natCompare.call b a ≠ 0) ∧
      (keys m).Chain' (fun a b => natCompare.call a b < 0) :=
  map_keys_stay_unique_and_ascending natCopy natCopy natFreeData natFreeKey natCompare true _
    natCompare_isTotalOrder natCopy_keepsKey

/-- C9: on a map that contains a key equal to `k`, with a comparator that is a consistent
total order, `mapPut(map, k, v)` has a defined result, which is `MAP_SUCCESS` exactly when
the duplication of `v` succeeds; on success the count and the sequence of keys are
unchanged, `mapGet(map, k)` returns the copy of `v`, and `mapGet` of every key that does
not compare equal to `k` returns what it returned before. -/
theorem mapPut_existing_key_updates_value {K V : Type} (m : ordered_map_t K V) (k : K)
    (d : V) (mallocOk : Bool)
    (hcmp : IsTotalOrder m.compareKeyElements.call)
    (hc : mapContains (some m) (some k) = true) :
    ∃ m1 r, mapPut (some m) (some k) (some d) mallocOk = some (some m1, r) ∧
      (r = MapResult.MAP_SUCCESS ↔ (m.copyDataElement.call d).isSome = true) ∧
      (r = MapResult.MAP_SUCCESS →
        mapGetSize (some m1) = mapGetSize (some m) ∧
        keys (some m1) = keys (some m) ∧
        mapGet (some m1) (some k) = m.copyDataElement.call d ∧
        ∀ k1, m.compareKeyElements.call k1 k ≠ 0 →
          mapGet (some m1) (some k1) = mapGet (some m) (some k1)) := by
  obtain ⟨l1, n, l2, hl, h1, hn, hu⟩ :=
    mapPut_existing m k d mallocOk (fun _ _ h => hcmp.zero_symm h) hc
  refine ⟨_, _, hu, ?_, ?_⟩
  · cases (m.copyDataElement.call d).isSome <;> simp
  · intro _
    refine ⟨rfl, by simp [keys, nodes, hl], ?_, ?_⟩
    · simp only [mapGet]
      exact mapGet_loop_found _ k l1 l2 _ h1 hn
    · intro k1 hk1
      have hnk1 : m.compareKeyElements.call n.key k1 ≠ 0 := by
        intro h0
        have h2 := hcmp.zero_symm h0
        have h3 := hcmp.le_trans k1 n.key k (by omega) (by omega)
        have h4 := hcmp.le_trans k n.key k1 (by have := hcmp.zero_symm hn; omega) (by omega)
        have h5 := hcmp.swap k1 k
        have h6 := hcmp.swap k k1
        omega
      simp only [mapGet, hl]
      rw [mapGet_loop_skip _ k1 l1 l2 n hnk1]
      exact mapGet_loop_skip _ k1 l1 l2 _ hnk1

/-- C9 at a concrete map: key `7` holds `1` and is put again with `2`; and the run
`put(7, 1)`, `put(7, 2)` from the empty map ends with `mapGet(map, 7) = 2` and count `1`. -/
theorem mapPut_existing_key_updates_value_witness :
    (∃ m1 r, mapPut (natMap natCopy [⟨some 1, 7⟩]) (some 7) (some 2) true = some (some m1, r) ∧
      (r = MapResult.MAP_SUCCESS ↔ (natCopy.call 2).isSome = true) ∧
      (r = MapResult.MAP_SUCCESS →
        mapGetSize (some m1) = mapGetSize (natMap natCopy [⟨some 1, 7⟩]) ∧
        keys (some m1) = keys (natMap natCopy [⟨some 1, 7⟩]) ∧
        mapGet (some m1) (some 7) = natCopy.call 2 ∧
        ∀ k1, natCompare.call k1 7 ≠ 0 →
          mapGet (some m1) (some k1) = mapGet (natMap natCopy [⟨some 1, 7⟩]) (some k1))) ∧
    (applyOps (mapCreate (some natCopy) (some natCopy) (some natFreeData)
          (some natFreeKey) (some natCompare) true)
        [MapOp.put (some 7) (some 1) true, MapOp.put (some 7) (some 2) true]).map
      (fun m => (mapGet m (some 7), mapGetSize m, keys m)) = some (some 2, 1, [7]) :=
  ⟨mapPut_existing_key_updates_value
      { head := [⟨some 1, 7⟩], iterator := none, size := 1, copyDataElement := natCopy,
        copyKeyElement := natCopy, freeDataElement := natFreeData,
        freeKeyElement := natFreeKey, compareKeyElements := natCompare }
      7 2 true natCompare_isTotalOrder (by decide),
   by decide⟩

/-- C10: on a map with strictly ascending keys and no key equal to `k`, with a comparator
that is a consistent total order and a key duplication that returns an equal key,
`mapPut(map, k, v)` has a defined result, which is `MAP_SUCCESS` exactly when the node
allocation and both duplications succeed; on success the count grows by one, the new
chain is the old chain with the node of the copies of `k` and `v` spliced in between the
keys less than `k` and the keys greater than `k`, the keys are still strictly ascending,
`mapGet(map, k)` returns the copy of `v`, and `mapGet` of every key that was present
returns what it returned before. -/
theorem mapPut_new_key_splices_sorted {K V : Type} (m : ordered_map_t K V) (k : K)
    (d : V) (mallocOk : Bool)
    (hcmp : IsTotalOrder m.compareKeyElements.call)
    (hcopy : CopyKeepsKey m.compareKeyElements.call m.copyKeyElement.call)
    (hasc : Ascending m.compareKeyElements.call m.head)
    (hc : mapContains (some m) (some k) = false) :
    ∃ m1 r, mapPut (some m) (some k) (some d) mallocOk = some (some m1, r) ∧
      (r = MapResult.MAP_SUCCESS ↔
        (mallocOk = true ∧ (m.copyKeyElement.call k).isSome = true ∧
          (m.copyDataElement.call d).isSome = true)) ∧
      (r = MapResult.MAP_SUCCESS →
        mapGetSize (some m1) = mapGetSize (some m) + 1 ∧
        (∃ key data l1 l2, m.copyKeyElement.call k = some key ∧
          m.copyDataElement.call d = some data ∧
          nodes (some m) = l1 ++ l2 ∧ nodes (some m1) = l1 ++ ⟨some data, key⟩ :: l2 ∧
          (∀ a ∈ l1, m.compareKeyElements.call a.key k < 0) ∧
          (∀ b ∈ l2, m.compareKeyElements.call k b.key < 0)) ∧
        Ascending m.compareKeyElements.call (nodes (some m1)) ∧
        mapGet (some m1) (some k) = m.copyDataElement.call d ∧
        ∀ k1, mapContains (some m) (some k1) = true →
          mapGet (some m1) (some k1) = mapGet (some m) (some k1)) := by
  have hput := mapPut_new m k d mallocOk hc
  rcases addNewElement_splice m k d mallocOk hcmp hasc hc with hf | h
  · refine ⟨m, MapResult.MAP_OUT_OF_MEMORY, by simp [hput, hf], ?_, by simp⟩
    rw [← addNewElement_snd, hf]
    simp
  · obtain ⟨key, data, l1, l2, hok, hk, hd, hadd, hhead, h1, h2⟩ := h
    have hkk := hcopy k key hk
    have hkk1 := hcmp.zero_symm hkk
    refine ⟨{ m with head := l1 ++ ⟨some data, key⟩ :: l2, size := m.size + 1 },
      MapResult.MAP_SUCCESS, by simp [hput, hadd], by simp [hok, hk, hd], ?_⟩
    intro _
    refine ⟨rfl, ⟨key, data, l1, l2, hk, hd, hhead, rfl, h1, h2⟩, ?_, ?_, ?_⟩
    · apply ascending_splice
      · rw [← hhead]; exact hasc
      · intro a ha
        exact hcmp.lt_of_lt_of_le (h1 a ha) (by simp only; omega)
      · intro b hb
        exact hcmp.lt_of_le_of_lt (by simp only; omega) (h2 b hb)
    · simp only [mapGet, hd]
      refine mapGet_loop_found _ k l1 l2 _ ?_ hkk1
      intro a ha
      have := h1 a ha
      omega
    · intro k1 hk1
      obtain ⟨n, hn, hn0⟩ := (mapContains_loop_true_iff _ k1 m.head).1 hk1
      have hnk : m.compareKeyElements.call n.key k ≠ 0 :=
        (mapContains_loop_false_iff _ k m.head).1 hc n hn
      have hne : m.compareKeyElements.call key k1 ≠ 0 := by
        intro h0
        apply hnk
        have e1 := hcmp.zero_symm h0
        have e2 := hcmp.zero_symm hn0
        have a1 := hcmp.le_trans n.key k1 key (by omega) (by omega)
        have a2 := hcmp.le_trans n.key key k (by omega) (by omega)
        have b1 := hcmp.le_trans k key k1 (by omega) (by omega)
        have b2 := hcmp.le_trans k k1 n.key (by omega) (by omega)
        have s1 := hcmp.swap n.key k
        have s2 := hcmp.swap k n.key
        omega
      simp only [mapGet, hhead]
      exact mapGet_loop_skip _ k1 l1 l2 _ hne

/-- C10 at a concrete map: key `2` is put into the map with keys `1` and `3`. -/
theorem mapPut_new_key_splices_sorted_witness :
    ∃ m1 r, mapPut (natMap natCopy [⟨some 10, 1⟩, ⟨some 30, 3⟩]) (some 2) (some 20) true
        = some (some m1, r) ∧
      (r = MapResult.MAP_SUCCESS ↔
        (true = true ∧ (natCopy.call 2).isSome = true ∧ (natCopy.call 20).isSome = true)) ∧
      (r = MapResult.MAP_SUCCESS →
        mapGetSize (some m1) = mapGetSize (natMap natCopy [⟨some 10, 1⟩, ⟨some 30, 3⟩]) + 1 ∧
        (∃ key data l1 l2, natCopy.call 2 = some key ∧
          natCopy.call 20 = some data ∧
          nodes (natMap natCopy [⟨some 10, 1⟩, ⟨some 30, 3⟩]) = l1 ++ l2 ∧
          nodes (some m1) = l1 ++ ⟨some data, key⟩ :: l2 ∧
          (∀ a ∈ l1, natCompare.call a.key 2 < 0) ∧
          (∀ b ∈ l2, natCompare.call 2 b.key < 0)) ∧
        Ascending natCompare.call (nodes (some m1)) ∧
        mapGet (some m1) (some 2) = natCopy.call 20 ∧
        ∀ k1, mapContains (natMap natCopy [⟨some 10, 1⟩, ⟨some 30, 3⟩]) (some k1) = true →
          mapGet (some m1) (some k1)
            = mapGet (natMap natCopy [⟨some 10, 1⟩, ⟨some 30, 3⟩]) (some k1)) :=
  mapPut_new_key_splices_sorted
    { head := [⟨some 10, 1⟩, ⟨some 30, 3⟩], iterator := none, size := 2,
      copyDataElement := natCopy, copyKeyElement := natCopy, freeDataElement := natFreeData,
      freeKeyElement := natFreeKey, compareKeyElements := natCompare }
    2 20 true natCompare_isTotalOrder natCopy_keepsKey
    (by unfold Ascending; simp [natCompare]) (by decide)

end CMap

/-! ## The sorted list -/

namespace containers

section Insert

variable {T : Type} {lt : T → T → Bool}

theorem IsStrictWeakOrder.asymm (h : IsStrictWeakOrder lt) {a b : T} (hab : lt a b = true) :
    lt b a = false := by
  cases hba : lt b a with
  | false => rfl
  | true =>
    have := h.trans a b a hab hba
    rw [h.irrefl a] at this
    exact Bool.noConfusion this

theorem insert_loop_shift (element : T) (l : List T) (i : Nat) :
    SortedList.insert_loop lt element i l = i + SortedList.insert_loop lt element 0 l := by
  induction l generalizing i with
  | nil => simp [SortedList.insert_loop]
  | cons n rest ih =>
    simp only [SortedList.insert_loop]
    split
    · rw [ih (i + 1), ih (0 + 1)]; omega
    · simp

theorem insert_loop_take (element : T) (l : List T) :
    ∀ x ∈ l.take (SortedList.insert_loop lt element 0 l), lt x element = true := by
  induction l with
  | nil => simp [SortedList.insert_loop]
  | cons n rest ih =>
    simp only [SortedList.insert_loop]
    split
    · rename_i hn
      rw [insert_loop_shift, Nat.add_comm, List.take_succ_cons]
      intro x hx
      rcases List.mem_cons.1 hx with rfl | hx
      · exact hn
      · exact ih x hx
    · simp

theorem insert_loop_drop (element : T) (l : List T) :
    ∀ y ∈ (l.drop (SortedList.insert_loop lt element 0 l)).head?, lt y element = false := by
  induction l with
  | nil => simp [SortedList.insert_loop]
  | cons n rest ih =>
    simp only [SortedList.insert_loop]
    split
    · rw [insert_loop_shift, Nat.add_comm, List.drop_succ_cons]
      exact ih
    · rename_i hn
      intro y hy
      simp at hy
      subst hy
      simpa using hn

theorem insert_splice (hlt : IsStrictWeakOrder lt) (l : SortedList T) (e : T)
    (hs : NonDecreasing lt l.head) :
    ∃ l1 l2, l.head = l1 ++ l2 ∧
      SortedList.insert lt l e = { l with head := l1 ++ e :: l2, size := l.size + 1 } ∧
      (∀ a ∈ l1, lt e a = false) ∧ (∀ b ∈ l2, lt b e = false) := by
  unfold SortedList.insert
  cases hm : l.head with
  | nil => exact ⟨[], [], rfl, rfl, by simp, by simp⟩
  | cons first rest =>
    rw [hm] at hs
    have hs1 := List.pairwise_cons.1 hs
    cases hf : lt e first with
    | true =>
      refine ⟨[], first :: rest, rfl, by simp [hf], by simp, ?_⟩
      intro b hb
      rcases List.mem_cons.1 hb with rfl | hb
      · exact hlt.asymm hf
      · exact hlt.neg_trans b first e (hs1.1 b hb) (hlt.asymm hf)
    | false =>
      refine ⟨first :: rest.take (SortedList.insert_loop lt e 0 rest),
        rest.drop (SortedList.insert_loop lt e 0 rest), by simp, by simp [hf], ?_, ?_⟩
      · intro a ha
        rcases List.mem_cons.1 ha with rfl | ha
        · exact hf
        · exact hlt.asymm (insert_loop_take e rest a ha)
      · cases hl2 : rest.drop (SortedList.insert_loop lt e 0 rest) with
        | nil => simp
        | cons y l2 =>
          have hy : lt y e = false := insert_loop_drop e rest y (by rw [hl2]; rfl)
          have hsub : (y :: l2).Pairwise (fun a b => lt b a = false) := by
            rw [← hl2]
            exact hs1.2.sublist (List.drop_sublist _ _)
          intro b hb
          rcases List.mem_cons.1 hb with rfl | hb
          · exact hy
          · exact hlt.neg_trans b y e ((List.pairwise_cons.1 hsub).1 b hb) hy

theorem insert_nonDecreasing (hlt : IsStrictWeakOrder lt) (l : SortedList T) (e : T)
    (hs : NonDecreasing lt l.head) :
    NonDecreasing lt (SortedList.insert lt l e).head ∧
    (SortedList.insert lt l e).head.Perm (e :: l.head) ∧
    (SortedList.insert lt l e).size = l.size + 1 ∧
    (SortedList.insert lt l e).addr = l.addr := by
  obtain ⟨l1, l2, hl, hins, h1, h2⟩ := insert_splice hlt l e hs
  rw [hins, hl]
  refine ⟨?_, List.perm_middle, rfl, rfl⟩
  unfold NonDecreasing at *
  rw [hl, List.pairwise_append] at hs
  simp only
  rw [List.pairwise_append]
  refine ⟨hs.1, List.pairwise_cons.2 ⟨h2, hs.2.1⟩, ?_⟩
  intro a ha b hb
  rcases List.mem_cons.1 hb with rfl | hb
  · exact h1 a ha
  · exact hs.2.2 a ha b hb

theorem remove_loop_eq (target : Nat) (rest : List T) (pos : Nat) (ptr : T)
    (h1 : pos < target) (h2 : target - pos < rest.length + 1) :
    SortedList.remove_loop target pos ptr rest
      = some ((ptr :: rest).eraseIdx (target - pos)) := by
  induction rest generalizing pos ptr with
  | nil => simp at h2; omega
  | cons next rest ih =>
    simp only [SortedList.remove_loop]
    by_cases hp : pos + 1 = target
    · have : target - pos = 1 := by omega
      simp [hp, this]
    · have hstep : target - pos = (target - (pos + 1)) + 1 := by omega
      rw [if_neg hp, ih (pos + 1) next (by omega) (by simp at h2 ⊢; omega), hstep]
      simp

theorem remove_valid (l : SortedList T) (it : const_iterator) (hv : cursorValid l it) :
    SortedList.remove l it = some l ∨
    ∃ i, i < l.head.length ∧ it = { list := l.addr, current_node := some i } ∧
      SortedList.remove l it
        = some { l with head := l.head.eraseIdx i, size := l.size - 1 } := by
  unfold SortedList.remove
  cases hc : it.current_node with
  | none => left; rfl
  | some target =>
    by_cases ha : it.list = l.addr
    · right
      have hi := hv ha target hc
      refine ⟨target, hi, ?_, ?_⟩
      · cases it; simp_all
      · cases hm : l.head with
        | nil => simp [hm] at hi
        | cons first rest =>
          by_cases h0 : target = 0
          · simp [ha, h0]
          · have := remove_loop_eq target rest 0 first (by omega)
              (by rw [hm] at hi; simpa using hi)
            simp [ha, h0, this]
    · left; simp [ha]

theorem applyListOps_sorted (hlt : IsStrictWeakOrder lt) (ops : List (ListOp T))
    (l : SortedList T) (hs : NonDecreasing lt l.head)
    (hv : cursorsValid lt l ops) :
    ∃ l1, applyListOps lt l ops = some l1 ∧ NonDecreasing lt l1.head := by
  induction ops generalizing l with
  | nil => exact ⟨l, rfl, hs⟩
  | cons op ops ih =>
    cases op with
    | insert e =>
      exact ih _ (insert_nonDecreasing hlt l e hs).1 hv
    | remove it =>
      simp only [cursorsValid] at hv
      rcases remove_valid l it hv.1 with h | ⟨i, _, _, h⟩
      · have hv2 := hv.2
        rw [h] at hv2
        obtain ⟨l1, h1, h2⟩ := ih l hs hv2
        exact ⟨l1, by simp [applyListOps, applyListOp, h, h1], h2⟩
      · have hv2 := hv.2
        rw [h] at hv2
        obtain ⟨l1, h1, h2⟩ := ih _
          (List.Pairwise.sublist (List.eraseIdx_sublist l.head i) hs) hv2
        exact ⟨l1, by simp [applyListOps, applyListOp, h, h1], h2⟩

theorem insertAll_spec (hlt : IsStrictWeakOrder lt) (xs : List T) (l : SortedList T)
    (hs : NonDecreasing lt l.head) :
    NonDecreasing lt (insertAll lt l xs).head ∧
    (insertAll lt l xs).head.Perm (xs ++ l.head) ∧
    (insertAll lt l xs).size = l.size + xs.length := by
  induction xs generalizing l with
  | nil => exact ⟨hs, by simp [insertAll], by simp [insertAll]⟩
  | cons x xs ih =>
    obtain ⟨h1, h2, h3, _⟩ := insert_nonDecreasing hlt l x hs
    obtain ⟨g1, g2, g3⟩ := ih (SortedList.insert lt l x) h1
    refine ⟨g1, ?_, ?_⟩
    · refine g2.trans ?_
      refine ((List.Perm.append_left xs h2).trans ?_)
      simp
    · show (insertAll lt (SortedList.insert lt l x) xs).size = _
      rw [g3, h3]
      simp
      omega

theorem natLt_isStrictWeakOrder : IsStrictWeakOrder natLt :=
  ⟨fun a => by simp [natLt],
   fun a b c => by simp only [natLt, decide_eq_true_eq]; omega,
   fun a b c => by simp only [natLt, decide_eq_false_iff_not]; omega⟩

end Insert

/-- C7: after any finite sequence of `insert` and `remove` calls on an initially empty
`SortedList`, every `remove` being given a valid cursor and `operator<` being a strict
weak order, every call has a defined result and no element of the list is less than an
earlier one; in particular every two adjacent elements `a`, `b` satisfy `not (b < a)`. -/
theorem sortedList_stays_nonDecreasing {T : Type} (lt : T → T → Bool) (addr : Nat)
    (ops : List (ListOp T)) (hlt : IsStrictWeakOrder lt)
    (hv : cursorsValid lt (SortedList.empty addr) ops) :
    ∃ l, applyListOps lt (SortedList.empty addr) ops = some l ∧
      l.head.Chain' (fun a b => lt b a = false) ∧ NonDecreasing lt l.head := by
  obtain ⟨l, h1, h2⟩ := applyListOps_sorted hlt ops (SortedList.empty addr)
    (by simp [SortedList.empty, NonDecreasing]) hv
  exact ⟨l, h1, List.Pairwise.chain' h2, h2⟩

/-- C7 at a concrete run: insert `5`, `1`, `3`, remove the node in position `1`, call
`remove` with the `end()` cursor, insert `4`. -/
theorem sortedList_stays_nonDecreasing_witness :
    ∃ l, applyListOps natLt (SortedList.empty 0)
        [ListOp.insert 5, ListOp.insert 1, ListOp.insert 3, ListOp.remove ⟨0, some 1⟩,
         ListOp.remove ⟨0, none⟩, ListOp.insert 4] = some l ∧
      l.head.Chain' (fun a b => natLt b a = false) ∧ NonDecreasing natLt l.head :=
  sortedList_stays_nonDecreasing natLt 0 _ natLt_isStrictWeakOrder
    (by simp [cursorsValid, cursorValid, SortedList.insert, SortedList.insert_loop,
          SortedList.remove, SortedList.remove_loop, SortedList.empty, natLt])

/-- C8: inserting the elements of any finite sequence `xs` one by one into an empty
`SortedList`, with `operator<` a strict weak order, yields a list whose count and number
of nodes are the length of `xs` and whose enumeration is a permutation of `xs` in which
no element is less than an earlier one. -/
theorem insertAll_sorted_permutation {T : Type} (lt : T → T → Bool) (addr : Nat)
    (xs : List T) (hlt : IsStrictWeakOrder lt) :
    (insertAll lt (SortedList.empty addr) xs).length = xs.length ∧
    (insertAll lt (SortedList.empty addr) xs).head.length = xs.length ∧
    (insertAll lt (SortedList.empty addr) xs).head.Perm xs ∧
    NonDecreasing lt (insertAll lt (SortedList.empty addr) xs).head := by
  obtain ⟨h1, h2, h3⟩ := insertAll_spec hlt xs (SortedList.empty addr)
    (by simp [SortedList.empty, NonDecreasing])
  have h2a : (insertAll lt (SortedList.empty addr) xs).head.Perm xs := by
    simpa [SortedList.empty] using h2
  refine ⟨?_, h2a.length_eq, h2a, h1⟩
  rw [SortedList.length, h3]
  simp [SortedList.empty]

/-- C8 at concrete inputs: the theorem at `5, 1, 3`; inserting `5, 1, 3` enumerates
`1, 3, 5`; and inserting a second `3` gives `1, 3, 3, 5` with count `4`. -/
theorem insertAll_sorted_permutation_witness :
    ((insertAll natLt (SortedList.empty 0) [5, 1, 3]).length = ([5, 1, 3] : List Nat).length ∧
      (insertAll natLt (SortedList.empty 0) [5, 1, 3]).head.length
        = ([5, 1, 3] : List Nat).length ∧
      (insertAll natLt (SortedList.empty 0) [5, 1, 3]).head.Perm [5, 1, 3] ∧
      NonDecreasing natLt (insertAll natLt (SortedList.empty 0) [5, 1, 3]).head) ∧
    (insertAll natLt (SortedList.empty 0) [5, 1, 3]).head = [1, 3, 5] ∧
    (insertAll natLt (SortedList.empty 0) [5, 1, 3, 3]).head = [1, 3, 3, 5] ∧
    (insertAll natLt (SortedList.empty 0) [5, 1, 3, 3]).length = 4 :=
  ⟨insertAll_sorted_permutation natLt 0 [5, 1, 3] natLt_isStrictWeakOrder,
   by decide, by decide, by decide⟩

end containers

/-! ## The array-based set of `C++/set.h` -/

namespace containers

/-- C14: with `A` holding `1` and `2` and `B` empty, `setIntersection(A, B)` enumerates
`2`, which `B` does not contain: `intersectWith` removes `1` by moving the last element
into its slot and then steps past that slot, so the moved element is never tested. -/
theorem setIntersection_skips_moved_element :
    (natSetOf [1, 2]).map Set.elements = some [1, 2] ∧
    (natSetOf []).map Set.elements = some [] ∧
    ((natSetOf [1, 2]).bind (fun a => (natSetOf []).bind (fun b =>
        (setIntersection natEq 0 a b).map (fun r =>
          (Set.elements r, Set.contains natEq r 2, Set.contains natEq b 2)))))
      = some ([2], some true, some false) := by
  decide

end containers

/-! ## The unique set: union, intersection, removal and insertion -/

namespace CSet

/-- C11: for the sets `1, 2` and `2, 3`, `setUnion` has size `4` and `setIntersection` has
size `2` (chain `2, 2`), so the size of the union is not `2 + 2 - 2`: both results hold a
duplicate because `setAdd` does not compare the last node. -/
theorem setUnion_size_is_not_inclusion_exclusion :
    (setUnion (natSet [1, 2]) (natSet [2, 3]) allOk).map
      (fun r => (elements r.1, setGetSize r.1, r.2)) = some ([1, 2, 2, 3], 4, Link.null) ∧
    (setIntersection (natSet [1, 2]) (natSet [2, 3]) allOk).map
      (fun r => (elements r.1, setGetSize r.1, r.2)) = some ([2, 2], 2, Link.null) ∧
    (4 : Int) ≠ setGetSize (natSet [1, 2]) + setGetSize (natSet [2, 3]) - 2 := by
  decide

/-- C12: for the set `1, 2`, `setIntersection(A, A)` is the chain `1, 2, 2` with size `3`:
the second pass adds `2` again because `setAdd` does not compare the last node. -/
theorem setIntersection_with_itself_grows :
    (setIntersection (natSet [1, 2]) (natSet [1, 2]) allOk).map
      (fun r => (elements r.1, setGetSize r.1, r.2)) = some ([1, 2, 2], 3, Link.null) ∧
    setGetSize (natSet [1, 2]) = 2 := by
  decide

section Add

variable {E : Type}

theorem setAdd_loop_false (eq : E → E → Bool) (e : E) (next : List E) (ptr : E)
    (h : ∀ y ∈ ptr :: next, eq y e = false) :
    setAdd_loop eq e Link.null ptr next = some false := by
  induction next generalizing ptr with
  | nil => rfl
  | cons n rest ih =>
    simp only [setAdd_loop, h ptr (List.mem_cons_self _ _)]
    exact ih n (fun y hy => h y (List.mem_cons_of_mem _ hy))

theorem setAdd_loop_null (eq : E → E → Bool) (e : E) (next : List E) (ptr : E) :
    ∃ b, setAdd_loop eq e Link.null ptr next = some b := by
  induction next generalizing ptr with
  | nil => exact ⟨false, rfl⟩
  | cons n rest ih =>
    cases hp : eq ptr e with
    | true => exact ⟨true, by simp [setAdd_loop, hp]⟩
    | false =>
      obtain ⟨b, hb⟩ := ih n
      exact ⟨b, by simp [setAdd_loop, hp, hb]⟩

theorem setAdd_loop_wild (eq : E → E → Bool) (e : E) (next : List E) (ptr : E)
    (h : ∀ y ∈ ptr :: next, eq y e = false) :
    setAdd_loop eq e Link.wild ptr next = none := by
  induction next generalizing ptr with
  | nil => simp [setAdd_loop, h ptr (List.mem_cons_self _ _)]
  | cons n rest ih =>
    simp only [setAdd_loop, h ptr (List.mem_cons_self _ _)]
    exact ih n (fun y hy => h y (List.mem_cons_of_mem _ hy))

theorem setAdd_fresh (s : set_t E) (e c : E) (next : Link) (hwf : s.size = s.head.length)
    (hno : ∀ y ∈ s.head, s.equalElements.call y e = false)
    (hc : s.copyElement.call e = some c) :
    setAdd (some s) Link.null (some e) (some next)
      = some (some { s with head := s.head ++ [c], size := s.size + 1 },
          SetResult.SET_SUCCESS, next) := by
  unfold setAdd
  cases hm : s.head with
  | nil =>
    have h0 : s.size = 0 := by simp [hwf, hm]
    simp [setIsEmpty, h0, createNodeElement, hc]
  | cons ptr rest =>
    have h0 : s.size ≠ 0 := by
      rw [hwf, hm]
      simp only [List.length_cons, Nat.cast_add, Nat.cast_one]
      omega
    have hl := setAdd_loop_false s.equalElements.call e rest ptr (by rw [← hm]; exact hno)
    simp [setIsEmpty, h0, hl, createNodeElement, hc, hm]

theorem setAdd_after_wild (s : set_t E) (e : E) (block : Option Link)
    (hwf : s.size = s.head.length) (hne : s.head ≠ [])
    (hno : ∀ y ∈ s.head, s.equalElements.call y e = false) :
    setAdd (some s) Link.wild (some e) block = none := by
  unfold setAdd
  cases hm : s.head with
  | nil => exact absurd hm hne
  | cons ptr rest =>
    have h0 : s.size ≠ 0 := by
      rw [hwf, hm]
      simp only [List.length_cons, Nat.cast_add, Nat.cast_one]
      omega
    have hl := setAdd_loop_wild s.equalElements.call e rest ptr (by rw [← hm]; exact hno)
    simp [setIsEmpty, h0, hl, hm]

theorem setAddAll_loop_fresh (mem : Nat → Option Link) (hmem : ∀ i, mem i = some Link.null)
    (l : List E) (r : set_t E) (i : Nat)
    (hwf : r.size = r.head.length)
    (hkeep : CopyKeepsEqual r.equalElements.call r.copyElement.call)
    (hcopy : ∀ a ∈ l, (r.copyElement.call a).isSome = true)
    (hdup : NoTwoEqual r.equalElements.call l)
    (hno : ∀ y ∈ r.head, ∀ x ∈ l, r.equalElements.call y x = false) :
    ∃ cs, List.Forall₂ (fun a c => r.copyElement.call a = some c) l cs ∧
      setAddAll_loop mem i (some r) Link.null l
        = some (i + l.length,
            some { r with head := r.head ++ cs, size := r.size + l.length }, Link.null) := by
  induction l generalizing r i with
  | nil =>
    refine ⟨[], List.Forall₂.nil, ?_⟩
    simp [setAddAll_loop]
  | cons x rest ih =>
    obtain ⟨c, hc⟩ := Option.isSome_iff_exists.1 (hcopy x (List.mem_cons_self _ _))
    have hadd := setAdd_fresh r x c Link.null hwf
      (fun y hy => hno y hy x (List.mem_cons_self _ _)) hc
    have hd := List.pairwise_cons.1 hdup
    obtain ⟨cs, hcs, hloop⟩ := ih { r with head := r.head ++ [c], size := r.size + 1 } (i + 1)
      (by simp [hwf]) hkeep (fun a ha => hcopy a (List.mem_cons_of_mem _ ha)) hd.2
      (by
        intro y hy x1 hx1
        rcases List.mem_append.1 hy with hy | hy
        · exact hno y hy x1 (List.mem_cons_of_mem _ hx1)
        · simp only [List.mem_singleton] at hy
          subst hy
          rw [hkeep x y hc x1]
          exact hd.1 x1 hx1)
    refine ⟨c :: cs, List.Forall₂.cons hc hcs, ?_⟩
    have e1 : i + 1 + rest.length = i + (rest.length + 1) := by omega
    have e2 : r.size + 1 + (rest.length : Int) = r.size + ((rest.length : Int) + 1) := by
      omega
    simp only [setAddAll_loop, hmem, hadd, hloop, List.length_cons, Nat.cast_add,
      Nat.cast_one, List.append_assoc, List.singleton_append, e1, e2]

end Add

section Remove

variable {E : Type}

theorem setRemove_loop_some (eq : E → E → Bool) (e : E) (l : List E)
    (h : ∃ x ∈ l, eq x e = true) :
    ∃ l1 x l2, l = l1 ++ x :: l2 ∧ (∀ a ∈ l1, eq a e = false) ∧ eq x e = true ∧
      setRemove_loop eq e l = some (x, l1 ++ l2) := by
  induction l with
  | nil => simp at h
  | cons y rest ih =>
    cases hy : eq y e with
    | true => exact ⟨[], y, rest, rfl, by simp, hy, by simp [setRemove_loop, hy]⟩
    | false =>
      obtain ⟨x, hx, hxe⟩ := h
      rcases List.mem_cons.1 hx with rfl | hx
      · rw [hy] at hxe; exact Bool.noConfusion hxe
      · obtain ⟨l1, x1, l2, hl, h1, hx1, hloop⟩ := ih ⟨x, hx, hxe⟩
        refine ⟨y :: l1, x1, l2, by simp [hl], ?_, hx1, by simp [setRemove_loop, hy, hloop]⟩
        intro a ha
        rcases List.mem_cons.1 ha with rfl | ha
        · exact hy
        · exact h1 a ha

theorem setRemove_eq_loop (s : set_t E) (e : E) :
    setRemove (some s) (some e)
      = match setRemove_loop s.equalElements.call e s.head with
        | none => (some s, SetResult.SET_ITEM_DOES_NOT_EXIST)
        | some r => (some { s with head := r.2, size := s.size - 1 }, SetResult.SET_SUCCESS) := by
  unfold setRemove
  cases hm : s.head with
  | nil => simp [setRemove_loop, hm]
  | cons ptr rest =>
    cases hp : s.equalElements.call ptr e with
    | true => simp [setRemove_loop, hp, removeNodeElement, hm]
    | false =>
      cases hr : setRemove_loop s.equalElements.call e rest with
      | none => simp [setRemove_loop, hp, hr, hm]
      | some r => simp [setRemove_loop, hp, hr, removeNodeElement, hm]

end Remove

/-- On storage that reads as zero: for a set `A` whose count is its number of nodes and in
which no two elements are equal, and an empty set bound to the same callbacks, when every
allocation succeeds with a block that reads as zero, every element duplication succeeds
and the duplication keeps equality, `setUnion(A, E)` and `setUnion(E, A)` both return a
set with the size of `A` whose chain is, node by node and in the same order, the copies of
the elements of `A`, and ends in `NULL`. -/
theorem setUnion_with_empty_on_zeroed_storage {E : Type} (A empty : set_t E)
    (mem : Nat → Option Link)
    (hwf : A.size = A.head.length) (hempty : empty.head = [])
    (hc : empty.copyElement = A.copyElement) (hf : empty.freeElement = A.freeElement)
    (hq : empty.equalElements = A.equalElements)
    (hmem : ∀ i, mem i = some Link.null)
    (hkeep : CopyKeepsEqual A.equalElements.call A.copyElement.call)
    (hcopy : ∀ a ∈ A.head, (A.copyElement.call a).isSome = true)
    (hdup : NoTwoEqual A.equalElements.call A.head) :
    ∃ r1 r2, setUnion (some A) (some empty) mem = some (some r1, Link.null) ∧
      setUnion (some empty) (some A) mem = some (some r2, Link.null) ∧
      setGetSize (some r1) = setGetSize (some A) ∧
      List.Forall₂ (fun a c => A.copyElement.call a = some c)
        (elements (some A)) (elements (some r1)) ∧
      setGetSize (some r2) = setGetSize (some A) ∧
      List.Forall₂ (fun a c => A.copyElement.call a = some c)
        (elements (some A)) (elements (some r2)) := by
  obtain ⟨cs, hcs, hloop⟩ := setAddAll_loop_fresh mem hmem A.head
    { head := [], iterator := none, size := 0, copyElement := A.copyElement,
      freeElement := A.freeElement, equalElements := A.equalElements } 1
    (by simp) hkeep hcopy hdup (by simp)
  simp only [List.nil_append, zero_add] at hloop
  have hcs1 : List.Forall₂ (fun a c => A.copyElement.call a = some c) A.head cs := hcs
  refine ⟨{ head := cs, iterator := none, size := A.head.length,
            copyElement := A.copyElement, freeElement := A.freeElement,
            equalElements := A.equalElements },
          { head := cs, iterator := none, size := A.head.length,
            copyElement := A.copyElement, freeElement := A.freeElement,
            equalElements := A.equalElements }, ?_, ?_, ?_, hcs1, ?_, hcs1⟩
  · simp only [setUnion, hc, hf, hq, ne_eq, not_true_eq_false, or_self, if_false, setCreate,
      hmem, Option.isSome_some, if_true, hloop, hempty, setAddAll_loop]
  · simp only [setUnion, hc, hf, hq, ne_eq, not_true_eq_false, or_self, if_false, setCreate,
      hmem, Option.isSome_some, if_true, hloop, hempty, setAddAll_loop]
  · simp [setGetSize, hwf]
  · simp [setGetSize, hwf]

/-- C13: the union of the set `1, 2` with the empty set, on either side, when the block
that `malloc` returns for the first node holds a wild pointer where `next` is stored:
`createNodeElement` never writes that field, so the `setAdd` of `2` reads the link of the
node `1` and follows it, and `setUnion` has no defined result. When it is the block of the
second node that holds the wild pointer, `setUnion` returns a set of size `2` with the
nodes `1, 2` whose chain does not end in `NULL`. On storage that reads as zero the result
is the chain `1, 2` ending in `NULL`. -/
theorem setUnion_with_empty_follows_unwritten_link :
    (setUnion (natSet [1, 2]) (natSet []) (wildAt 1)).isNone = true ∧
    (setUnion (natSet []) (natSet [1, 2]) (wildAt 1)).isNone = true ∧
    (setUnion (natSet [1, 2]) (natSet []) (wildAt 2)).map
      (fun r => (elements r.1, setGetSize r.1, r.2)) = some ([1, 2], 2, Link.wild) ∧
    (setUnion (natSet [1, 2]) (natSet []) allOk).map
      (fun r => (elements r.1, setGetSize r.1, r.2)) = some ([1, 2], 2, Link.null) := by
  decide

/-- C16: on a set that contains an element equal to `e`, `setRemove(set, e)` returns
`SET_SUCCESS`, unlinks the first node, from the head, whose element is equal to `e`, keeps
every other node in its place in the order, and decrements the size by one. -/
theorem setRemove_present_unlinks_first_match {E : Type} (s : set_t E) (e : E)
    (h : ∃ x ∈ elements (some s), s.equalElements.call x e = true) :
    ∃ l1 x l2 s1, elements (some s) = l1 ++ x :: l2 ∧
      (∀ a ∈ l1, s.equalElements.call a e = false) ∧ s.equalElements.call x e = true ∧
      setRemove (some s) (some e) = (some s1, SetResult.SET_SUCCESS) ∧
      elements (some s1) = l1 ++ l2 ∧
      setGetSize (some s1) = setGetSize (some s) - 1 := by
  obtain ⟨l1, x, l2, hl, h1, hx, hloop⟩ := setRemove_loop_some s.equalElements.call e s.head h
  refine ⟨l1, x, l2, { s with head := l1 ++ l2, size := s.size - 1 }, hl, h1, hx, ?_, rfl, rfl⟩
  rw [setRemove_eq_loop, hloop]

/-- C16 at a concrete set: `2` is removed from the set `1, 2, 3`. -/
theorem setRemove_present_unlinks_first_match_witness :
    ∃ l1 x l2 s1, elements (natSet [1, 2, 3]) = l1 ++ x :: l2 ∧
      (∀ a ∈ l1, natEqual.call a 2 = false) ∧ natEqual.call x 2 = true ∧
      setRemove (natSet [1, 2, 3]) (some 2) = (some s1, SetResult.SET_SUCCESS) ∧
      elements (some s1) = l1 ++ l2 ∧
      setGetSize (some s1) = setGetSize (natSet [1, 2, 3]) - 1 :=
  setRemove_present_unlinks_first_match
    { head := [1, 2, 3], iterator := none, size := 3, copyElement := natCopy,
      freeElement := natFree, equalElements := natEqual } 2
    ⟨2, by simp [elements], rfl⟩

/-- C17: `4` is added to the set `1, 2, 3`, which holds no `4`, and its duplication
succeeds. `createNodeElement` assigns `data` and never `next`: when the block that
`malloc` returns holds a wild pointer there, `setAdd` returns `SET_SUCCESS` and counts `4`
nodes, but the chain `1, 2, 3, 4` does not end in `NULL`, and a further `setAdd` of `5`,
which walks to the end of the chain, reads through the wild pointer and has no defined
result. On a block that reads as zero the chain is `1, 2, 3, 4` and ends in `NULL`. -/
theorem setAdd_links_node_with_unwritten_next :
    (createNodeElement
        { head := [1, 2, 3], iterator := none, size := 3, copyElement := natCopy,
          freeElement := natFree, equalElements := natEqual } 4 (some Link.wild)).2.map
      (fun node => (node.data, node.next)) = some (4, Link.wild) ∧
    (setAdd (natSet [1, 2, 3]) Link.null (some 4) (some Link.wild)).map
      (fun r => (r.2.1, elements r.1, setGetSize r.1, r.2.2))
      = some (SetResult.SET_SUCCESS, [1, 2, 3, 4], 4, Link.wild) ∧
    (applyOps (natSet [1, 2, 3]) Link.null
      [SetOp.add (some 4) (some Link.wild), SetOp.add (some 5) (some Link.null)]).isNone
      = true ∧
    (setAdd (natSet [1, 2, 3]) Link.null (some 4) (some Link.null)).map
      (fun r => (r.2.1, elements r.1, setGetSize r.1, r.2.2))
      = some (SetResult.SET_SUCCESS, [1, 2, 3, 4], 4, Link.null) := by
  decide

end CSet

/-! ## The ordered map: lookup and removal -/

namespace CMap

section RemoveKey

variable {K V : Type}

theorem mapRemove_loop_some (cmp : K → K → Int) (k : K) (l : List (Node K V))
    (h : ∃ n ∈ l, cmp n.key k = 0) :
    ∃ l1 n l2, l = l1 ++ n :: l2 ∧ (∀ a ∈ l1, cmp a.key k ≠ 0) ∧ cmp n.key k = 0 ∧
      mapRemove_loop cmp k l = some (n, l1 ++ l2) := by
  induction l with
  | nil => simp at h
  | cons y rest ih =>
    by_cases hy : cmp y.key k = 0
    · exact ⟨[], y, rest, rfl, by simp, hy, by simp [mapRemove_loop, hy]⟩
    · obtain ⟨x, hx, hxe⟩ := h
      rcases List.mem_cons.1 hx with rfl | hx
      · exact absurd hxe hy
      · obtain ⟨l1, x1, l2, hl, h1, hx1, hloop⟩ := ih ⟨x, hx, hxe⟩
        refine ⟨y :: l1, x1, l2, by simp [hl], ?_, hx1, by simp [mapRemove_loop, hy, hloop]⟩
        intro a ha
        rcases List.mem_cons.1 ha with rfl | ha
        · exact hy
        · exact h1 a ha

theorem mapRemove_eq_loop (m : ordered_map_t K V) (k : K) :
    mapRemove (some m) (some k)
      = match mapRemove_loop m.compareKeyElements.call k m.head with
        | none => (some m, MapResult.MAP_ITEM_DOES_NOT_EXIST)
        | some r => (some { m with head := r.2, size := m.size - 1 }, MapResult.MAP_SUCCESS) := by
  unfold mapRemove
  cases hm : m.head with
  | nil => simp [mapRemove_loop, hm]
  | cons ptr rest =>
    by_cases hp : m.compareKeyElements.call ptr.key k = 0
    · simp [mapRemove_loop, hp, removeNodeElement, hm]
    · cases hr : mapRemove_loop m.compareKeyElements.call k rest with
      | none => simp [mapRemove_loop, hp, hr, hm]
      | some r => simp [mapRemove_loop, hp, hr, removeNodeElement, hm]

end RemoveKey

/-- C18: on a map with strictly ascending keys that contains a key equal to `k`, with a
comparator that is a consistent total order, `mapRemove(map, k)` returns `MAP_SUCCESS`,
decrements the size by one and unlinks the node whose key compares equal to `k`;
afterwards `mapContains(map, k)` is false and every other node is still in the chain,
unchanged and in the same order. -/
theorem mapRemove_present_unlinks_node {K V : Type} (m : ordered_map_t K V) (k : K)
    (hcmp : IsTotalOrder m.compareKeyElements.call)
    (hasc : Ascending m.compareKeyElements.call m.head)
    (h : ∃ n ∈ nodes (some m), m.compareKeyElements.call n.key k = 0) :
    ∃ l1 n l2 m1, nodes (some m) = l1 ++ n :: l2 ∧
      m.compareKeyElements.call n.key k = 0 ∧
      mapRemove (some m) (some k) = (some m1, MapResult.MAP_SUCCESS) ∧
      nodes (some m1) = l1 ++ l2 ∧
      mapGetSize (some m1) = mapGetSize (some m) - 1 ∧
      mapContains (some m1) (some k) = false := by
  obtain ⟨l1, n, l2, hl, h1, hn, hloop⟩ :=
    mapRemove_loop_some m.compareKeyElements.call k m.head h
  refine ⟨l1, n, l2, { m with head := l1 ++ l2, size := m.size - 1 }, hl, hn, ?_, rfl, rfl, ?_⟩
  · rw [mapRemove_eq_loop, hloop]
  · simp only [mapContains]
    rw [mapContains_loop_false_iff]
    intro a ha
    rcases List.mem_append.1 ha with ha | ha
    · exact h1 a ha
    · intro h0
      have hlt : m.compareKeyElements.call n.key a.key < 0 := by
        unfold Ascending at hasc
        rw [hl, List.pairwise_append] at hasc
        exact (List.pairwise_cons.1 hasc.2.1).1 a ha
      have e1 := hcmp.zero_symm hn
      have e2 := hcmp.le_trans a.key k n.key (by omega) (by omega)
      have e3 := (hcmp.swap n.key a.key).1 hlt
      omega

/-- C18 at a concrete map: key `2` is removed from the map with keys `1`, `2`, `3`. -/
theorem mapRemove_present_unlinks_node_witness :
    ∃ l1 n l2 m1,
      nodes (natMap natCopy [⟨some 10, 1⟩, ⟨some 20, 2⟩, ⟨some 30, 3⟩]) = l1 ++ n :: l2 ∧
      natCompare.call n.key 2 = 0 ∧
      mapRemove (natMap natCopy [⟨some 10, 1⟩, ⟨some 20, 2⟩, ⟨some 30, 3⟩]) (some 2)
        = (some m1, MapResult.MAP_SUCCESS) ∧
      nodes (some m1) = l1 ++ l2 ∧
      mapGetSize (some m1)
        = mapGetSize (natMap natCopy [⟨some 10, 1⟩, ⟨some 20, 2⟩, ⟨some 30, 3⟩]) - 1 ∧
      mapContains (some m1) (some 2) = false :=
  mapRemove_present_unlinks_node
    { head := [⟨some 10, 1⟩, ⟨some 20, 2⟩, ⟨some 30, 3⟩], iterator := none, size := 3,
      copyDataElement := natCopy, copyKeyElement := natCopy, freeDataElement := natFreeData,
      freeKeyElement := natFreeKey, compareKeyElements := natCompare }
    2 natCompare_isTotalOrder (by unfold Ascending; simp [natCompare])
    ⟨⟨some 20, 2⟩, by simp [nodes], by simp [natCompare]⟩

/-- C19: `mapGet` returns `NULL` and `mapContains` returns false for a null map or a null
key. For a map and a key `k`, either no node has a key that compares equal to `k`, and then
`mapContains` is false and `mapGet` returns `NULL`; or there is a first node whose key
compares equal to `k`, and then `mapContains` is true and `mapGet` returns the `data`
held by that node. -/
theorem mapGet_and_mapContains_find_first_match {K V : Type} (map : Map K V)
    (key : Option K) (m : ordered_map_t K V) (k : K) :
    mapGet (none : Map K V) key = none ∧ mapContains (none : Map K V) key = false ∧
    mapGet map none = none ∧ mapContains map none = false ∧
    (((∀ n ∈ nodes (some m), m.compareKeyElements.call n.key k ≠ 0) ∧
        mapContains (some m) (some k) = false ∧ mapGet (some m) (some k) = none) ∨
     (∃ l1 n l2, nodes (some m) = l1 ++ n :: l2 ∧
        (∀ a ∈ l1, m.compareKeyElements.call a.key k ≠ 0) ∧
        m.compareKeyElements.call n.key k = 0 ∧
        mapContains (some m) (some k) = true ∧ mapGet (some m) (some k) = n.data)) := by
  refine ⟨rfl, rfl, by cases map <;> rfl, by cases map <;> rfl, ?_⟩
  by_cases h : ∃ n ∈ m.head, m.compareKeyElements.call n.key k = 0
  · right
    obtain ⟨l1, n, l2, hl, h1, hn, _⟩ :=
      mapRemove_loop_some m.compareKeyElements.call k m.head h
    refine ⟨l1, n, l2, hl, h1, hn, ?_, ?_⟩
    · simp only [mapContains]
      exact (mapContains_loop_true_iff _ k m.head).2 h
    · simp only [mapGet, hl]
      exact mapGet_loop_found _ k l1 l2 n h1 hn
  · left
    push_neg at h
    refine ⟨h, ?_, ?_⟩
    · simp only [mapContains]
      exact (mapContains_loop_false_iff _ k m.head).2 h
    · simp only [mapGet]
      generalize m.head = l at h
      induction l with
      | nil => rfl
      | cons x rest ih =>
        simp only [mapGet_loop, h x (List.mem_cons_self _ _), if_false]
        exact ih (fun n hn => h n (List.mem_cons_of_mem _ hn))

end CMap

namespace containers

/-- C20: for a cursor bound to this list that points at the node in position `i` of the
chain, `remove(cursor)` has a defined result, the new enumeration is the old one with the
element in position `i` erased and every other element in the same order, and `length()`
is decremented by one. -/
theorem remove_unlinks_node_at_cursor {T : Type} (l : SortedList T) (i : Nat)
    (hi : i < l.head.length) :
    ∃ l1, SortedList.remove l { list := l.addr, current_node := some i } = some l1 ∧
      l1.head = l.head.eraseIdx i ∧
      SortedList.length l1 = SortedList.length l - 1 ∧
      l1.head.length + 1 = l.head.length := by
  have hlen : (l.head.eraseIdx i).length + 1 = l.head.length := by
    rw [List.length_eraseIdx, if_pos hi]
    omega
  refine ⟨{ l with head := l.head.eraseIdx i, size := l.size - 1 }, ?_, rfl, rfl, hlen⟩
  obtain ⟨first, rest, hm⟩ : ∃ first rest, l.head = first :: rest := by
    cases hl : l.head with
    | nil => rw [hl] at hi; simp at hi
    | cons a b => exact ⟨a, b, rfl⟩
  by_cases h0 : i = 0
  · simp [SortedList.remove, hm, h0]
  · have := remove_loop_eq i rest 0 first (by omega) (by rw [hm] at hi; simpa using hi)
    simp [SortedList.remove, hm, h0, this]

/-- C20 at a concrete list: the node in position `1` of the list `1, 3, 5` is removed. -/
theorem remove_unlinks_node_at_cursor_witness :
    ∃ l1, SortedList.remove ({ addr := 0, head := [1, 3, 5], size := 3 } : SortedList Nat)
        { list := 0, current_node := some 1 } = some l1 ∧
      l1.head = ([1, 3, 5] : List Nat).eraseIdx 1 ∧
      SortedList.length l1
        = SortedList.length ({ addr := 0, head := [1, 3, 5], size := 3 } : SortedList Nat) - 1 ∧
      l1.head.length + 1 = ([1, 3, 5] : List Nat).length :=
  remove_unlinks_node_at_cursor { addr := 0, head := [1, 3, 5], size := 3 } 1 (by decide)

end containers

/-! ## The sorted list: cursors, `filter` and `apply` -/

namespace containers

section Cursor

variable {T : Type}

theorem begin_eq_cursor (l : SortedList T) :
    SortedList.begin l
      = { list := l.addr, current_node := if 0 < l.head.length then some 0 else none } := by
  unfold SortedList.begin
  cases l.head <;> simp

theorem increment_at (chain : List T) (a i : Nat) (hi : i < chain.length) :
    const_iterator.increment chain { list := a, current_node := some i }
      = Advance.moved
          { list := a, current_node := if i + 1 < chain.length then some (i + 1) else none } := by
  simp [const_iterator.increment, hi]

theorem incrementN_at (chain : List T) (a : Nat) (k i : Nat) (h : i + k ≤ chain.length) :
    const_iterator.incrementN chain k
        { list := a, current_node := if i < chain.length then some i else none }
      = Advance.moved
          { list := a, current_node := if i + k < chain.length then some (i + k) else none } := by
  induction k generalizing i with
  | zero => simp [const_iterator.incrementN]
  | succ k ih =>
    have hi : i < chain.length := by omega
    simp only [const_iterator.incrementN, hi, if_true, increment_at chain a i hi]
    rw [ih (i + 1) (by omega)]
    have e : i + 1 + k = i + (k + 1) := by omega
    rw [e]

theorem filter_loop_eq (lt : T → T → Bool) (p : T → Bool) (l : SortedList T)
    (fuel i : Nat) (list : SortedList T) (hi : i ≤ l.head.length)
    (hf : l.head.length - i ≤ fuel) :
    SortedList.filter_loop lt p l fuel
        { list := l.addr, current_node := if i < l.head.length then some i else none } list
      = some (insertAll lt list ((l.head.drop i).filter p)) := by
  induction fuel generalizing i list with
  | zero =>
    have hn : ¬ i < l.head.length := by omega
    have hd : l.head.drop i = [] := List.drop_eq_nil_of_le (by omega)
    simp [SortedList.filter_loop, const_iterator.equals, SortedList.end_, hn, hd, insertAll]
  | succ fuel ih =>
    by_cases hlt : i < l.head.length
    · have hd : l.head.drop i = l.head[i] :: l.head.drop (i + 1) :=
        List.drop_eq_getElem_cons hlt
      have hget : l.head[i]? = some l.head[i] := List.getElem?_eq_getElem hlt
      simp only [SortedList.filter_loop, const_iterator.equals, SortedList.end_, hlt, if_true,
        const_iterator.deref, hget, increment_at l.head l.addr i hlt]
      simp only [beq_self_eq_true, Bool.true_and]
      have hne : (some i == (none : Option Nat)) = false := rfl
      rw [hne]
      simp only [Bool.false_eq_true, if_false]
      rw [ih (i + 1) _ (by omega) (by omega)]
      conv_rhs => rw [hd]
      cases hp : p l.head[i] with
      | true => simp only [insertAll, List.filter_cons, hp, if_true, List.foldl_cons]
      | false =>
        simp only [insertAll, List.filter_cons, hp, if_false, Bool.false_eq_true]
    · have hd : l.head.drop i = [] := List.drop_eq_nil_of_le (by omega)
      simp [SortedList.filter_loop, const_iterator.equals, SortedList.end_, hlt, hd, insertAll]

theorem apply_loop_eq (lt : T → T → Bool) (f : T → T) (l : SortedList T)
    (fuel i : Nat) (list : SortedList T) (hi : i ≤ l.head.length)
    (hf : l.head.length - i ≤ fuel) :
    SortedList.apply_loop lt f l fuel
        { list := l.addr, current_node := if i < l.head.length then some i else none } list
      = some (insertAll lt list ((l.head.drop i).map f)) := by
  induction fuel generalizing i list with
  | zero =>
    have hn : ¬ i < l.head.length := by omega
    have hd : l.head.drop i = [] := List.drop_eq_nil_of_le (by omega)
    simp [SortedList.apply_loop, const_iterator.equals, SortedList.end_, hn, hd, insertAll]
  | succ fuel ih =>
    by_cases hlt : i < l.head.length
    · have hd : l.head.drop i = l.head[i] :: l.head.drop (i + 1) :=
        List.drop_eq_getElem_cons hlt
      have hget : l.head[i]? = some l.head[i] := List.getElem?_eq_getElem hlt
      simp only [SortedList.apply_loop, const_iterator.equals, SortedList.end_, hlt, if_true,
        const_iterator.deref, hget, increment_at l.head l.addr i hlt]
      simp only [beq_self_eq_true, Bool.true_and]
      have hne : (some i == (none : Option Nat)) = false := rfl
      rw [hne]
      simp only [Bool.false_eq_true, if_false]
      rw [ih (i + 1) _ (by omega) (by omega)]
      conv_rhs => rw [hd]
      simp only [insertAll, List.map_cons, List.foldl_cons]
    · have hd : l.head.drop i = [] := List.drop_eq_nil_of_le (by omega)
      simp [SortedList.apply_loop, const_iterator.equals, SortedList.end_, hlt, hd, insertAll]

end Cursor

/-- C21: for a cursor that belongs to another list instance, or that is at the `end()`
position, `remove(cursor)` returns with the list as it was: same enumeration, same
`length()`. -/
theorem remove_foreign_or_end_cursor_is_noop {T : Type} (l : SortedList T)
    (it : const_iterator) (h : it.list ≠ l.addr ∨ it.current_node = none) :
    SortedList.remove l it = some l := by
  unfold SortedList.remove
  cases hc : it.current_node with
  | none => rfl
  | some i =>
    rcases h with h | h
    · simp [h]
    · rw [hc] at h; exact Option.noConfusion h

/-- C21 at concrete cursors: a cursor of the list at address `7` and the `end()` cursor,
on the list `1, 3, 5` at address `0`. -/
theorem remove_foreign_or_end_cursor_is_noop_witness :
    SortedList.remove ({ addr := 0, head := [1, 3, 5], size := 3 } : SortedList Nat)
        { list := 7, current_node := some 1 }
      = some { addr := 0, head := [1, 3, 5], size := 3 } ∧
    SortedList.remove ({ addr := 0, head := [1, 3, 5], size := 3 } : SortedList Nat)
        (SortedList.end_ { addr := 0, head := [1, 3, 5], size := 3 })
      = some { addr := 0, head := [1, 3, 5], size := 3 } :=
  ⟨remove_foreign_or_end_cursor_is_noop _ _ (Or.inl (by decide)),
   remove_foreign_or_end_cursor_is_noop { addr := 0, head := [1, 3, 5], size := 3 }
     (SortedList.end_ { addr := 0, head := [1, 3, 5], size := 3 }) (Or.inr rfl)⟩

/-- C22: for `operator<` a strict weak order, `filter(predicate)` returns a new list whose
enumeration is a permutation of the sub-sequence of the elements of this list that
satisfy the predicate, with no element less than an earlier one, and whose count is the
number of those elements. -/
theorem filter_sorted_permutation_of_matching {T : Type} (lt : T → T → Bool)
    (l : SortedList T) (predicate : T → Bool) (addr : Nat) (hlt : IsStrictWeakOrder lt) :
    ∃ r, SortedList.filter lt l predicate addr = some r ∧
      r.head.Perm (l.head.filter predicate) ∧
      (∀ x ∈ r.head, predicate x = true) ∧
      NonDecreasing lt r.head ∧
      SortedList.length r = (l.head.filter predicate).length := by
  have h := filter_loop_eq lt predicate l l.head.length 0 (SortedList.empty addr)
    (Nat.zero_le _) (by omega)
  rw [← begin_eq_cursor] at h
  obtain ⟨h1, h2, h3⟩ := insertAll_spec hlt (l.head.filter predicate) (SortedList.empty addr)
    (by simp [SortedList.empty, NonDecreasing])
  have h2a : (insertAll lt (SortedList.empty addr) (l.head.filter predicate)).head.Perm
      (l.head.filter predicate) := by
    simpa [SortedList.empty] using h2
  refine ⟨_, by simpa [SortedList.filter] using h, h2a, ?_, h1, ?_⟩
  · intro x hx
    exact (List.mem_filter.1 (h2a.mem_iff.1 hx)).2
  · rw [SortedList.length, h3]
    simp [SortedList.empty]

/-- C22 at a concrete list: the even elements of `1, 2, 3, 4`. -/
theorem filter_sorted_permutation_of_matching_witness :
    (∃ r, SortedList.filter natLt ({ addr := 0, head := [1, 2, 3, 4], size := 4 })
          (fun n => n % 2 == 0) 1 = some r ∧
      r.head.Perm (([1, 2, 3, 4] : List Nat).filter (fun n => n % 2 == 0)) ∧
      (∀ x ∈ r.head, (fun n => n % 2 == 0) x = true) ∧
      NonDecreasing natLt r.head ∧
      SortedList.length r = (([1, 2, 3, 4] : List Nat).filter (fun n => n % 2 == 0)).length) ∧
    (SortedList.filter natLt ({ addr := 0, head := [1, 2, 3, 4], size := 4 })
        (fun n => n % 2 == 0) 1).map (fun r => (r.head, r.size)) = some ([2, 4], 2) :=
  ⟨filter_sorted_permutation_of_matching natLt { addr := 0, head := [1, 2, 3, 4], size := 4 }
      (fun n => n % 2 == 0) 1 natLt_isStrictWeakOrder,
   by decide⟩

/-- C23: for `operator<` a strict weak order and a list whose count is its number of
nodes, `apply(function)` returns a new list of the same length whose enumeration is a
permutation of the images of the elements of this list, with no element less than an
earlier one; the transform need not keep the order. -/
theorem apply_sorted_permutation_of_images {T : Type} (lt : T → T → Bool)
    (l : SortedList T) (function : T → T) (addr : Nat) (hlt : IsStrictWeakOrder lt)
    (hwf : l.size = l.head.length) :
    ∃ r, SortedList.apply lt l function addr = some r ∧
      r.head.Perm (l.head.map function) ∧
      NonDecreasing lt r.head ∧
      SortedList.length r = SortedList.length l ∧
      r.head.length = l.head.length := by
  have h := apply_loop_eq lt function l l.head.length 0 (SortedList.empty addr)
    (Nat.zero_le _) (by omega)
  rw [← begin_eq_cursor] at h
  obtain ⟨h1, h2, h3⟩ := insertAll_spec hlt (l.head.map function) (SortedList.empty addr)
    (by simp [SortedList.empty, NonDecreasing])
  have h2a : (insertAll lt (SortedList.empty addr) (l.head.map function)).head.Perm
      (l.head.map function) := by
    simpa [SortedList.empty] using h2
  refine ⟨_, by simpa [SortedList.apply] using h, h2a, h1, ?_, ?_⟩
  · rw [SortedList.length, h3, SortedList.length, hwf]
    simp [SortedList.empty]
  · rw [h2a.length_eq, List.length_map]

/-- C23 at a concrete list: the transform `n ↦ 10 - n`, which reverses the order, on
`1, 2, 3`. -/
theorem apply_sorted_permutation_of_images_witness :
    (∃ r, SortedList.apply natLt ({ addr := 0, head := [1, 2, 3], size := 3 })
          (fun n => 10 - n) 1 = some r ∧
      r.head.Perm (([1, 2, 3] : List Nat).map (fun n => 10 - n)) ∧
      NonDecreasing natLt r.head ∧
      SortedList.length r
        = SortedList.length ({ addr := 0, head := [1, 2, 3], size := 3 } : SortedList Nat) ∧
      r.head.length = ([1, 2, 3] : List Nat).length) ∧
    (SortedList.apply natLt ({ addr := 0, head := [1, 2, 3], size := 3 })
        (fun n => 10 - n) 1).map (fun r => (r.head, r.size)) = some ([7, 8, 9], 3) :=
  ⟨apply_sorted_permutation_of_images natLt { addr := 0, head := [1, 2, 3], size := 3 }
      (fun n => 10 - n) 1 natLt_isStrictWeakOrder rfl,
   by decide⟩

/-- C24: `operator++` throws `std::out_of_range` exactly when the cursor is at the end
position; on a cursor at the node in position `i` it moves to the next node, or to the end
position after the last node. On a list whose count is its number of nodes, fewer than
`length()` advances from `begin()` all succeed and give a cursor not equal to `end()`,
exactly `length()` advances give a cursor equal to `end()`, and one more advance throws. -/
theorem increment_throws_exactly_at_end {T : Type} (l : SortedList T)
    (it : const_iterator) (hwf : l.size = l.head.length) :
    (const_iterator.increment l.head it = Advance.out_of_range ↔ it.current_node = none) ∧
    (∀ i, i < l.head.length →
      const_iterator.increment l.head { list := l.addr, current_node := some i }
        = Advance.moved
            { list := l.addr,
              current_node := if i + 1 < l.head.length then some (i + 1) else none }) ∧
    (∀ k, k < (SortedList.length l).toNat →
      ∃ it1, const_iterator.incrementN l.head k (SortedList.begin l) = Advance.moved it1 ∧
        const_iterator.equals it1 (SortedList.end_ l) = false) ∧
    (∃ it1, const_iterator.incrementN l.head (SortedList.length l).toNat (SortedList.begin l)
        = Advance.moved it1 ∧ const_iterator.equals it1 (SortedList.end_ l) = true) ∧
    const_iterator.incrementN l.head ((SortedList.length l).toNat + 1) (SortedList.begin l)
      = Advance.out_of_range := by
  have hn : (SortedList.length l).toNat = l.head.length := by
    simp [SortedList.length, hwf]
  rw [hn, begin_eq_cursor]
  refine ⟨?_, fun i hi => increment_at l.head l.addr i hi, ?_, ?_, ?_⟩
  · unfold const_iterator.increment
    cases it.current_node with
    | none => simp
    | some i => by_cases hi : i < l.head.length <;> simp [hi]
  · intro k hk
    refine ⟨_, incrementN_at l.head l.addr k 0 (by omega), ?_⟩
    simp [const_iterator.equals, SortedList.end_, hk]
  · refine ⟨_, incrementN_at l.head l.addr l.head.length 0 (by omega), ?_⟩
    simp [const_iterator.equals, SortedList.end_]
  · have h := incrementN_at l.head l.addr l.head.length 0 (by omega)
    have hstep : ∀ (k : Nat) (c : const_iterator),
        const_iterator.incrementN l.head (k + 1) c
          = match const_iterator.incrementN l.head k c with
            | Advance.moved c1 => const_iterator.increment l.head c1
            | r => r := by
      intro k
      induction k with
      | zero =>
        intro c
        simp only [const_iterator.incrementN]
        cases const_iterator.increment l.head c <;> rfl
      | succ k ih =>
        intro c
        rw [const_iterator.incrementN]
        cases hc : const_iterator.increment l.head c with
        | moved c1 =>
          simp only [ih c1]
          rw [const_iterator.incrementN, hc]
        | out_of_range => simp [const_iterator.incrementN, hc]
        | undefined => simp [const_iterator.incrementN, hc]
    rw [hstep, h]
    simp [const_iterator.increment]

/-- C24 at a concrete list: `1, 3, 5` with count `3`. -/
theorem increment_throws_exactly_at_end_witness :
    const_iterator.incrementN ([1, 3, 5] : List Nat) 3
        (SortedList.begin ({ addr := 0, head := [1, 3, 5], size := 3 } : SortedList Nat))
      = Advance.moved (SortedList.end_ ({ addr := 0, head := [1, 3, 5], size := 3 } :
          SortedList Nat)) ∧
    const_iterator.incrementN ([1, 3, 5] : List Nat)
        ((SortedList.length ({ addr := 0, head := [1, 3, 5], size := 3 } :
          SortedList Nat)).toNat + 1)
        (SortedList.begin ({ addr := 0, head := [1, 3, 5], size := 3 } : SortedList Nat))
      = Advance.out_of_range :=
  ⟨by decide,
   (increment_throws_exactly_at_end
      ({ addr := 0, head := [1, 3, 5], size := 3 } : SortedList Nat)
      (SortedList.end_ { addr := 0, head := [1, 3, 5], size := 3 }) rfl).2.2.2.2⟩

end containers

/-! ## The unique set: copy, filter, lookup, enumeration and failed insertion -/

namespace CSet

section Copy

variable {E : Type}

theorem setAdd_failed (s : set_t E) (e : E) (block : Option Link)
    (hwf : s.size = s.head.length)
    (hfail : block = none ∨ s.copyElement.call e = none) :
    ∃ r, setAdd (some s) Link.null (some e) block = some (some s, r, Link.null) ∧
      (r = SetResult.SET_OUT_OF_MEMORY ∨ r = SetResult.SET_ITEM_ALREADY_EXISTS) ∧
      ((∀ y ∈ s.head, s.equalElements.call y e = false) →
        r = SetResult.SET_OUT_OF_MEMORY) := by
  have hcreate : createNodeElement s e block = (s, none) := by
    unfold createNodeElement
    rcases hfail with h | h
    · simp [h]
    · cases block <;> simp [h]
  unfold setAdd
  cases hm : s.head with
  | nil =>
    have h0 : s.size = 0 := by simp [hwf, hm]
    refine ⟨SetResult.SET_OUT_OF_MEMORY, ?_, Or.inl rfl, fun _ => rfl⟩
    simp only [setIsEmpty, h0, beq_self_eq_true, if_true, hcreate]
    cases s
    simp_all
  | cons ptr next =>
    have h0 : s.size ≠ 0 := by
      rw [hwf, hm]
      simp only [List.length_cons, Nat.cast_add, Nat.cast_one]
      omega
    obtain ⟨found, hl⟩ := setAdd_loop_null s.equalElements.call e next ptr
    cases found with
    | true =>
      refine ⟨SetResult.SET_ITEM_ALREADY_EXISTS, by simp [setIsEmpty, h0, hm, hl],
        Or.inr rfl, ?_⟩
      intro hall
      rw [setAdd_loop_false s.equalElements.call e next ptr hall] at hl
      simp at hl
    | false =>
      exact ⟨SetResult.SET_OUT_OF_MEMORY, by simp [setIsEmpty, h0, hm, hl, hcreate],
        Or.inl rfl, fun _ => rfl⟩

theorem setCopy_loop_ok (mem : Nat → Option Link) (hmem : ∀ i, mem i = some Link.null)
    (l : List E) (r : set_t E) (i : Nat)
    (hwf : r.size = r.head.length)
    (hkeep : CopyKeepsEqual r.equalElements.call r.copyElement.call)
    (hcopy : ∀ a ∈ l, (r.copyElement.call a).isSome = true)
    (hdup : NoTwoEqual r.equalElements.call l)
    (hno : ∀ y ∈ r.head, ∀ x ∈ l, r.equalElements.call y x = false) :
    ∃ cs, List.Forall₂ (fun a c => r.copyElement.call a = some c) l cs ∧
      setCopy_loop mem i (some r) Link.null l
        = some (some (some { r with head := r.head ++ cs, size := r.size + l.length },
            Link.null)) := by
  induction l generalizing r i with
  | nil =>
    refine ⟨[], List.Forall₂.nil, ?_⟩
    simp [setCopy_loop]
  | cons x rest ih =>
    obtain ⟨c, hc⟩ := Option.isSome_iff_exists.1 (hcopy x (List.mem_cons_self _ _))
    have hadd := setAdd_fresh r x c Link.null hwf
      (fun y hy => hno y hy x (List.mem_cons_self _ _)) hc
    have hd := List.pairwise_cons.1 hdup
    obtain ⟨cs, hcs, hloop⟩ := ih { r with head := r.head ++ [c], size := r.size + 1 } (i + 1)
      (by simp [hwf]) hkeep (fun a ha => hcopy a (List.mem_cons_of_mem _ ha)) hd.2
      (by
        intro y hy x1 hx1
        rcases List.mem_append.1 hy with hy | hy
        · exact hno y hy x1 (List.mem_cons_of_mem _ hx1)
        · simp only [List.mem_singleton] at hy
          subst hy
          rw [hkeep x y hc x1]
          exact hd.1 x1 hx1)
    refine ⟨c :: cs, List.Forall₂.cons hc hcs, ?_⟩
    have e2 : r.size + 1 + (rest.length : Int) = r.size + ((rest.length : Int) + 1) := by
      omega
    simp only [setCopy_loop, hmem, hadd, hloop, List.length_cons, Nat.cast_add,
      Nat.cast_one, List.append_assoc, List.singleton_append, e2, ne_eq, not_true_eq_false,
      if_false]

theorem setCopy_loop_fail (mem : Nat → Option Link) (hmem : ∀ i, mem i ≠ some Link.wild)
    (l : List E) (r : set_t E) (i : Nat)
    (hwf : r.size = r.head.length)
    (hkeep : CopyKeepsEqual r.equalElements.call r.copyElement.call)
    (hfail : ∃ a ∈ l, r.copyElement.call a = none)
    (hdup : NoTwoEqual r.equalElements.call l)
    (hno : ∀ y ∈ r.head, ∀ x ∈ l, r.equalElements.call y x = false) :
    setCopy_loop mem i (some r) Link.null l = some none := by
  induction l generalizing r i with
  | nil => simp at hfail
  | cons x rest ih =>
    have hd := List.pairwise_cons.1 hdup
    have hnox : ∀ y ∈ r.head, r.equalElements.call y x = false :=
      fun y hy => hno y hy x (List.mem_cons_self _ _)
    by_cases hok : mem i = some Link.null ∧ ∃ c, r.copyElement.call x = some c
    · obtain ⟨hmi, c, hc⟩ := hok
      have hadd := setAdd_fresh r x c Link.null hwf hnox hc
      have hrest : ∃ a ∈ rest, r.copyElement.call a = none := by
        obtain ⟨a, ha, hnone⟩ := hfail
        rcases List.mem_cons.1 ha with rfl | ha
        · rw [hc] at hnone; exact Option.noConfusion hnone
        · exact ⟨a, ha, hnone⟩
      have hloop := ih { r with head := r.head ++ [c], size := r.size + 1 } (i + 1)
        (by simp [hwf]) hkeep hrest hd.2
        (by
          intro y hy x1 hx1
          rcases List.mem_append.1 hy with hy | hy
          · exact hno y hy x1 (List.mem_cons_of_mem _ hx1)
          · simp only [List.mem_singleton] at hy
            subst hy
            rw [hkeep x y hc x1]
            exact hd.1 x1 hx1)
      simp only [setCopy_loop, hmi, hadd, hloop, ne_eq, not_true_eq_false, if_false]
    · have hf : mem i = none ∨ r.copyElement.call x = none := by
        cases hmi : mem i with
        | none => exact Or.inl rfl
        | some next =>
          cases next with
          | wild => exact absurd hmi (hmem i)
          | null =>
            right
            cases hc : r.copyElement.call x with
            | none => rfl
            | some c => exact absurd ⟨hmi, c, hc⟩ hok
      obtain ⟨res, hadd, _, hoom⟩ := setAdd_failed r x (mem i) hwf hf
      rw [hoom hnox] at hadd
      simp [setCopy_loop, hadd, setDestroy]

theorem setFilter_loop_eq {P : Type} (mem : Nat → Option Link) (condition : E → P → Bool)
    (param : P) (l : List E) (i : Nat) (set : Set E) (last : Link) :
    setFilter_loop mem condition param i set last l
      = setAddAll_loop mem i set last (l.filter (fun x => condition x param)) := by
  induction l generalizing i set last with
  | nil => rfl
  | cons x rest ih =>
    cases hc : condition x param with
    | true =>
      simp only [setFilter_loop, hc, if_true, List.filter_cons, setAddAll_loop]
      cases setAdd set last (some x) (mem i) with
      | none => rfl
      | some r => exact ih (i + 1) r.1 r.2.2
    | false =>
      simp only [setFilter_loop, hc, List.filter_cons, Bool.false_eq_true, if_false]
      exact ih i set last

theorem natCopy_keepsEqual : CopyKeepsEqual natEqual.call natCopy.call := by
  intro a c h x
  simp only [natCopy, Option.some.injEq] at h
  rw [h]

end Copy

/-- On storage that reads as zero: for a set `S` whose count is its number of nodes and in
which no two elements are equal, with a duplication that keeps equality: when every
allocation succeeds with a block that reads as zero and every element duplication
succeeds, `setCopy(S)` is a set with the size of `S` whose chain is, node by node and in
the same order, the copies of the elements of `S`, and ends in `NULL`; and when the
duplication of some element of `S` fails and no block holds a wild pointer, `setCopy(S)`
returns `NULL`. -/
theorem setCopy_on_zeroed_storage {E : Type} (S : set_t E) (mem : Nat → Option Link)
    (hwf : S.size = S.head.length)
    (hkeep : CopyKeepsEqual S.equalElements.call S.copyElement.call)
    (hdup : NoTwoEqual S.equalElements.call S.head) :
    (((∀ i, mem i = some Link.null) ∧ ∀ a ∈ S.head, (S.copyElement.call a).isSome = true) →
      ∃ r, setCopy (some S) mem = some (some r, Link.null) ∧
        setGetSize (some r) = setGetSize (some S) ∧
        List.Forall₂ (fun a c => S.copyElement.call a = some c)
          (elements (some S)) (elements (some r))) ∧
    (((∀ i, mem i ≠ some Link.wild) ∧ ∃ a ∈ S.head, S.copyElement.call a = none) →
      setCopy (some S) mem = some (none, Link.null)) := by
  constructor
  · rintro ⟨hmem, hcopy⟩
    obtain ⟨cs, hcs, hloop⟩ := setCopy_loop_ok mem hmem S.head
      { head := [], iterator := none, size := 0, copyElement := S.copyElement,
        freeElement := S.freeElement, equalElements := S.equalElements } 1
      (by simp) hkeep hcopy hdup (by simp)
    simp only [List.nil_append, zero_add] at hloop
    have hcs1 : List.Forall₂ (fun a c => S.copyElement.call a = some c) S.head cs := hcs
    refine ⟨{ head := cs, iterator := none, size := S.head.length,
              copyElement := S.copyElement, freeElement := S.freeElement,
              equalElements := S.equalElements }, ?_, by simp [setGetSize, hwf], hcs1⟩
    simp only [setCopy, setCreate, hmem, Option.isSome_some, if_true, hloop]
  · rintro ⟨hmem, hfail⟩
    cases hm0 : mem 0 with
    | none => simp [setCopy, setCreate, hm0]
    | some next =>
      have hloop := setCopy_loop_fail mem hmem S.head
        { head := [], iterator := none, size := 0, copyElement := S.copyElement,
          freeElement := S.freeElement, equalElements := S.equalElements } 1
        (by simp) hkeep hfail hdup (by simp)
      simp only [setCopy, setCreate, hm0, Option.isSome_some, if_true, hloop]

/-- C25: the copy of the set `1, 2` when the block that `malloc` returns for the first
node of the copy holds a wild pointer where `next` is stored: `createNodeElement` never
writes that field, so the `setAdd` of `2` reads the link of the node `1` and follows it,
and `setCopy` has no defined result. When it is the block of the second node that holds
the wild pointer, `setCopy` returns a set of size `2` with the nodes `1, 2` whose chain
does not end in `NULL`. On storage that reads as zero the copy is the chain `1, 2` ending
in `NULL`. -/
theorem setCopy_follows_unwritten_link :
    (setCopy (natSet [1, 2]) (wildAt 1)).isNone = true ∧
    (setCopy (natSet [1, 2]) (wildAt 2)).map
      (fun r => (elements r.1, setGetSize r.1, r.2)) = some ([1, 2], 2, Link.wild) ∧
    (setCopy (natSet [1, 2]) allOk).map
      (fun r => (elements r.1, setGetSize r.1, r.2)) = some ([1, 2], 2, Link.null) := by
  decide

/-- On storage that reads as zero: for a set `S` in which no two elements are equal, with
a duplication that keeps equality, when every allocation succeeds with a block that reads
as zero and every element duplication succeeds, `setFilter(S, condition, param)` returns a
fresh set whose chain is, node by node and in the order of `S`, the copies of the elements
of `S` for which `condition(e, param)` holds, ends in `NULL`, and whose size is the number
of those elements. -/
theorem setFilter_on_zeroed_storage {E P : Type} (S : set_t E)
    (condition : E → P → Bool) (param : P) (mem : Nat → Option Link)
    (hmem : ∀ i, mem i = some Link.null)
    (hkeep : CopyKeepsEqual S.equalElements.call S.copyElement.call)
    (hcopy : ∀ a ∈ S.head, (S.copyElement.call a).isSome = true)
    (hdup : NoTwoEqual S.equalElements.call S.head) :
    ∃ r, setFilter (some S) (some condition) param mem = some (some r, Link.null) ∧
      List.Forall₂ (fun a c => S.copyElement.call a = some c)
        ((elements (some S)).filter (fun x => condition x param)) (elements (some r)) ∧
      setGetSize (some r) = ((elements (some S)).filter (fun x => condition x param)).length := by
  obtain ⟨cs, hcs, hloop⟩ := setAddAll_loop_fresh mem hmem
    (S.head.filter (fun x => condition x param))
    { head := [], iterator := none, size := 0, copyElement := S.copyElement,
      freeElement := S.freeElement, equalElements := S.equalElements } 1
    (by simp) hkeep (fun a ha => hcopy a (List.mem_filter.1 ha).1)
    (List.Pairwise.sublist (List.filter_sublist _) hdup) (by simp)
  simp only [List.nil_append, zero_add] at hloop
  have hcs1 : List.Forall₂ (fun a c => S.copyElement.call a = some c)
      (S.head.filter (fun x => condition x param)) cs := hcs
  refine ⟨{ head := cs, iterator := none,
            size := (S.head.filter (fun x => condition x param)).length,
            copyElement := S.copyElement, freeElement := S.freeElement,
            equalElements := S.equalElements }, ?_, hcs1, rfl⟩
  simp only [setFilter, setFilter_loop_eq, setCreate, hmem, Option.isSome_some, if_true,
    hloop, Option.map_some']

/-- C27: the elements of the set `1, 2, 3, 4` greater than the parameter `2`, when the
block that `malloc` returns for the first node of the fresh set holds a wild pointer where
`next` is stored: `createNodeElement` never writes that field, so the `setAdd` of `4`
reads the link of the node `3` and follows it, and `setFilter` has no defined result. When
it is the block of the second node that holds the wild pointer, `setFilter` returns a set
of size `2` with the nodes `3, 4` whose chain does not end in `NULL`. On storage that reads
as zero the result is the chain `3, 4` ending in `NULL`. -/
theorem setFilter_follows_unwritten_link :
    (setFilter (natSet [1, 2, 3, 4]) (some (fun (x p : Nat) => decide (p < x))) 2
      (wildAt 1)).isNone = true ∧
    (setFilter (natSet [1, 2, 3, 4]) (some (fun (x p : Nat) => decide (p < x))) 2
      (wildAt 2)).map
      (fun r => (elements r.1, setGetSize r.1, r.2)) = some ([3, 4], 2, Link.wild) ∧
    (setFilter (natSet [1, 2, 3, 4]) (some (fun (x p : Nat) => decide (p < x))) 2 allOk).map
      (fun r => (elements r.1, setGetSize r.1, r.2)) = some ([3, 4], 2, Link.null) := by
  decide

end CSet

namespace CSet

section Enumerate

variable {E : Type}

end Enumerate

end CSet

/-! ## The ordered map: copy and enumeration -/

namespace CMap

section CopyMap

variable {K V : Type}

theorem mapCopy_loop_ok (mem : Nat → Bool) (hmem : ∀ i, mem i = true)
    (l : List (Node K V)) (r : ordered_map_t K V) (i : Nat)
    (hcmp : IsTotalOrder r.compareKeyElements.call)
    (hkeep : CopyKeepsKey r.compareKeyElements.call r.copyKeyElement.call)
    (hascr : Ascending r.compareKeyElements.call r.head)
    (hascl : Ascending r.compareKeyElements.call l)
    (hlt : ∀ a ∈ r.head, ∀ x ∈ l, r.compareKeyElements.call a.key x.key < 0)
    (hkey : ∀ n ∈ l, (r.copyKeyElement.call n.key).isSome = true)
    (hdata : ∀ n ∈ l, ∃ d, n.data = some d ∧ (r.copyDataElement.call d).isSome = true) :
    ∃ cs, List.Forall₂ (fun n c => r.copyKeyElement.call n.key = some c.key ∧
          ∃ d, n.data = some d ∧ c.data = r.copyDataElement.call d) l cs ∧
      mapCopy_loop mem i (some r) l
        = some (some (some { r with head := r.head ++ cs, size := r.size + l.length })) := by
  induction l generalizing r i with
  | nil =>
    refine ⟨[], List.Forall₂.nil, ?_⟩
    simp [mapCopy_loop]
  | cons x rest ih =>
    obtain ⟨d, hxd, hdsome⟩ := hdata x (List.mem_cons_self _ _)
    have hksome := hkey x (List.mem_cons_self _ _)
    have hal := List.pairwise_cons.1 hascl
    have hnot : mapContains (some r) (some x.key) = false := by
      simp only [mapContains]
      rw [mapContains_loop_false_iff]
      intro n hn
      have := hlt n hn x (List.mem_cons_self _ _)
      omega
    have hput := mapPut_new r x.key d (mem i) hnot
    rw [hmem] at hput
    rcases addNewElement_splice r x.key d true hcmp hascr hnot with hf | h
    · have hs := (addNewElement_snd r x.key d true).2 ⟨rfl, hksome, hdsome⟩
      rw [hf] at hs
      exact Bool.noConfusion hs
    · obtain ⟨key, data, l1, l2, _, hk, hd, hadd, hhead, h1, h2⟩ := h
      have hl2 : l2 = [] := by
        cases l2 with
        | nil => rfl
        | cons b l2 =>
          have hb1 := h2 b (List.mem_cons_self _ _)
          have hb2 := hlt b (by rw [hhead]; simp) x (List.mem_cons_self _ _)
          have := (hcmp.swap b.key x.key).1 hb2
          omega
      subst hl2
      simp only [List.append_nil] at hhead
      subst hhead
      have hkk := hkeep x.key key hk
      have hkk1 := hcmp.zero_symm hkk
      obtain ⟨cs, hcs, hloop⟩ := ih
        { r with head := r.head ++ [⟨some data, key⟩], size := r.size + 1 } (i + 1)
        hcmp hkeep
        (by
          apply ascending_splice r.head [] ⟨some data, key⟩ (by simpa using hascr)
          · intro a ha
            exact hcmp.lt_of_lt_of_le (h1 a ha) (by simp only; omega)
          · simp)
        hal.2
        (by
          intro a ha y hy
          rcases List.mem_append.1 ha with ha | ha
          · exact hlt a ha y (List.mem_cons_of_mem _ hy)
          · simp only [List.mem_singleton] at ha
            subst ha
            exact hcmp.lt_of_le_of_lt (by simp only; omega) (hal.1 y hy))
        (fun n hn => hkey n (List.mem_cons_of_mem _ hn))
        (fun n hn => hdata n (List.mem_cons_of_mem _ hn))
      refine ⟨⟨some data, key⟩ :: cs, List.Forall₂.cons ⟨hk, d, hxd, by simp [hd]⟩ hcs, ?_⟩
      have e2 : r.size + 1 + (rest.length : Int) = r.size + ((rest.length : Int) + 1) := by
        omega
      simp only [mapCopy_loop, hmem, hxd, hput, hadd, hloop, List.length_cons, Nat.cast_add,
        Nat.cast_one, List.append_assoc, List.singleton_append, e2, ne_eq,
        not_true_eq_false, if_false, if_true]

theorem forall₂_mem_right {α β : Type} {R : α → β → Prop} {l : List α} {cs : List β}
    (h : List.Forall₂ R l cs) {c : β} (hc : c ∈ cs) : ∃ n ∈ l, R n c := by
  induction h with
  | nil => simp at hc
  | @cons a b as bs hab _ ih =>
    rcases List.mem_cons.1 hc with rfl | hc
    · exact ⟨a, List.mem_cons_self _ _, hab⟩
    · obtain ⟨n, hn, hr⟩ := ih hc
      exact ⟨n, List.mem_cons_of_mem _ hn, hr⟩

theorem ascending_of_copies (cmp : K → K → Int) (copy : K → Option K)
    (hcmp : IsTotalOrder cmp) (hkeep : CopyKeepsKey cmp copy)
    (l cs : List (Node K V))
    (h : List.Forall₂ (fun n c => copy n.key = some c.key) l cs)
    (hasc : Ascending cmp l) : Ascending cmp cs := by
  unfold Ascending at *
  induction h with
  | nil => exact List.Pairwise.nil
  | @cons n c ns cs1 hnc hrest ih =>
    have hp := List.pairwise_cons.1 hasc
    refine List.pairwise_cons.2 ⟨?_, ih hp.2⟩
    intro c1 hc1
    obtain ⟨n1, hn1, hn1c⟩ := forall₂_mem_right hrest hc1
    have e1 := hkeep n.key c.key hnc
    have e2 := hkeep n1.key c1.key hn1c
    have e3 := hcmp.zero_symm e1
    exact hcmp.lt_of_lt_of_le (hcmp.lt_of_le_of_lt (by omega) (hp.1 n1 hn1)) (by omega)

end CopyMap

/-- When every node holds a value: for a map `M` whose count is its number of nodes, whose
keys are strictly ascending and whose nodes all hold a value, with a comparator that is a
consistent total order and a key duplication that returns an equal key, when every
allocation and every duplication succeeds, `mapCopy(M)` is a map with the size of `M`
whose chain is, node by node and in the same order, the copies of the key/value pairs of
`M`, and its keys are strictly ascending. -/
theorem mapCopy_when_every_node_holds_a_value {K V : Type} (M : ordered_map_t K V) (mem : Nat → Bool)
    (hwf : M.size = M.head.length)
    (hcmp : IsTotalOrder M.compareKeyElements.call)
    (hkeep : CopyKeepsKey M.compareKeyElements.call M.copyKeyElement.call)
    (hasc : Ascending M.compareKeyElements.call M.head)
    (hmem : ∀ i, mem i = true)
    (hkey : ∀ n ∈ M.head, (M.copyKeyElement.call n.key).isSome = true)
    (hdata : ∀ n ∈ M.head, ∃ d, n.data = some d ∧ (M.copyDataElement.call d).isSome = true) :
    ∃ r, mapCopy (some M) mem = some (some r) ∧
      mapGetSize (some r) = mapGetSize (some M) ∧
      List.Forall₂ (fun n c => M.copyKeyElement.call n.key = some c.key ∧
          ∃ d, n.data = some d ∧ c.data = M.copyDataElement.call d)
        (nodes (some M)) (nodes (some r)) ∧
      Ascending M.compareKeyElements.call (nodes (some r)) := by
  obtain ⟨cs, hcs, hloop⟩ := mapCopy_loop_ok mem hmem M.head
    { head := [], iterator := none, size := 0, copyDataElement := M.copyDataElement,
      copyKeyElement := M.copyKeyElement, freeDataElement := M.freeDataElement,
      freeKeyElement := M.freeKeyElement, compareKeyElements := M.compareKeyElements } 1
    hcmp hkeep (by simp [Ascending]) hasc (by simp) hkey hdata
  simp only [List.nil_append, zero_add] at hloop
  have hcs1 : List.Forall₂ (fun n c => M.copyKeyElement.call n.key = some c.key ∧
      ∃ d, n.data = some d ∧ c.data = M.copyDataElement.call d) M.head cs := hcs
  refine ⟨{ head := cs, iterator := none, size := M.head.length,
            copyDataElement := M.copyDataElement, copyKeyElement := M.copyKeyElement,
            freeDataElement := M.freeDataElement, freeKeyElement := M.freeKeyElement,
            compareKeyElements := M.compareKeyElements }, ?_, by simp [mapGetSize, hwf],
          hcs1, ?_⟩
  · simp only [mapCopy, mapCreate, hmem, if_true, hloop]
  · exact ascending_of_copies M.compareKeyElements.call M.copyKeyElement.call hcmp hkeep
      M.head cs (hcs1.imp (fun _ _ h => h.1)) hasc

/-- C26: from `mapCreate`, `mapPut(map, 7, 1)` succeeds and `mapPut(map, 7, 2)`, whose
value duplication fails, returns `MAP_OUT_OF_MEMORY` and leaves the node of key `7` with
a `NULL` value. The map has one key and count `1`, so its keys are unique and ascending,
and `mapCopy`, with every allocation succeeding, returns `NULL`: the `mapPut` inside it
is given the `NULL` value and returns `MAP_NULL_ARGUMENT` before it duplicates anything.
Before the failed update, the copy of the map with key `7` and value `1` is that map. -/
theorem mapCopy_after_failed_update_returns_null :
    (applyOps
        (mapCreate (some natCopyFailsOn2) (some natCopy) (some natFreeData) (some natFreeKey)
          (some natCompare) true)
        [MapOp.put (some 7) (some 1) true, MapOp.put (some 7) (some 2) true]).map
      (fun m => (nodes m, mapGetSize m)) = some ([⟨none, 7⟩], 1) ∧
    (mapPut (natMap natCopyFailsOn2 [⟨some 1, 7⟩]) (some 7) (some 2) true).map
      (fun r => r.2) = some MapResult.MAP_OUT_OF_MEMORY ∧
    Ascending natCompare.call [(⟨none, 7⟩ : Node Nat Nat)] ∧
    ((applyOps
        (mapCreate (some natCopyFailsOn2) (some natCopy) (some natFreeData) (some natFreeKey)
          (some natCompare) true)
        [MapOp.put (some 7) (some 1) true, MapOp.put (some 7) (some 2) true]).bind
      (fun m => mapCopy m (fun _ => true))).map
      (fun r => (r.isNone, nodes r)) = some (true, []) ∧
    (mapPut
        (mapCreate (some natCopyFailsOn2) (some natCopy) (some natFreeData) (some natFreeKey)
          (some natCompare) true) (some 7) none true).map
      (fun r => (r.2, nodes r.1)) = some (MapResult.MAP_NULL_ARGUMENT, []) ∧
    (mapCopy (natMap natCopyFailsOn2 [⟨some 1, 7⟩]) (fun _ => true)).map
      (fun r => (nodes r, mapGetSize r)) = some ([⟨some 1, 7⟩], 1) := by
  refine ⟨by decide, by decide, ?_, by decide, by decide, by decide⟩
  simp [Ascending]

end CMap

namespace containers

/-- C35: the copy of a default-constructed (empty) `Set<int>` has `size = 0` and
`maxSize = 0` with an array of no slot; `expand` doubles `maxSize` to `0`, so the capacity
is still `0`; and `add(1)` on that copy then writes `data[0]`, outside the array: the
index written, `0`, is not less than the capacity `0`, and the call has no defined
result. -/
theorem add_to_copy_of_empty_set_writes_out_of_bounds :
    (Set.copy 0 (Set.empty 0)).map (fun s => (s.data, s.size, s.maxSize)) = some ([], 0, 0) ∧
    (Set.expand 0 ({ data := [], size := 0, maxSize := 0 } : Set Nat)).map
      (fun s => (s.data, s.size, s.maxSize)) = some ([], 0, 0) ∧
    ((Set.copy 0 (Set.empty 0)).bind (fun s => Set.add natEq 0 s 1)).isNone = true := by
  decide

end containers

/-! ## The plain list and the stack -/

namespace CList

/-- C37: on the list `1, 2, 3` with the iterator at position `0`, `listInsertAfterCurrent`
with the element `9` returns `LIST_SUCCESS` and raises the size to `4`, but the
enumeration from the head is still `1, 2, 3`: `createNode` has made the new node the
iterator, so the new node is linked to itself and never into the chain. -/
theorem listInsertAfterCurrent_does_not_link_node :
    (fun r : ListHandle Nat × ListResult =>
        (r.2, elements r.1, listGetSize r.1, r.1.map (fun l => l.iterator)))
      (listInsertAfterCurrent (natList [1, 2, 3] (NodePtr.inChain 0)) (some 9) true)
      = (ListResult.LIST_SUCCESS, [1, 2, 3], 4, some (NodePtr.loose 9 true)) := by
  decide

/-- C38: on the list `1, 2, 3` with the iterator at position `1` (after `listGetFirst` and
`listGetNext`), `listRemoveCurrent` returns `LIST_SUCCESS` and removes the head `1`, not
the element `2` at the iterator: the test `list->iterator = list->head` is an
assignment. -/
theorem listRemoveCurrent_removes_head :
    (listGetNext (listGetFirst (natList [1, 2, 3] NodePtr.null)).1).map
      (fun r => (r.1.map (fun l => l.iterator), r.2)) = some (some (NodePtr.inChain 1), some 2) ∧
    (listRemoveCurrent (natList [1, 2, 3] (NodePtr.inChain 1))).map
      (fun r => (r.2, elements r.1, listGetSize r.1))
      = some (ListResult.LIST_SUCCESS, [2, 3], 2) ∧
    ([1, 2, 3] : List Nat).eraseIdx 1 = [1, 3] := by
  decide

end CList

namespace CStack

/-- C39: on the stack `1, 2` (top first), `stackCopy` returns a stack with size `0` and no
element, and the source stack ends with size `4`: every `createNode` is called on the
source stack, and the first new node is stored in the head of the source. -/
theorem stackCopy_returns_empty_and_changes_source :
    (fun r : Stack Nat × Stack Nat =>
        (elements r.2, stackGetSize r.2, r.2.isSome, elements r.1, stackGetSize r.1))
      (stackCopy (natStack [1, 2]) (fun _ => true))
      = ([], 0, true, [1, 2], 4) ∧
    stackGetSize (natStack [1, 2]) = 2 := by
  decide

end CStack

/-! ## Null arguments, the cursor under `mapContains`, and the update scan -/

/-- C31: `setAdd` and `setRemove` with an absent element, `mapPut` with an absent key or
an absent value, and `mapRemove` with an absent key return the null-argument result, and
the collection after the call is the collection before it. -/
theorem null_argument_returns_code_without_mutation {E K V : Type}
    (set : CSet.Set E) (last : CSet.Link) (block : Option CSet.Link)
    (map : CMap.Map K V) (key : Option K) (data : Option V)
    (mallocOk : Bool) :
    CSet.setAdd set last none block = some (set, CSet.SetResult.SET_NULL_ARG, last) ∧
    CSet.setRemove set none = (set, CSet.SetResult.SET_NULL_ARG) ∧
    CMap.mapPut map none data mallocOk = some (map, CMap.MapResult.MAP_NULL_ARGUMENT) ∧
    CMap.mapPut map key none mallocOk = some (map, CMap.MapResult.MAP_NULL_ARGUMENT) ∧
    CMap.mapRemove map none = (map, CMap.MapResult.MAP_NULL_ARGUMENT) := by
  refine ⟨?_, ?_, ?_, ?_, ?_⟩
  · cases set <;> rfl
  · cases set <;> rfl
  · cases map <;> rfl
  · cases map <;> cases key <;> rfl
  · cases map <;> rfl

namespace CMap

/-- C32: the structure after `mapContains(map, k)` is the structure before it, with the
same iterator, chain and size, and an enumeration in which every `mapGetNext` is preceded
by a `mapContains` call returns the same keys and ends in the same structure as the
enumeration without those calls. -/
theorem mapContains_keeps_cursor {K V : Type} (map : Map K V) (k : Option K)
    (probes : List (Option K)) :
    (mapContains_call map k).1 = map ∧
    mapGetNext (mapContains_call map k).1 = mapGetNext map ∧
    mapGetNextN_probing probes map = mapGetNextN probes.length map := by
  refine ⟨rfl, rfl, ?_⟩
  induction probes generalizing map with
  | nil => rfl
  | cons probe rest ih =>
    simp only [mapGetNextN_probing, mapContains_call, List.length_cons, mapGetNextN]
    cases mapGetNext map with
    | none => rfl
    | some r => simp only [ih r.1]

/-- C40: when the comparator gives `0` for `(a, b)` exactly when it gives `0` for `(b, a)`
and `mapContains(map, k)` is true, the chain splits at the first node whose key compares
equal to `k`; the scan of `updateExistingElement` stops at that node, so the call has a
defined result in which only the `data` of that node is replaced, and `mapGet(map, k)`
reads that same node, before the call and after it. -/
theorem update_scan_stops_at_matching_node {K V : Type} (m : ordered_map_t K V) (k : K)
    (d : V)
    (hsym : ∀ a b, m.compareKeyElements.call a b = 0 ↔ m.compareKeyElements.call b a = 0)
    (hc : mapContains (some m) (some k) = true) :
    ∃ l1 n l2, nodes (some m) = l1 ++ n :: l2 ∧
      (∀ a ∈ l1, m.compareKeyElements.call k a.key ≠ 0) ∧
      m.compareKeyElements.call k n.key = 0 ∧
      updateExistingElement m k d
        = some ({ m with head := l1 ++ { n with data := m.copyDataElement.call d } :: l2 },
            (m.copyDataElement.call d).isSome) ∧
      mapGet (some m) (some k) = n.data ∧
      mapGet (some { m with head := l1 ++ { n with data := m.copyDataElement.call d } :: l2 })
        (some k) = m.copyDataElement.call d := by
  obtain ⟨l1, n, l2, hl, h1, hn, hu⟩ :=
    updateExistingElement_loop_splice m.compareKeyElements.call m.copyDataElement.call k d
      m.head (fun a b h => (hsym a b).1 h) hc
  refine ⟨l1, n, l2, hl, fun a ha h => h1 a ha ((hsym _ _).1 h), (hsym _ _).1 hn, ?_, ?_, ?_⟩
  · simp [updateExistingElement, hu]
  · simp only [mapGet, hl]
    exact mapGet_loop_found _ k l1 l2 n h1 hn
  · simp only [mapGet]
    exact mapGet_loop_found _ k l1 l2 _ h1 hn

/-- C40 at a concrete map: key `2` of the map with keys `1`, `2`, `3` is updated. -/
theorem update_scan_stops_at_matching_node_witness :
    ∃ l1 n l2,
      nodes (natMap natCopy [⟨some 10, 1⟩, ⟨some 20, 2⟩, ⟨some 30, 3⟩]) = l1 ++ n :: l2 ∧
      (∀ a ∈ l1, natCompare.call 2 a.key ≠ 0) ∧
      natCompare.call 2 n.key = 0 ∧
      updateExistingElement
          { head := [⟨some 10, 1⟩, ⟨some 20, 2⟩, ⟨some 30, 3⟩], iterator := none, size := 3,
            copyDataElement := natCopy, copyKeyElement := natCopy,
            freeDataElement := natFreeData, freeKeyElement := natFreeKey,
            compareKeyElements := natCompare } 2 21
        = some ({ head := l1 ++ { n with data := natCopy.call 21 } :: l2, iterator := none,
                  size := 3, copyDataElement := natCopy, copyKeyElement := natCopy,
                  freeDataElement := natFreeData, freeKeyElement := natFreeKey,
                  compareKeyElements := natCompare },
            (natCopy.call 21).isSome) ∧
      mapGet (natMap natCopy [⟨some 10, 1⟩, ⟨some 20, 2⟩, ⟨some 30, 3⟩]) (some 2) = n.data ∧
      mapGet (some { head := l1 ++ { n with data := natCopy.call 21 } :: l2, iterator := none,
                     size := 3, copyDataElement := natCopy, copyKeyElement := natCopy,
                     freeDataElement := natFreeData, freeKeyElement := natFreeKey,
                     compareKeyElements := natCompare })
        (some 2) = natCopy.call 21 :=
  update_scan_stops_at_matching_node
    { head := [⟨some 10, 1⟩, ⟨some 20, 2⟩, ⟨some 30, 3⟩], iterator := none, size := 3,
      copyDataElement := natCopy, copyKeyElement := natCopy, freeDataElement := natFreeData,
      freeKeyElement := natFreeKey, compareKeyElements := natCompare }
    2 21 (fun a b => by simp only [natCompare]; omega) (by decide)

end CMap

/-! ## The sorted list: where `insert` puts the element -/

namespace containers

section Position

variable {T : Type}

theorem insert_loop_take_drop (lt : T → T → Bool) (e : T) (l : List T) :
    l.take (SortedList.insert_loop lt e 0 l) = l.takeWhile (fun x => lt x e) ∧
    l.drop (SortedList.insert_loop lt e 0 l) = l.dropWhile (fun x => lt x e) := by
  induction l with
  | nil => simp [SortedList.insert_loop]
  | cons n rest ih =>
    cases hn : lt n e with
    | true =>
      simp only [SortedList.insert_loop, hn, if_true]
      rw [insert_loop_shift, Nat.add_comm, List.take_succ_cons, List.drop_succ_cons,
        List.takeWhile_cons, List.dropWhile_cons]
      simp only [hn, if_true]
      exact ⟨by rw [ih.1], ih.2⟩
    | false =>
      simp [SortedList.insert_loop, hn, List.takeWhile_cons, List.dropWhile_cons]

theorem pairLt_isStrictWeakOrder : IsStrictWeakOrder pairLt :=
  ⟨fun a => by simp [pairLt],
   fun a b c => by simp only [pairLt, decide_eq_true_eq]; omega,
   fun a b c => by simp only [pairLt, decide_eq_false_iff_not]; omega⟩

end Position

/-- C33, as stated, fails: with an `operator<` that compares first components only, the
sorted list holding `(1, 0)` and the element `(1, 1)`, `insert` gives `(1, 0), (1, 1)`,
while the position before the first element not less than `(1, 1)` gives
`(1, 1), (1, 0)`. -/
theorem insert_after_equivalent_head_counterexample :
    IsStrictWeakOrder pairLt ∧ NonDecreasing pairLt [(1, 0)] ∧
    (SortedList.insert pairLt { addr := 0, head := [(1, 0)], size := 1 } (1, 1)).head
      = [(1, 0), (1, 1)] ∧
    specInsertPosition pairLt [(1, 0)] (1, 1) = [(1, 1), (1, 0)] ∧
    (SortedList.insert pairLt { addr := 0, head := [(1, 0)], size := 1 } (1, 1)).head
      ≠ specInsertPosition pairLt [(1, 0)] (1, 1) := by
  refine ⟨pairLt_isStrictWeakOrder, ?_, by decide, by decide, by decide⟩
  unfold NonDecreasing
  decide

/-- C33, amended: for `operator<` a strict weak order, `insert(e)` on an empty list makes
`e` the only element; on a list whose head is less than `e` or greater than `e`, the new
enumeration is the longest prefix of elements less than `e`, then `e`, then the rest; and
on a list whose head is neither less nor greater than `e`, `e` is spliced after the head,
immediately before the first later element that is not less than `e`. -/
theorem insert_position {T : Type} (lt : T → T → Bool) (l : SortedList T) (e : T)
    (hlt : IsStrictWeakOrder lt) :
    (SortedList.insert lt l e).head
      = match l.head with
        | [] => [e]
        | first :: rest =>
          if lt e first = true ∨ lt first e = true then
            specInsertPosition lt (first :: rest) e
          else first :: specInsertPosition lt rest e := by
  unfold SortedList.insert specInsertPosition
  cases hm : l.head with
  | nil => rfl
  | cons first rest =>
    cases hef : lt e first with
    | true =>
      have hfe : lt first e = false := hlt.asymm hef
      simp [hef, hfe, List.takeWhile_cons, List.dropWhile_cons]
    | false =>
      have h := insert_loop_take_drop lt e rest
      cases hfe : lt first e with
      | true =>
        simp [hef, hfe, h.1, h.2, List.takeWhile_cons, List.dropWhile_cons]
      | false =>
        simp [hef, hfe, h.1, h.2]

/-- C33, amended, at concrete lists: `4` into `1, 3, 5`, and `(1, 1)` into the list
holding `(1, 0)` and `(2, 0)`. -/
theorem insert_position_witness :
    (SortedList.insert natLt { addr := 0, head := [1, 3, 5], size := 3 } 4).head
      = [1, 3, 4, 5] ∧
    (SortedList.insert pairLt { addr := 0, head := [(1, 0), (2, 0)], size := 2 } (1, 1)).head
      = (1, 0) :: specInsertPosition pairLt [(2, 0)] (1, 1) :=
  ⟨(insert_position natLt { addr := 0, head := [1, 3, 5], size := 3 } 4
      natLt_isStrictWeakOrder).trans (by decide),
   (insert_position pairLt { addr := 0, head := [(1, 0), (2, 0)], size := 2 } (1, 1)
      pairLt_isStrictWeakOrder).trans (by decide)⟩

end containers

/-! ## The count field -/

namespace CSet

section Count

variable {E : Type}

theorem setAdd_keeps_count (s : set_t E) (last : Link) (e : Option E) (block : Option Link)
    (hwf : s.size = s.head.length) (r : Set E × SetResult × Link)
    (h : setAdd (some s) last e block = some r) :
    ∃ s1, r.1 = some s1 ∧ s1.size = s1.head.length := by
  cases e with
  | none =>
    simp only [setAdd, Option.some.injEq] at h
    exact ⟨s, by rw [← h], hwf⟩
  | some e =>
    have hcreate : createNodeElement s e block = (s, none) ∨
        ∃ c, createNodeElement s e block = ({ s with size := s.size + 1 }, some c) := by
      unfold createNodeElement
      cases block with
      | none => left; rfl
      | some next =>
        cases hc : s.copyElement.call e with
        | none => left; simp
        | some c => right; exact ⟨⟨c, next⟩, by simp⟩
    unfold setAdd at h
    cases hm : s.head with
    | nil =>
      have h0 : s.size = 0 := by simp [hwf, hm]
      rcases hcreate with hcr | ⟨c, hcr⟩
      · simp only [setIsEmpty, h0, beq_self_eq_true, if_true, hcr, Option.some.injEq] at h
        rw [← h]
        exact ⟨_, rfl, by simp⟩
      · simp only [setIsEmpty, h0, beq_self_eq_true, if_true, hcr, Option.some.injEq] at h
        rw [← h]
        exact ⟨_, rfl, by simp⟩
    | cons ptr next =>
      have h0 : s.size ≠ 0 := by
        rw [hwf, hm]
        simp only [List.length_cons, Nat.cast_add, Nat.cast_one]
        omega
      have h0b : (s.size == 0) = false := by simpa using h0
      simp only [setIsEmpty, h0b, Bool.false_eq_true, if_false, hm] at h
      cases hl : setAdd_loop s.equalElements.call e last ptr next with
      | none => simp [hl] at h
      | some found =>
        cases found with
        | true =>
          simp only [hl, Option.some.injEq] at h
          rw [← h]
          exact ⟨s, rfl, hwf⟩
        | false =>
          rcases hcreate with hcr | ⟨c, hcr⟩
          · simp only [hl, hcr, Option.some.injEq] at h
            rw [← h]
            exact ⟨s, rfl, hwf⟩
          · simp only [hl, hcr, Option.some.injEq] at h
            rw [← h]
            exact ⟨_, rfl, by simp [hwf, hm]⟩

theorem setRemove_loop_length (eq : E → E → Bool) (e : E) (l : List E) (r : E × List E)
    (h : setRemove_loop eq e l = some r) : r.2.length + 1 = l.length := by
  induction l generalizing r with
  | nil => simp [setRemove_loop] at h
  | cons x rest ih =>
    simp only [setRemove_loop] at h
    split at h
    · simp only [Option.some.injEq] at h
      rw [← h]
      simp
    · cases hr : setRemove_loop eq e rest with
      | none => simp [hr] at h
      | some r1 =>
        simp only [hr, Option.map_some', Option.some.injEq] at h
        rw [← h]
        simp only [List.length_cons]
        rw [ih r1 hr]

theorem setClear_loop_eq (s : set_t E) (l : List E) :
    setClear_loop s l = { s with head := [], size := s.size - l.length } := by
  induction l generalizing s with
  | nil => simp [setClear_loop]
  | cons x rest ih =>
    simp only [setClear_loop, removeNodeElement, ih, List.length_cons, Nat.cast_add,
      Nat.cast_one]
    congr 1
    omega

theorem setOps_keep_count (ops : List (SetOp E)) (s : set_t E) (last : Link)
    (hwf : s.size = s.head.length) (r : Set E × Link)
    (h : applyOps (some s) last ops = some r) :
    ∃ s1, r.1 = some s1 ∧ s1.size = s1.head.length := by
  induction ops generalizing s last with
  | nil =>
    simp only [applyOps, Option.some.injEq] at h
    exact ⟨s, by rw [← h], hwf⟩
  | cons op ops ih =>
    have hremove : ∀ e : Option E,
        ∃ s1, (setRemove (some s) e).1 = some s1 ∧ s1.size = s1.head.length := by
      intro e
      cases e with
      | none => exact ⟨s, rfl, hwf⟩
      | some e =>
        cases hr : setRemove_loop s.equalElements.call e s.head with
        | none => exact ⟨s, by simp [setRemove_eq_loop, hr], hwf⟩
        | some r1 =>
          have hlen := setRemove_loop_length _ e s.head r1 hr
          refine ⟨{ s with head := r1.2, size := s.size - 1 },
            by simp [setRemove_eq_loop, hr], ?_⟩
          simp only [hwf]
          omega
    have hstep : ∀ q, applyOp (some s) last op = some q →
        ∃ s1, q.1 = some s1 ∧ s1.size = s1.head.length := by
      intro q hq
      cases op with
      | add e block =>
        simp only [applyOp, Option.map_eq_some'] at hq
        obtain ⟨r1, hr1, hq1⟩ := hq
        obtain ⟨s1, h1, hw⟩ := setAdd_keeps_count s last e block hwf r1 hr1
        exact ⟨s1, by rw [← hq1]; exact h1, hw⟩
      | remove e =>
        obtain ⟨s1, h1, hw⟩ := hremove e
        cases last with
        | null =>
          simp only [applyOp, Option.some.injEq] at hq
          exact ⟨s1, by rw [← hq]; exact h1, hw⟩
        | wild =>
          simp only [applyOp] at hq
          split at hq
          · simp only [Option.some.injEq] at hq
            exact ⟨s1, by rw [← hq]; exact h1, hw⟩
          · exact Option.noConfusion hq
      | clear =>
        cases last with
        | null =>
          simp only [applyOp, Option.some.injEq] at hq
          refine ⟨setClear_loop s s.head, by rw [← hq]; rfl, ?_⟩
          rw [setClear_loop_eq]
          simp [hwf]
        | wild => simp [applyOp] at hq
    simp only [applyOps] at h
    cases hq : applyOp (some s) last op with
    | none => simp [hq] at h
    | some q =>
      obtain ⟨s1, h1, hw1⟩ := hstep q hq
      simp only [hq] at h
      obtain ⟨set1, last1⟩ := q
      simp only at h1
      subst h1
      exact ih s1 last1 hw1 h

end Count

end CSet

namespace CMap

section Count

variable {K V : Type}

theorem addNewElement_keeps_count (m : ordered_map_t K V) (k : K) (d : V) (ok : Bool)
    (hwf : m.size = m.head.length) :
    (addNewElement m k d ok).1.size = (addNewElement m k d ok).1.head.length ∧
    (addNewElement m k d ok).1.compareKeyElements = m.compareKeyElements := by
  unfold addNewElement
  cases ok with
  | false => exact ⟨hwf, rfl⟩
  | true =>
    cases hk : m.copyKeyElement.call k with
    | none => exact ⟨hwf, rfl⟩
    | some key =>
      cases hd : m.copyDataElement.call d with
      | none => exact ⟨hwf, rfl⟩
      | some data =>
        cases hm : m.head with
        | nil => simp [hwf, hm]
        | cons first rest =>
          simp only [if_true]
          split
          · simp [hwf, hm]
          · refine ⟨?_, rfl⟩
            simp only [hwf, hm, List.length_append, List.length_cons, List.length_take,
              List.length_drop]
            have : min (addNewElement_loop m.compareKeyElements.call k 0 rest + 1)
                (rest.length + 1)
                + (rest.length + 1
                    - (addNewElement_loop m.compareKeyElements.call k 0 rest + 1) + 1)
                = rest.length + 1 + 1 := by omega
            rw [this]
            push_cast
            ring

theorem mapRemove_loop_length (cmp : K → K → Int) (k : K) (l : List (Node K V))
    (r : Node K V × List (Node K V)) (h : mapRemove_loop cmp k l = some r) :
    r.2.length + 1 = l.length := by
  induction l generalizing r with
  | nil => simp [mapRemove_loop] at h
  | cons x rest ih =>
    simp only [mapRemove_loop] at h
    split at h
    · simp only [Option.some.injEq] at h
      rw [← h]
      simp
    · cases hr : mapRemove_loop cmp k rest with
      | none => simp [hr] at h
      | some r1 =>
        simp only [hr, Option.map_some', Option.some.injEq] at h
        rw [← h]
        simp only [List.length_cons]
        rw [ih r1 hr]

theorem mapOps_keep_count (ops : List (MapOp K V)) (m : ordered_map_t K V)
    (hsym : ∀ a b, m.compareKeyElements.call a b = 0 → m.compareKeyElements.call b a = 0)
    (hwf : m.size = m.head.length) :
    ∃ m1, applyOps (some m) ops = some (some m1) ∧ m1.size = m1.head.length := by
  induction ops generalizing m with
  | nil => exact ⟨m, rfl, hwf⟩
  | cons op ops ih =>
    have hstep : ∃ m1, applyOp (some m) op = some (some m1) ∧ m1.size = m1.head.length ∧
        m1.compareKeyElements = m.compareKeyElements := by
      cases op with
      | put k d ok =>
        cases k with
        | none => exact ⟨m, by simp [applyOp, mapPut], hwf, rfl⟩
        | some k =>
          cases d with
          | none => exact ⟨m, by simp [applyOp, mapPut], hwf, rfl⟩
          | some d =>
            cases hc : mapContains (some m) (some k) with
            | false =>
              have h := addNewElement_keeps_count m k d ok hwf
              exact ⟨(addNewElement m k d ok).1, by simp [applyOp, mapPut_new m k d ok hc],
                h.1, h.2⟩
            | true =>
              obtain ⟨l1, n, l2, hl, _, _, hu⟩ := mapPut_existing m k d ok hsym hc
              refine ⟨{ m with head := l1 ++ { n with data := m.copyDataElement.call d } :: l2 },
                by simp [applyOp, hu], ?_, rfl⟩
              simp [hwf, hl]
      | remove k =>
        cases k with
        | none => exact ⟨m, rfl, hwf, rfl⟩
        | some k =>
          cases hr : mapRemove_loop m.compareKeyElements.call k m.head with
          | none => exact ⟨m, by simp [applyOp, mapRemove_eq_loop, hr], hwf, rfl⟩
          | some r =>
            have hlen := mapRemove_loop_length _ k m.head r hr
            refine ⟨{ m with head := r.2, size := m.size - 1 },
              by simp [applyOp, mapRemove_eq_loop, hr], ?_, rfl⟩
            simp only [hwf]
            omega
      | clear =>
        refine ⟨mapClear_loop m m.head, rfl, ?_, ?_⟩
        · rw [mapClear_loop_eq]
          simp [hwf]
        · rw [mapClear_loop_eq]
    obtain ⟨m1, h1, hw1, hc1⟩ := hstep
    obtain ⟨m2, h2, hw2⟩ := ih m1 (by rw [hc1]; exact hsym) hw1
    exact ⟨m2, by simp [applyOps, h1, h2], hw2⟩

end Count

end CMap

namespace containers

section Count

variable {T : Type}

theorem insert_keeps_count (lt : T → T → Bool) (l : SortedList T) (e : T)
    (hwf : l.size = l.head.length) :
    (SortedList.insert lt l e).size = (SortedList.insert lt l e).head.length := by
  unfold SortedList.insert
  cases hm : l.head with
  | nil => simp [hwf, hm]
  | cons first rest =>
    simp only
    split
    · simp [hwf, hm]
    · simp only [hwf, hm, List.length_append, List.length_cons, List.length_take,
        List.length_drop]
      have : min (SortedList.insert_loop lt e 0 rest + 1) (rest.length + 1)
          + (rest.length + 1 - (SortedList.insert_loop lt e 0 rest + 1) + 1)
          = rest.length + 1 + 1 := by omega
      rw [this]
      push_cast
      ring

theorem applyListOps_keeps_count (lt : T → T → Bool) (ops : List (ListOp T))
    (l : SortedList T) (hwf : l.size = l.head.length) (hv : cursorsValid lt l ops) :
    ∃ l1, applyListOps lt l ops = some l1 ∧ l1.size = l1.head.length := by
  induction ops generalizing l with
  | nil => exact ⟨l, rfl, hwf⟩
  | cons op ops ih =>
    cases op with
    | insert e => exact ih _ (insert_keeps_count lt l e hwf) hv
    | remove it =>
      simp only [cursorsValid] at hv
      have hv2 := hv.2
      rcases remove_valid l it hv.1 with h | ⟨i, hi, _, h⟩
      · rw [h] at hv2
        obtain ⟨l1, h1, h2⟩ := ih l hwf hv2
        exact ⟨l1, by simp [applyListOps, applyListOp, h, h1], h2⟩
      · rw [h] at hv2
        obtain ⟨l1, h1, h2⟩ := ih _ (by
          simp only [hwf, List.length_eraseIdx, hi, if_true]
          omega) hv2
        exact ⟨l1, by simp [applyListOps, applyListOp, h, h1], h2⟩

end Count

end containers

/-- The calls that insert and remove keep the count: after any finite sequence of `setAdd`,
`setRemove` and `setClear` calls on a set made by `setCreate` that has a defined result,
of `mapPut`, `mapRemove` and `mapClear` calls on a map made by `mapCreate` (the comparator
giving `0` for `(b, a)` whenever it gives `0` for `(a, b)`), and of `insert` calls whose
`new` succeeds and `remove` calls with valid cursors on an empty `SortedList`, the count
reported by `setGetSize`, `mapGetSize`, `length()` is the number of nodes the calls linked
and did not unlink. -/
theorem count_kept_by_insertion_and_removal {E K V T : Type}
    (c : FnPtr E (Option E)) (f : FnPtr E Unit) (q : FnPtr E (E → Bool))
    (setOps : List (CSet.SetOp E))
    (cd : FnPtr V (Option V)) (ck : FnPtr K (Option K)) (fd : FnPtr (Option V) Unit)
    (fk : FnPtr K Unit) (cmp : FnPtr K (K → Int)) (mapOps : List (CMap.MapOp K V))
    (lt : T → T → Bool) (addr : Nat) (listOps : List (containers.ListOp T))
    (hsym : ∀ a b, cmp.call a b = 0 → cmp.call b a = 0)
    (hv : containers.cursorsValid lt (containers.SortedList.empty addr) listOps) :
    (∀ r, CSet.applyOps (CSet.setCreate (some c) (some f) (some q) true) CSet.Link.null setOps
        = some r → CSet.setGetSize r.1 = (CSet.elements r.1).length) ∧
    (∃ m, CMap.applyOps
        (CMap.mapCreate (some cd) (some ck) (some fd) (some fk) (some cmp) true) mapOps
        = some m ∧
      CMap.mapGetSize m = (CMap.nodes m).length) ∧
    (∃ l, containers.applyListOps lt (containers.SortedList.empty addr) listOps = some l ∧
      containers.SortedList.length l = l.head.length) := by
  refine ⟨?_, ?_, ?_⟩
  · intro r hr
    obtain ⟨s1, h1, h2⟩ := CSet.setOps_keep_count setOps
      { head := [], iterator := none, size := 0, copyElement := c, freeElement := f,
        equalElements := q } CSet.Link.null (by simp) r (by simpa [CSet.setCreate] using hr)
    rw [h1]
    exact h2
  · obtain ⟨m1, h1, h2⟩ := CMap.mapOps_keep_count mapOps
      { head := [], iterator := none, size := 0, copyDataElement := cd, copyKeyElement := ck,
        freeDataElement := fd, freeKeyElement := fk, compareKeyElements := cmp } hsym
      (by simp)
    exact ⟨some m1, by simpa [CMap.mapCreate] using h1, h2⟩
  · obtain ⟨l1, h1, h2⟩ := containers.applyListOps_keeps_count lt listOps
      (containers.SortedList.empty addr) (by simp [containers.SortedList.empty]) hv
    exact ⟨l1, h1, h2⟩

/-- C34: two runs of public calls after which the count is not the number of nodes
reachable from the head. `SortedList<int> a, b; b.insert(1); a = b;` with the `new` of
`copy` failing: `copy` stores the count of `b` before it allocates, so `std::bad_alloc`
leaves `a` with `length()` equal to `1` and no node. `setCreate` followed by `setAdd(set,
1)` on a block that holds a wild pointer where `next` is stored: the count is `1`, the
chain from the head does not end after the node counted, and a further `setAdd` of `2`,
which walks the chain, has no defined result. -/
theorem count_is_not_number_of_reachable_nodes :
    (containers.SortedList.assign (containers.SortedList.empty 0)
        (containers.SortedList.insert containers.natLt (containers.SortedList.empty 1) 1)
        (fun _ => false)).map
      (fun r => (containers.SortedList.length r.1, r.1.head, r.2)) = some (1, [], true) ∧
    (CSet.applyOps
        (CSet.setCreate (some CSet.natCopy) (some CSet.natFree) (some CSet.natEqual) true)
        CSet.Link.null [CSet.SetOp.add (some 1) (some CSet.Link.wild)]).map
      (fun r => (CSet.setGetSize r.1, CSet.elements r.1, r.2))
      = some (1, [1], CSet.Link.wild) ∧
    (CSet.applyOps
        (CSet.setCreate (some CSet.natCopy) (some CSet.natFree) (some CSet.natEqual) true)
        CSet.Link.null
        [CSet.SetOp.add (some 1) (some CSet.Link.wild),
         CSet.SetOp.add (some 2) (some CSet.Link.null)]).isNone = true := by
  decide

/-! ## The ordered map: the order of insertions -/

namespace CMap

section Commute

variable {K V : Type}

theorem IsTotalOrder.zero_trans {cmp : K → K → Int} (h : IsTotalOrder cmp) {a b c : K}
    (hab : cmp a b = 0) (hbc : cmp b c = 0) : cmp a c = 0 := by
  have e1 := h.zero_symm hab
  have e2 := h.zero_symm hbc
  have h1 := h.le_trans a b c (by omega) (by omega)
  have h2 := h.le_trans c b a (by omega) (by omega)
  have s1 := h.swap a c
  have s2 := h.swap c a
  omega

theorem ascending_unique_key {cmp : K → K → Int} (hcmp : IsTotalOrder cmp)
    (l : List (Node K V)) (hasc : Ascending cmp l) (x y : Node K V)
    (hx : x ∈ l) (hy : y ∈ l) (hxy : cmp x.key y.key = 0) : x = y := by
  by_contra hne
  have hp : l.Pairwise (fun a b : Node K V => cmp a.key b.key ≠ 0) :=
    List.Pairwise.imp (fun h => by omega) hasc
  have hs : Symmetric (fun a b : Node K V => cmp a.key b.key ≠ 0) :=
    fun a b h h0 => h (hcmp.zero_symm h0)
  exact hp.forall hs hx hy hne hxy

theorem ascending_ext {cmp : K → K → Int} (hcmp : IsTotalOrder cmp)
    (l1 l2 : List (Node K V)) (h1 : Ascending cmp l1) (h2 : Ascending cmp l2)
    (hmem : ∀ x, x ∈ l1 ↔ x ∈ l2) : l1 = l2 := by
  have hirr : ∀ a : Node K V, ¬ cmp a.key a.key < 0 := by
    intro a h
    have := (hcmp.swap a.key a.key).1 h
    omega
  have hnd : ∀ l : List (Node K V), Ascending cmp l → l.Nodup := by
    intro l hl
    have hp : l.Pairwise (fun a b : Node K V => a ≠ b) := by
      refine List.Pairwise.imp ?_ hl
      intro a b h hab
      rw [hab] at h
      exact hirr b h
    exact hp
  have hperm : l1.Perm l2 := (List.perm_ext_iff_of_nodup (hnd l1 h1) (hnd l2 h2)).2 hmem
  haveI : IsAntisymm (Node K V) (fun a b => cmp a.key b.key < 0) :=
    ⟨fun a b hab hba => by
      have := (hcmp.swap a.key b.key).1 hab
      omega⟩
  exact List.eq_of_perm_of_sorted hperm h1 h2

theorem mapPut_effect (m : ordered_map_t K V) (k : K) (v : V) (kc : K) (vc : V)
    (hcmp : IsTotalOrder m.compareKeyElements.call)
    (hkeep : CopyKeepsKey m.compareKeyElements.call m.copyKeyElement.call)
    (hasc : Ascending m.compareKeyElements.call m.head)
    (hkc : m.copyKeyElement.call k = some kc) (hvc : m.copyDataElement.call v = some vc) :
    ∃ H S N, mapPut (some m) (some k) (some v) true
        = some (some { m with head := H, size := S }, MapResult.MAP_SUCCESS) ∧
      Ascending m.compareKeyElements.call H ∧
      S + m.head.length = m.size + H.length ∧
      m.compareKeyElements.call N.key k = 0 ∧ N.data = some vc ∧
      (∀ n ∈ m.head, m.compareKeyElements.call n.key k = 0 → N.key = n.key) ∧
      ((∀ n ∈ m.head, m.compareKeyElements.call n.key k ≠ 0) → N.key = kc) ∧
      (∀ x, x ∈ H ↔ x = N ∨ (x ∈ m.head ∧ m.compareKeyElements.call x.key k ≠ 0)) := by
  cases hc : mapContains (some m) (some k) with
  | true =>
    obtain ⟨l1, n, l2, hl, h1, hn, hu⟩ :=
      mapPut_existing m k v true (fun _ _ h => hcmp.zero_symm h) hc
    have hasc1 := hasc
    unfold Ascending at hasc1
    rw [hl, List.pairwise_append] at hasc1
    have hl2 : ∀ b ∈ l2, m.compareKeyElements.call b.key k ≠ 0 := by
      intro b hb h0
      have hlt := (List.pairwise_cons.1 hasc1.2.1).1 b hb
      have e1 := hcmp.zero_symm hn
      have e2 := hcmp.le_trans b.key k n.key (by omega) (by omega)
      have e3 := (hcmp.swap n.key b.key).1 hlt
      omega
    refine ⟨l1 ++ ⟨some vc, n.key⟩ :: l2, m.size, ⟨some vc, n.key⟩, ?_, ?_, ?_, hn, rfl,
      ?_, ?_, ?_⟩
    · rw [hu, hvc]
      simp
    · exact ascending_of_keys_eq m.head _ (by simp [hl]) hasc
    · simp [hl]
    · intro n0 hn0 h0
      have : n0 = n := ascending_unique_key hcmp m.head hasc n0 n hn0 (by rw [hl]; simp)
        (hcmp.zero_trans h0 (hcmp.zero_symm hn))
      rw [this]
    · intro hall
      exact absurd hn (hall n (by rw [hl]; simp))
    · intro x
      rw [hl]
      simp only [List.mem_append, List.mem_cons]
      constructor
      · rintro (hx | rfl | hx)
        · exact Or.inr ⟨Or.inl hx, h1 x hx⟩
        · exact Or.inl rfl
        · exact Or.inr ⟨Or.inr (Or.inr hx), hl2 x hx⟩
      · rintro (rfl | ⟨hx | rfl | hx, hne⟩)
        · exact Or.inr (Or.inl rfl)
        · exact Or.inl hx
        · exact absurd hn hne
        · exact Or.inr (Or.inr hx)
  | false =>
    have hput := mapPut_new m k v true hc
    have hnot := (mapContains_loop_false_iff m.compareKeyElements.call k m.head).1 hc
    rcases addNewElement_splice m k v true hcmp hasc hc with hf | h
    · have hs := (addNewElement_snd m k v true).2 ⟨rfl, by simp [hkc], by simp [hvc]⟩
      rw [hf] at hs
      exact Bool.noConfusion hs
    · obtain ⟨key, data, l1, l2, _, hk, hd, hadd, hhead, h1, h2⟩ := h
      rw [hkc] at hk
      rw [hvc] at hd
      simp only [Option.some.injEq] at hk hd
      subst hk
      subst hd
      have hkk := hkeep k kc hkc
      have hkk1 := hcmp.zero_symm hkk
      refine ⟨l1 ++ ⟨some vc, kc⟩ :: l2, m.size + 1, ⟨some vc, kc⟩, ?_, ?_, ?_, hkk1, rfl,
        ?_, fun _ => rfl, ?_⟩
      · rw [hput, hadd]
        simp
      · apply ascending_splice
        · rw [← hhead]; exact hasc
        · intro a ha
          exact hcmp.lt_of_lt_of_le (h1 a ha) (by simp only; omega)
        · intro b hb
          exact hcmp.lt_of_le_of_lt (by simp only; omega) (h2 b hb)
      · simp only [hhead, List.length_append, List.length_cons]
        push_cast
        ring
      · intro n hn h0
        exact absurd h0 (hnot n hn)
      · intro x
        rw [hhead]
        simp only [List.mem_append, List.mem_cons]
        constructor
        · rintro (hx | rfl | hx)
          · exact Or.inr ⟨Or.inl hx, hnot x (by rw [hhead]; simp [hx])⟩
          · exact Or.inl rfl
          · exact Or.inr ⟨Or.inr hx, hnot x (by rw [hhead]; simp [hx])⟩
        · rintro (rfl | ⟨hx | hx, _⟩)
          · exact Or.inr (Or.inl rfl)
          · exact Or.inl hx
          · exact Or.inr (Or.inr hx)

theorem node_eq_after_other_put {cmp : K → K → Int} (hcmp : IsTotalOrder cmp)
    (l H1 : List (Node K V)) (k1 k2 kc2 : K) (vc2 : V) (N1 N2 N2a : Node K V)
    (hk : cmp k1 k2 ≠ 0) (hN1 : cmp N1.key k1 = 0)
    (hmem1 : ∀ x, x ∈ H1 ↔ x = N1 ∨ (x ∈ l ∧ cmp x.key k1 ≠ 0))
    (hd : N2.data = some vc2) (hda : N2a.data = some vc2)
    (h3 : ∀ n ∈ l, cmp n.key k2 = 0 → N2.key = n.key)
    (h4 : (∀ n ∈ l, cmp n.key k2 ≠ 0) → N2.key = kc2)
    (h3a : ∀ n ∈ H1, cmp n.key k2 = 0 → N2a.key = n.key)
    (h4a : (∀ n ∈ H1, cmp n.key k2 ≠ 0) → N2a.key = kc2) : N2a = N2 := by
  have hkey : N2a.key = N2.key := by
    by_cases hex : ∃ n ∈ l, cmp n.key k2 = 0
    · obtain ⟨n, hn, hn0⟩ := hex
      have hn1 : cmp n.key k1 ≠ 0 := by
        intro h0
        exact hk (hcmp.zero_trans (hcmp.zero_symm h0) hn0)
      rw [h3 n hn hn0, h3a n ((hmem1 n).2 (Or.inr ⟨hn, hn1⟩)) hn0]
    · push_neg at hex
      rw [h4 hex]
      apply h4a
      intro n hn
      rcases (hmem1 n).1 hn with rfl | ⟨hn, _⟩
      · intro h0
        exact hk (hcmp.zero_trans (hcmp.zero_symm hN1) h0)
      · exact hex n hn
  cases N2a
  cases N2
  simp_all

theorem or_and_swap {p1 p2 M A B : Prop} (f1 : p1 → B) (f2 : p2 → A) :
    (p2 ∨ ((p1 ∨ (M ∧ A)) ∧ B)) ↔ (p1 ∨ ((p2 ∨ (M ∧ B)) ∧ A)) := by
  tauto

theorem or_and_absorb {p M A : Prop} : (p ∨ ((p ∨ (M ∧ A)) ∧ A)) ↔ (p ∨ (M ∧ A)) := by
  tauto

end Commute

/-- C36: on a map with strictly ascending keys, with a comparator that is a consistent
total order and a key duplication that returns an equal key, for two keys that do not
compare equal and with every allocation and duplication succeeding, `mapPut(k1, v1)`
followed by `mapPut(k2, v2)` and `mapPut(k2, v2)` followed by `mapPut(k1, v1)` both
succeed and end in the same map, with the same sequence of key/value pairs; and a second
`mapPut(k1, v1)` succeeds and leaves the map as the first one made it. -/
theorem mapPut_order_independent {K V : Type} (m : ordered_map_t K V) (k1 k2 : K)
    (v1 v2 : V)
    (hcmp : IsTotalOrder m.compareKeyElements.call)
    (hkeep : CopyKeepsKey m.compareKeyElements.call m.copyKeyElement.call)
    (hasc : Ascending m.compareKeyElements.call m.head)
    (hk : m.compareKeyElements.call k1 k2 ≠ 0)
    (hk1 : (m.copyKeyElement.call k1).isSome = true)
    (hk2 : (m.copyKeyElement.call k2).isSome = true)
    (hv1 : (m.copyDataElement.call v1).isSome = true)
    (hv2 : (m.copyDataElement.call v2).isSome = true) :
    ∃ mA m1,
      (mapPut (some m) (some k1) (some v1) true).bind
          (fun r => mapPut r.1 (some k2) (some v2) true)
        = some (some mA, MapResult.MAP_SUCCESS) ∧
      (mapPut (some m) (some k2) (some v2) true).bind
          (fun r => mapPut r.1 (some k1) (some v1) true)
        = some (some mA, MapResult.MAP_SUCCESS) ∧
      mapPut (some m) (some k1) (some v1) true = some (some m1, MapResult.MAP_SUCCESS) ∧
      mapPut (some m1) (some k1) (some v1) true = some (some m1, MapResult.MAP_SUCCESS) := by
  obtain ⟨kc1, hkc1⟩ := Option.isSome_iff_exists.1 hk1
  obtain ⟨kc2, hkc2⟩ := Option.isSome_iff_exists.1 hk2
  obtain ⟨vc1, hvc1⟩ := Option.isSome_iff_exists.1 hv1
  obtain ⟨vc2, hvc2⟩ := Option.isSome_iff_exists.1 hv2
  have hkr : m.compareKeyElements.call k2 k1 ≠ 0 := fun h => hk (hcmp.zero_symm h)
  obtain ⟨H1, S1, N1, hp1, ha1, hs1, hN1, hd1, h31, h41, hm1⟩ :=
    mapPut_effect m k1 v1 kc1 vc1 hcmp hkeep hasc hkc1 hvc1
  obtain ⟨H2, S2, N2, hp2, ha2, hs2, hN2, hd2, h32, h42, hm2⟩ :=
    mapPut_effect m k2 v2 kc2 vc2 hcmp hkeep hasc hkc2 hvc2
  obtain ⟨H12, S12, N2a, hp12, ha12, hs12, _, hd2a, h32a, h42a, hm12⟩ :=
    mapPut_effect { m with head := H1, size := S1 } k2 v2 kc2 vc2 hcmp hkeep ha1 hkc2 hvc2
  obtain ⟨H21, S21, N1a, hp21, ha21, hs21, _, hd1a, h31a, h41a, hm21⟩ :=
    mapPut_effect { m with head := H2, size := S2 } k1 v1 kc1 vc1 hcmp hkeep ha2 hkc1 hvc1
  obtain ⟨H11, S11, N1b, hp11, ha11, hs11, _, hd1b, h31b, _, hm11⟩ :=
    mapPut_effect { m with head := H1, size := S1 } k1 v1 kc1 vc1 hcmp hkeep ha1 hkc1 hvc1
  simp only at hs12 hs21 hs11 ha12 ha21 ha11 hm12 hm21 hm11 h32a h42a h31a h41a h31b
  have e2 : N2a = N2 := node_eq_after_other_put hcmp m.head H1 k1 k2 kc2 vc2 N1 N2 N2a
    hk hN1 hm1 hd2 hd2a h32 h42 h32a h42a
  have e1 : N1a = N1 := node_eq_after_other_put hcmp m.head H2 k2 k1 kc1 vc1 N2 N1 N1a
    hkr hN2 hm2 hd1 hd1a h31 h41 h31a h41a
  have hN1k2 : m.compareKeyElements.call N1.key k2 ≠ 0 :=
    fun h0 => hk (hcmp.zero_trans (hcmp.zero_symm hN1) h0)
  have hN2k1 : m.compareKeyElements.call N2.key k1 ≠ 0 :=
    fun h0 => hkr (hcmp.zero_trans (hcmp.zero_symm hN2) h0)
  have hH : H12 = H21 := by
    apply ascending_ext hcmp H12 H21 ha12 ha21
    intro x
    rw [hm12, hm21, hm1, hm2, e1, e2]
    exact or_and_swap (fun h => by rw [h]; exact hN1k2) (fun h => by rw [h]; exact hN2k1)
  have e1b : N1b = N1 := by
    have hin : N1 ∈ H1 := (hm1 N1).2 (Or.inl rfl)
    have hkey := h31b N1 hin hN1
    cases N1b
    cases N1
    simp_all
  have hH11 : H11 = H1 := by
    apply ascending_ext hcmp H11 H1 ha11 ha1
    intro x
    rw [hm11, hm1, e1b]
    exact or_and_absorb
  have hS : S12 = S21 := by
    rw [hH] at hs12
    omega
  have hS11 : S11 = S1 := by
    rw [hH11] at hs11
    omega
  refine ⟨{ m with head := H12, size := S12 }, { m with head := H1, size := S1 },
    ?_, ?_, hp1, ?_⟩
  · rw [hp1]
    exact hp12
  · rw [hp2, hH, hS]
    exact hp21
  · rw [hp11, hH11, hS11]

/-- C36 at a concrete map: keys `4` (new) and `2` (present) are put in both orders into
the map with keys `1`, `2`, `3`. -/
theorem mapPut_order_independent_witness :
    (∃ mA m1,
      (mapPut (natMap natCopy [⟨some 10, 1⟩, ⟨some 20, 2⟩, ⟨some 30, 3⟩]) (some 4) (some 40)
          true).bind (fun r => mapPut r.1 (some 2) (some 21) true)
        = some (some mA, MapResult.MAP_SUCCESS) ∧
      (mapPut (natMap natCopy [⟨some 10, 1⟩, ⟨some 20, 2⟩, ⟨some 30, 3⟩]) (some 2) (some 21)
          true).bind (fun r => mapPut r.1 (some 4) (some 40) true)
        = some (some mA, MapResult.MAP_SUCCESS) ∧
      mapPut (natMap natCopy [⟨some 10, 1⟩, ⟨some 20, 2⟩, ⟨some 30, 3⟩]) (some 4) (some 40)
          true = some (some m1, MapResult.MAP_SUCCESS) ∧
      mapPut (some m1) (some 4) (some 40) true = some (some m1, MapResult.MAP_SUCCESS)) ∧
    ((mapPut (natMap natCopy [⟨some 10, 1⟩, ⟨some 20, 2⟩, ⟨some 30, 3⟩]) (some 4) (some 40)
        true).bind (fun r => mapPut r.1 (some 2) (some 21) true)).map
      (fun r => (nodes r.1, mapGetSize r.1))
      = some ([⟨some 10, 1⟩, ⟨some 21, 2⟩, ⟨some 30, 3⟩, ⟨some 40, 4⟩], 4) :=
  ⟨mapPut_order_independent
      { head := [⟨some 10, 1⟩, ⟨some 20, 2⟩, ⟨some 30, 3⟩], iterator := none, size := 3,
        copyDataElement := natCopy, copyKeyElement := natCopy,
        freeDataElement := natFreeData, freeKeyElement := natFreeKey,
        compareKeyElements := natCompare }
      4 2 40 21 natCompare_isTotalOrder natCopy_keepsKey
      (by unfold Ascending; simp [natCompare]) (by simp [natCompare]) rfl rfl rfl rfl,
   by decide⟩

end CMap
